import Mathlib

/-!
# Verification of the migen data-flow graph elaboration engine

A shallow embedding of src/migen/flow/network.py: the `ActorNode` /
`DataFlowGraph` data model, the three-pass `elaborate()` pipeline
(subrecord/divergence rewriting by Combinator/Splitter insertion, optional
optimizer, actor instantiation with plumbing-layout fixpoint inference and
default endpoint resolution), together with theorems settling the frozen
claims about this code.

Modelling conventions:
* Python dictionaries that hold edge attributes are association lists with
  Python equality on values (`PyVal`, where a single `none` constructor plays
  the role of Python None for both endpoint names and subrecord projections).
* Graph nodes are identified by a numeric id standing for Python object
  identity; node states mirror the deferred/concrete attribute split of
  `ActorNode`.
* The graph is the `networkx.MultiDiGraph` the code subclasses: an
  insertion-ordered node list plus an insertion-ordered edge list.  Edge
  iteration (`edges_iter`) follows networkx adjacency order: grouped by
  source node in node-insertion order, then per source by edge insertion.
* The actor capability (migen/flow/actor.py) and the plumbing actor kinds
  (migen/flow/plumbing.py) are not under src/; they are modelled from the
  spec where marked.
-/

/-- A Python value as it appears in edge-attribute dictionaries: `None`,
a string (endpoint names), or a subrecord projection (a list of record field
names).  A single `none` constructor mirrors Python, where `None == None`
regardless of which attribute it sits in. -/
inductive PyVal where
  | none : PyVal
  | str : String → PyVal
  | proj : List String → PyVal
deriving DecidableEq, Repr

/-- Endpoint polarity of an actor endpoint. -/
inductive Pol where
  | source : Pol
  | sink : Pol
deriving DecidableEq, Repr

/-- A record layout: the field schema of an endpoint.  Only equality and
restriction matter to the elaboration engine, so a list of field names. -/
abbrev Layout := List String

/-- Modelled from the spec: the actor capability of migen/flow/actor.py
(not under src/).  An actor exposes named, polarity-tagged endpoints, each
with a record layout (spec section 6). -/
structure Actor where
  name : Option String := Option.none
  eps : List (String × Pol × Layout)
deriving DecidableEq, Repr

/-- Modelled from the spec: `single_source()` returns the sole source
endpoint name, or fails when the actor does not have exactly one source
endpoint (spec section 6: fail if the count is not exactly one). -/
def Actor.single_source (a : Actor) : Option String :=
  match a.eps.filter (fun e => e.2.1 == Pol.source) with
  | [e] => Option.some e.1
  | _ => Option.none

/-- Modelled from the spec: `single_sink()`, symmetric to
`Actor.single_source`. -/
def Actor.single_sink (a : Actor) : Option String :=
  match a.eps.filter (fun e => e.2.1 == Pol.sink) with
  | [e] => Option.some e.1
  | _ => Option.none

/-- Modelled from the spec: `token(ep).layout()` — the layout of the named
endpoint; a missing endpoint is a lookup fault (Python KeyError). -/
def Actor.tokenLayout (a : Actor) (ep : String) : Option Layout :=
  match a.eps.find? (fun e => e.1 == ep) with
  | Option.some e => Option.some e.2.2
  | Option.none => Option.none

/-- Modelled from the spec: a user (non-plumbing) actor class, i.e. the
class reference held by a deferred `ActorNode`.  Constructing it yields an
actor with the class-determined endpoints; the constructor parameters do
not influence the elaboration engine, so they are not part of the class
model. -/
structure UserClass where
  eps : List (String × Pol × Layout)
deriving DecidableEq, Repr

/-- The class reference stored in an abstract `ActorNode`: one of the two
plumbing kinds (Combinator, Splitter, spec section 6; migen/flow/plumbing.py
is not under src/) or a user class. -/
inductive ActorClass where
  | combinator : ActorClass
  | splitter : ActorClass
  | user : UserClass → ActorClass
deriving DecidableEq, Repr

/-- `plumbing.actors` membership: the auto-inserted adapter kinds. -/
def ActorClass.isPlumbing : ActorClass → Bool
  | .combinator => true
  | .splitter => true
  | .user _ => false

/-- Modelled from the spec: `plumbing.layout_sink` membership — the plumbing
kinds whose layout is inferred through their single *inbound* edge.  The
Splitter is the plumbing kind with a single sink endpoint (spec section 6:
one numbered set of endpoints of one polarity and a single endpoint of the
other; glossary: Splitter is one source → many sinks), hence the only kind
for which `_infer_plumbing_layout`'s inbound branch, which asserts exactly
one inbound edge (network.py line 162), can succeed on rewrite-produced
plumbing.  NB the spec's section 4.3 narrative assigns the roles the other
way around; that inconsistency is settled by claim C4. -/
def ActorClass.inLayoutSink : ActorClass → Bool
  | .splitter => true
  | _ => false

/-- Modelled from the spec: `plumbing.layout_source` membership — the
plumbing kinds whose layout is inferred through their single *outbound*
edge: the Combinator (single source endpoint, numbered sinks). -/
def ActorClass.inLayoutSource : ActorClass → Bool
  | .combinator => true
  | _ => false

/-- The constructor parameters held by a deferred node, as far as the
elaboration engine reads or writes them: the plumbing `subrecords` list
(set by pass 1) and the plumbing `layout` (set by layout inference).
Parameters of user classes do not influence elaboration. -/
structure Params where
  subrecords : List PyVal := []
  layout : Option Layout := Option.none
deriving DecidableEq, Repr

/-- The deferred/concrete state of an `ActorNode` (network.py lines 14-30):
either an (actor_class, parameters) pair or an instantiated actor. -/
inductive NodeSt where
  | deferred : ActorClass → Params → NodeSt
  | concrete : Actor → NodeSt
deriving DecidableEq, Repr

/-- A graph node: the numeric id models Python object identity; `name` is
the display name copied onto the actor at instantiation. -/
structure ActorNode where
  id : Nat
  name : Option String := Option.none
  st : NodeSt
deriving DecidableEq, Repr

/-- `ActorNode.is_abstract` (network.py line 23): true when the node still
holds a class reference. -/
def ActorNode.is_abstract (n : ActorNode) : Bool :=
  match n.st with
  | .deferred _ _ => true
  | .concrete _ => false

/-- Restriction of a layout by a subrecord projection (`layout_partial`
of the external record library): `None` keeps the whole record. -/
def projLayout (l : Layout) : PyVal → Layout
  | .proj p => l.filter (fun f => p.contains f)
  | _ => l

/-- `ActorNode.instantiate` (network.py lines 26-30): constructs the actor
from the stored class and parameters and transitions to concrete.  For the
plumbing kinds the endpoints follow spec section 6 (modelled from the spec:
plumbing.py is not under src/): a Combinator has a single source `source`
of the full layout plus numbered sinks `sink0..sinkN-1`, a Splitter a
single sink `sink` plus numbered sources `source0..sourceN-1`.  Calling it
on a concrete node, or constructing a plumbing actor without a layout, is a
fault (`Option.none`). -/
def ActorNode.instantiate (n : ActorNode) : Option ActorNode :=
  match n.st with
  | .concrete _ => Option.none
  | .deferred cls p =>
    match cls with
    | .user u => Option.some { n with st := .concrete ⟨n.name, u.eps⟩ }
    | .combinator =>
      match p.layout with
      | Option.none => Option.none
      | Option.some l =>
        let sinks := p.subrecords.enum.map
          (fun nr => ("sink" ++ toString nr.1, Pol.sink, projLayout l nr.2))
        Option.some { n with st := .concrete ⟨n.name, ("source", Pol.source, l) :: sinks⟩ }
    | .splitter =>
      match p.layout with
      | Option.none => Option.none
      | Option.some l =>
        let sources := p.subrecords.enum.map
          (fun nr => ("source" ++ toString nr.1, Pol.source, projLayout l nr.2))
        Option.some { n with st := .concrete ⟨n.name, ("sink", Pol.sink, l) :: sources⟩ }

/-- An edge of the multigraph, with its networkx attribute dictionary
(an association list, keys `source`, `sink`, `source_subr`, `sink_subr`
for edges made by `add_connection`). -/
structure Edge where
  src : Nat
  dst : Nat
  data : List (String × PyVal)
deriving DecidableEq, Repr

/-- Dictionary lookup in an edge-attribute dictionary; the engine only
reads keys that `add_connection` always writes. -/
def dget (d : List (String × PyVal)) (k : String) : PyVal :=
  match d.find? (fun kv => kv.1 == k) with
  | Option.some kv => kv.2
  | Option.none => PyVal.none

/-- The attribute dictionary written by `add_connection` (network.py
lines 58-60), in its fixed key order. -/
def stdData (source sink source_subr sink_subr : PyVal) : List (String × PyVal) :=
  [("source", source), ("sink", sink), ("source_subr", source_subr), ("sink_subr", sink_subr)]

/-- The `DataFlowGraph` state: insertion-ordered node and edge lists, a
fresh-id counter standing for Python object allocation, and the monotone
`elaborated` flag (network.py lines 48-51). -/
structure DFG where
  nodes : List ActorNode := []
  edges : List Edge := []
  nextId : Nat := 0
  elaborated : Bool := false
deriving DecidableEq, Repr

/-- networkx node addition: a node referenced by `add_edge` is appended to
the node set when not already present (object identity = id). -/
def DFG.addNode (g : DFG) (n : ActorNode) : DFG :=
  if g.nodes.any (fun m => m.id == n.id) then g
  else { g with nodes := g.nodes ++ [n] }

/-- The node object with the given id (id = Python object identity; total
with a junk default for ids absent from the graph, which the engine never
looks up). -/
def DFG.nodeOf (g : DFG) (i : Nat) : ActorNode :=
  match g.nodes.find? (fun m => m.id == i) with
  | Option.some n => n
  | Option.none => ⟨i, Option.none, .concrete ⟨Option.none, []⟩⟩

/-- `DataFlowGraph.add_connection` (network.py lines 53-60): adds both
endpoint nodes when missing and always appends a fresh parallel edge. -/
def DFG.add_connection (g : DFG) (source_node sink_node : ActorNode)
    (source_ep : PyVal := PyVal.none) (sink_ep : PyVal := PyVal.none)
    (source_subr : PyVal := PyVal.none) (sink_subr : PyVal := PyVal.none) : DFG :=
  let g := (g.addNode source_node).addNode sink_node
  { g with edges := g.edges ++
      [⟨source_node.id, sink_node.id, stdData source_ep sink_ep source_subr sink_subr⟩] }

/-- The edge-matching test of `del_connections` (network.py lines 69-70):
`all(k not in data_requirements or data_requirements[k] == v for k, v in
data.items())` — every key of the edge's own dictionary is either absent
from the requirements or agrees with them.  Requirement keys absent from
the edge's dictionary impose no constraint. -/
def matchesReq (req data : List (String × PyVal)) : Bool :=
  data.all (fun kv =>
    match req.find? (fun r => r.1 == kv.1) with
    | Option.some r => r.2 == kv.2
    | Option.none => true)

/-- `DataFlowGraph.del_connections` (network.py lines 62-73): removes every
edge between the ordered node pair whose dictionary matches the
requirements; a pair with no edges is a silent no-op (which coincides with
removing nothing). -/
def DFG.del_connections (g : DFG) (source_node sink_node : Nat)
    (req : List (String × PyVal)) : DFG :=
  { g with edges := g.edges.filter (fun e =>
      !(e.src == source_node && e.dst == sink_node && matchesReq req e.data)) }

/-- Worker for `dedupFirst`: drop elements already seen. -/
def dedupFirstAux : List Nat → List Nat → List Nat
  | _, [] => []
  | seen, x :: xs =>
    if x ∈ seen then dedupFirstAux seen xs
    else x :: dedupFirstAux (seen ++ [x]) xs

/-- First-occurrence deduplication, keeping encounter order (the key order
of a Python insertion-ordered dictionary). -/
def dedupFirst (l : List Nat) : List Nat :=
  dedupFirstAux [] l

/-- `edges_iter` order of `networkx.MultiDiGraph`: the adjacency structure
is a dict keyed by node in node-insertion order, then per source node a
dict keyed by neighbour in first-connection order, then the parallel edges
in insertion order. -/
def DFG.edgesIter (g : DFG) : List Edge :=
  g.nodes.flatMap (fun u =>
    let outs := g.edges.filter (fun e => e.src == u.id)
    (dedupFirst (outs.map (fun e => e.dst))).flatMap
      (fun v => outs.filter (fun e => e.dst == v)))

/-- Append a value to the entry of `k` in an insertion-ordered multi-map,
creating the entry at the end when absent (Python dict building in
`_source_to_sinks` / `_sink_to_sources`). -/
def aApp {α β : Type} [DecidableEq α] : List (α × List β) → α → β → List (α × List β)
  | [], k, v => [(k, [v])]
  | (k', vs) :: t, k, v =>
    if k = k' then (k', vs ++ [v]) :: t else (k', vs) :: aApp t k v

/-- Lookup in an insertion-ordered multi-map. -/
def aFind {α β : Type} [DecidableEq α] : List (α × List β) → α → Option (List β)
  | [], _ => Option.none
  | (k', vs) :: t, k => if k = k' then Option.some vs else aFind t k

/-- A source-map entry of `_sink_to_sources`: (source node, source endpoint,
sink subrecord, source subrecord) — network.py line 97. -/
abbrev SrcEntry := ActorNode × PyVal × PyVal × PyVal

/-- A sink-map entry of `_source_to_sinks`: (sink node, sink endpoint,
source subrecord, sink subrecord) — network.py line 83. -/
abbrev SinkEntry := ActorNode × PyVal × PyVal × PyVal

/-- `DataFlowGraph._sink_to_sources` (network.py lines 94-103): a dict from
(sink node, sink endpoint) to the list of feeding
(source node, source endpoint, sink subrecord, source subrecord) entries,
in `edges_iter` encounter order. -/
def DFG.sinkToSources (g : DFG) : List ((ActorNode × PyVal) × List SrcEntry) :=
  g.edgesIter.foldl (fun d e =>
    aApp d (g.nodeOf e.dst, dget e.data "sink")
      (g.nodeOf e.src, dget e.data "source", dget e.data "sink_subr", dget e.data "source_subr")) []

/-- `DataFlowGraph._source_to_sinks` (network.py lines 79-88): a dict from
(source node, source endpoint) to the list of fed
(sink node, sink endpoint, source subrecord, sink subrecord) entries. -/
def DFG.sourceToSinks (g : DFG) : List ((ActorNode × PyVal) × List SinkEntry) :=
  g.edgesIter.foldl (fun d e =>
    aApp d (g.nodeOf e.src, dget e.data "source")
      (g.nodeOf e.dst, dget e.data "sink", dget e.data "source_subr", dget e.data "sink_subr")) []

/-- `DataFlowGraph._list_divergences` (network.py lines 106-108): the
source endpoints feeding more than one sink edge. -/
def DFG.listDivergences (g : DFG) : List ((ActorNode × PyVal) × List SinkEntry) :=
  g.sourceToSinks.filter (fun kv => kv.2.length > 1)

/-- `DataFlowGraph.is_abstract` (network.py lines 116-120): an abstract
node, a subrecord on any edge, or a divergence. -/
def DFG.is_abstract (g : DFG) : Bool :=
  g.nodes.any (fun n => n.is_abstract) ||
  g.edgesIter.any (fun e =>
    !(dget e.data "source_subr" == PyVal.none) || !(dget e.data "sink_subr" == PyVal.none)) ||
  !g.listDivergences.isEmpty

/-- The combinator trigger (network.py line 125): more than one feeding
edge, or a single one carrying a sink-side subrecord. -/
def needsComb (sources : List SrcEntry) : Bool :=
  sources.length > 1 ||
    (match sources.head? with
     | Option.some s => !(s.2.2.1 == PyVal.none)
     | Option.none => false)

/-- The splitter trigger (network.py line 141): more than one fed edge, or
a single one carrying a source-side subrecord. -/
def needsSplit (sinks : List SinkEntry) : Bool :=
  sinks.length > 1 ||
    (match sinks.head? with
     | Option.some s => !(s.2.2.1 == PyVal.none)
     | Option.none => false)

/-- The combinator node built for one needs-combinator sink (network.py
lines 128-129): a deferred Combinator whose `subrecords` parameter is the
list of sink-side subrecords of the feeding entries, in their map order. -/
def combNode (cid : Nat) (sources : List SrcEntry) : ActorNode :=
  ⟨cid, Option.none, .deferred .combinator ⟨sources.map (fun s => s.2.2.1), Option.none⟩⟩

/-- One needs-combinator rewrite (network.py lines 124-138): disconnect
each source from the sink, connect it to the combinator's numbered input
carrying the original source subrecord, then connect the combinator's
output to the sink. -/
def combStep (g : DFG) (dst : ActorNode) (dstEp : PyVal) (sources : List SrcEntry) : DFG :=
  if needsComb sources then
    let comb := combNode g.nextId sources
    let g := { g with nextId := g.nextId + 1 }
    let g := (sources.enum).foldl (fun g ns =>
      let g := g.del_connections ns.2.1.id dst.id [("source", ns.2.2.1), ("sink", dstEp)]
      g.add_connection ns.2.1 comb ns.2.2.1 (PyVal.str ("sink" ++ toString ns.1))
        ns.2.2.2.2 PyVal.none) g
    g.add_connection comb dst (PyVal.str "source") dstEp PyVal.none PyVal.none
  else g

/-- The splitter node built for one needs-splitter source (network.py
lines 142-143). -/
def splitNode (sid : Nat) (sinks : List SinkEntry) : ActorNode :=
  ⟨sid, Option.none, .deferred .splitter ⟨sinks.map (fun s => s.2.2.1), Option.none⟩⟩

/-- One needs-splitter rewrite (network.py lines 140-152): disconnect the
source from each sink, connect the splitter's numbered outputs to the
sinks, then connect the source to the splitter's input. -/
def splitStep (g : DFG) (src : ActorNode) (srcEp : PyVal) (sinks : List SinkEntry) : DFG :=
  if needsSplit sinks then
    let spl := splitNode g.nextId sinks
    let g := { g with nextId := g.nextId + 1 }
    let g := (sinks.enum).foldl (fun g ns =>
      let g := g.del_connections src.id ns.2.1.id [("source", srcEp), ("sink", ns.2.2.1)]
      g.add_connection spl ns.2.1 (PyVal.str ("source" ++ toString ns.1)) ns.2.2.1
        PyVal.none PyVal.none) g
    g.add_connection src spl srcEp (PyVal.str "sink") PyVal.none PyVal.none
  else g

/-- The combinator-insertion half of pass 1 (network.py lines 123-138):
iterates the `_sink_to_sources` snapshot. -/
def combPhase (g : DFG) : DFG :=
  g.sinkToSources.foldl (fun g kv => combStep g kv.1.1 kv.1.2 kv.2) g

/-- The splitter-insertion half of pass 1 (network.py lines 139-152):
iterates the `_source_to_sinks` snapshot, computed after the combinator
half already rewrote the graph. -/
def splitPhase (g : DFG) : DFG :=
  g.sourceToSinks.foldl (fun g kv => splitStep g kv.1.1 kv.1.2 kv.2) g

/-- `DataFlowGraph._eliminate_subrecords_and_divergences` (network.py
lines 122-152): pass 1. -/
def DFG.eliminateSubrecordsAndDivergences (g : DFG) : DFG :=
  splitPhase (combPhase g)

/-- The faults elaboration can raise.  `nonTermination` is the model's
name for the layout-inference loop spinning forever (the Python code has no
no-progress detector; a sweep that changes nothing repeats identically, so
the model reports it instead of recursing). -/
inductive Fault where
  | ambiguousEndpoint : Fault
  | assertionError : Fault
  | keyError : Fault
  | typeError : Fault
  | nonTermination : Fault
deriving DecidableEq, Repr

/-- Replace the node with the given id. -/
def DFG.setNode (g : DFG) (n : ActorNode) : DFG :=
  { g with nodes := g.nodes.map (fun m => if m.id == n.id then n else m) }

/-- The abstract plumbing nodes (`ap` in network.py line 156), as ids in
node order. -/
def DFG.abstractPlumbing (g : DFG) : List Nat :=
  (g.nodes.filter (fun n => n.is_abstract &&
    (match n.st with
     | .deferred cls _ => cls.isPlumbing
     | .concrete _ => false))).map (fun n => n.id)

/-- The body of the `for a in ap` loop of `_infer_plumbing_layout`
(network.py lines 159-182) for one abstract plumbing node: pick the single
inbound (layout-sink) or outbound (layout-source) edge, skip when the
neighbour is still abstract, otherwise read the neighbour's endpoint layout
(resolving an omitted name through `single_source`/`single_sink`), store it
in the parameters and instantiate. -/
def inferStep (g : DFG) (aId : Nat) : DFG × Option Fault :=
  let a := g.nodeOf aId
  match a.st with
  | .concrete _ => (g, Option.some .assertionError)
  | .deferred cls p =>
    if cls.inLayoutSink then
      let edges := g.edges.filter (fun e => e.dst == aId)
      match edges with
      | [e] =>
        let other := g.nodeOf e.src
        match other.st with
        | .deferred _ _ => (g, Option.none)
        | .concrete act =>
          let otherEp : Option String :=
            match dget e.data "source" with
            | PyVal.none => act.single_source
            | PyVal.str s => Option.some s
            | PyVal.proj _ => Option.none
          match otherEp with
          | Option.none => (g, Option.some .ambiguousEndpoint)
          | Option.some ep =>
            match act.tokenLayout ep with
            | Option.none => (g, Option.some .keyError)
            | Option.some l =>
              match ActorNode.instantiate { a with st := .deferred cls { p with layout := Option.some l } } with
              | Option.some a2 => (g.setNode a2, Option.none)
              | Option.none => (g, Option.some .typeError)
      | _ => (g, Option.some .assertionError)
    else if cls.inLayoutSource then
      let edges := g.edges.filter (fun e => e.src == aId)
      match edges with
      | [e] =>
        let other := g.nodeOf e.dst
        match other.st with
        | .deferred _ _ => (g, Option.none)
        | .concrete act =>
          let otherEp : Option String :=
            match dget e.data "sink" with
            | PyVal.none => act.single_sink
            | PyVal.str s => Option.some s
            | PyVal.proj _ => Option.none
          match otherEp with
          | Option.none => (g, Option.some .ambiguousEndpoint)
          | Option.some ep =>
            match act.tokenLayout ep with
            | Option.none => (g, Option.some .keyError)
            | Option.some l =>
              match ActorNode.instantiate { a with st := .deferred cls { p with layout := Option.some l } } with
              | Option.some a2 => (g.setNode a2, Option.none)
              | Option.none => (g, Option.some .typeError)
      | _ => (g, Option.some .assertionError)
    else (g, Option.some .assertionError)

/-- One full sweep of the `for a in ap` loop over the snapshot `ap`,
aborting at the first fault (a raised Python exception). -/
def inferSweep (g : DFG) : List Nat → DFG × Option Fault
  | [] => (g, Option.none)
  | aId :: rest =>
    match inferStep g aId with
    | (g2, Option.none) => inferSweep g2 rest
    | (g2, Option.some f) => (g2, Option.some f)

/-- `DataFlowGraph._infer_plumbing_layout` (network.py lines 154-182),
with fuel for the unbounded `while True` loop.  A sweep that changes
nothing while abstract plumbing nodes remain would repeat identically in
Python — the loop never terminates — so the model reports
`Fault.nonTermination` for it (and for exhausted fuel; every sweep that
makes progress instantiates at least one node, so `g.nodes.length + 1` fuel
is always sufficient to reach one of the genuine outcomes). -/
def inferPlumbingLayout : Nat → DFG → DFG × Option Fault
  | 0, g => (g, Option.some .nonTermination)
  | fuel + 1, g =>
    let ap := g.abstractPlumbing
    if ap.isEmpty then (g, Option.none)
    else
      match inferSweep g ap with
      | (g2, Option.some f) => (g2, Option.some f)
      | (g2, Option.none) =>
        if g2 == g then (g2, Option.some .nonTermination)
        else inferPlumbingLayout fuel g2

/-- Step 1 of `_instantiate_actors` (network.py lines 186-188): instantiate
every abstract non-plumbing actor. -/
def instantiateNonPlumbing (g : DFG) : DFG :=
  { g with nodes := g.nodes.map (fun n =>
      match n.st with
      | .deferred cls _ =>
        if cls.isPlumbing then n
        else match n.instantiate with
          | Option.some n2 => n2
          | Option.none => n
      | .concrete _ => n) }

/-- Resolution of one edge's omitted endpoint names (network.py
lines 192-196): an omitted source resolves through the source node's
`single_source`, an omitted sink through the sink node's `single_sink`;
resolution on a node without exactly one endpoint of the polarity is the
ambiguous-endpoint fault.  The source field is written before the sink
field is examined, so a sink-side fault keeps the resolved source. -/
def resolveEdge (g : DFG) (e : Edge) : Edge × Option Fault :=
  match dget e.data "source" with
  | PyVal.none =>
    match (g.nodeOf e.src).st with
    | .deferred _ _ => (e, Option.some .assertionError)
    | .concrete act =>
      match act.single_source with
      | Option.none => (e, Option.some .ambiguousEndpoint)
      | Option.some s =>
        let d2 := stdData (PyVal.str s) (dget e.data "sink")
          (dget e.data "source_subr") (dget e.data "sink_subr")
        let e2 := { e with data := d2 }
        match dget e2.data "sink" with
        | PyVal.none =>
          match (g.nodeOf e2.dst).st with
          | .deferred _ _ => (e2, Option.some .assertionError)
          | .concrete act2 =>
            match act2.single_sink with
            | Option.none => (e2, Option.some .ambiguousEndpoint)
            | Option.some t =>
              let d3 := stdData (PyVal.str s) (PyVal.str t)
                (dget e.data "source_subr") (dget e.data "sink_subr")
              ({ e2 with data := d3 }, Option.none)
        | _ => (e2, Option.none)
  | _ =>
    match dget e.data "sink" with
    | PyVal.none =>
      match (g.nodeOf e.dst).st with
      | .deferred _ _ => (e, Option.some .assertionError)
      | .concrete act2 =>
        match act2.single_sink with
        | Option.none => (e, Option.some .ambiguousEndpoint)
        | Option.some t =>
          let d2 := stdData (dget e.data "source") (PyVal.str t)
            (dget e.data "source_subr") (dget e.data "sink_subr")
          ({ e with data := d2 }, Option.none)
    | _ => (e, Option.none)

/-- The inner loop of endpoint resolution over the edge list, keeping the
already-rewritten prefix when a fault aborts the iteration. -/
def resolveEdgesGo (g : DFG) : List Edge → List Edge → List Edge × Option Fault
  | acc, [] => (acc, Option.none)
  | acc, e :: rest =>
    match resolveEdge g e with
    | (e2, Option.none) => resolveEdgesGo g (acc ++ [e2]) rest
    | (e2, Option.some f) => (acc ++ [e2] ++ rest, Option.some f)

/-- Step 3 of `_instantiate_actors` (network.py lines 191-196): resolve
every omitted endpoint name. -/
def resolveEndpoints (g : DFG) : DFG × Option Fault :=
  match resolveEdgesGo g [] g.edges with
  | (es, f) => ({ g with edges := es }, f)

/-- `DataFlowGraph._instantiate_actors` (network.py lines 184-196): the
three ordered steps of pass 3, each fault aborting the rest while keeping
the partially rewritten state. -/
def DFG.instantiateActors (g : DFG) : DFG × Option Fault :=
  let g1 := instantiateNonPlumbing g
  match inferPlumbingLayout (g1.nodes.length + 1) g1 with
  | (g2, Option.some f) => (g2, Option.some f)
  | (g2, Option.none) => resolveEndpoints g2

/-- Pass 2: apply the optional optimizer callback (network.py
lines 209-210). -/
def applyOpt (optimizer : Option (DFG → DFG)) (g : DFG) : DFG :=
  match optimizer with
  | Option.some f => f g
  | Option.none => g

/-- `DataFlowGraph.elaborate` (network.py lines 203-211): return
immediately when already elaborated, otherwise set the flag, then run
pass 1, the optional optimizer and pass 3.  The returned state is the
graph after the passes that ran (a fault aborts the remainder but keeps
the mutations made so far, exactly as a raised Python exception would). -/
def DFG.elaborate (g : DFG) (optimizer : Option (DFG → DFG) := Option.none) :
    DFG × Option Fault :=
  if g.elaborated then (g, Option.none)
  else
    let g := { g with elaborated := true }
    let g := g.eliminateSubrecordsAndDivergences
    let g := applyOpt optimizer g
    g.instantiateActors

/-!
## The layout-inference dispatch described by the specification's words

Spec section 4.3 describes the Combinator as the "layout-sink" role
(inspect the single *inbound* edge, read the neighbour's sink-side
endpoint) and the Splitter as the "layout-source" role (single *outbound*
edge, source-side endpoint).  The following pair of definitions follows
those words literally, to be compared against `inferStep`/`inferSweep`
above, whose dispatch is the only one consistent with the single-edge
assertions of network.py lines 162/171 on rewrite-produced plumbing.
-/

/-- The per-node layout-inference step with the dispatch of the spec's
section 4.3 narrative: a Combinator uses its single inbound edge and the
neighbour's sink-side endpoint, a Splitter its single outbound edge and
the neighbour's source-side endpoint. -/
def inferStepSpecRoles (g : DFG) (aId : Nat) : DFG × Option Fault :=
  let a := g.nodeOf aId
  match a.st with
  | .concrete _ => (g, Option.some .assertionError)
  | .deferred cls p =>
    if cls == ActorClass.combinator then
      let edges := g.edges.filter (fun e => e.dst == aId)
      match edges with
      | [e] =>
        let other := g.nodeOf e.src
        match other.st with
        | .deferred _ _ => (g, Option.none)
        | .concrete act =>
          let otherEp : Option String :=
            match dget e.data "sink" with
            | PyVal.none => act.single_sink
            | PyVal.str s => Option.some s
            | PyVal.proj _ => Option.none
          match otherEp with
          | Option.none => (g, Option.some .ambiguousEndpoint)
          | Option.some ep =>
            match act.tokenLayout ep with
            | Option.none => (g, Option.some .keyError)
            | Option.some l =>
              match ActorNode.instantiate { a with st := .deferred cls { p with layout := Option.some l } } with
              | Option.some a2 => (g.setNode a2, Option.none)
              | Option.none => (g, Option.some .typeError)
      | _ => (g, Option.some .assertionError)
    else if cls == ActorClass.splitter then
      let edges := g.edges.filter (fun e => e.src == aId)
      match edges with
      | [e] =>
        let other := g.nodeOf e.dst
        match other.st with
        | .deferred _ _ => (g, Option.none)
        | .concrete act =>
          let otherEp : Option String :=
            match dget e.data "source" with
            | PyVal.none => act.single_source
            | PyVal.str s => Option.some s
            | PyVal.proj _ => Option.none
          match otherEp with
          | Option.none => (g, Option.some .ambiguousEndpoint)
          | Option.some ep =>
            match act.tokenLayout ep with
            | Option.none => (g, Option.some .keyError)
            | Option.some l =>
              match ActorNode.instantiate { a with st := .deferred cls { p with layout := Option.some l } } with
              | Option.some a2 => (g.setNode a2, Option.none)
              | Option.none => (g, Option.some .typeError)
      | _ => (g, Option.some .assertionError)
    else (g, Option.some .assertionError)

/-- A full sweep with the spec-worded dispatch of `inferStepSpecRoles`. -/
def inferSweepSpecRoles (g : DFG) : List Nat → DFG × Option Fault
  | [] => (g, Option.none)
  | aId :: rest =>
    match inferStepSpecRoles g aId with
    | (g2, Option.none) => inferSweepSpecRoles g2 rest
    | (g2, Option.some f) => (g2, Option.some f)

/-!
## Reference semantics of the `ActorNode` constructor

`ActorNode.__init__` (network.py lines 14-21) executes
`self.parameters = parameters`: it binds the caller's dictionary *object*.
The value-level `DFG` embedding above cannot observe aliasing, so the
parameter-storage behaviour is modelled separately with an explicit heap of
Python dictionaries; a node holds a reference (heap index) to its parameter
dictionary, exactly as a Python attribute holds an object reference.
-/

/-- A Python dictionary of constructor parameters. -/
abbrev PyDict := List (String × PyVal)

/-- A heap of Python dictionary objects, indexed by reference. -/
abbrev Heap := List PyDict

/-- Dereference a dictionary object. -/
def heapGet (h : Heap) (r : Nat) : PyDict :=
  match h.get? r with
  | Option.some d => d
  | Option.none => []

/-- In-place mutation of a dictionary object. -/
def heapSet (h : Heap) (r : Nat) (d : PyDict) : Heap :=
  h.set r d

/-- Python dictionary item assignment. -/
def dictSet (d : PyDict) (k : String) (v : PyVal) : PyDict :=
  if d.any (fun kv => kv.1 == k) then d.map (fun kv => if kv.1 == k then (k, v) else kv)
  else d ++ [(k, v)]

/-- The parameter storage of an abstract `ActorNode`: a reference to the
parameter dictionary object. -/
structure ActorNodeParams where
  paramsRef : Nat
deriving DecidableEq, Repr

/-- `ActorNode.__init__` on the abstract path (network.py line 18,
`self.parameters = parameters`): the node stores the caller's dictionary
reference itself — no copy is taken. -/
def actorNodeInit (r : Nat) : ActorNodeParams :=
  ⟨r⟩

/-- Modelled from the spec: section 4.1, `new(class_ref, params)` yields a
deferred node "holding a copy of `params`" — the construction allocates a
fresh dictionary object holding a copy taken at construction time. -/
def actorNodeInitSpecCopy (h : Heap) (r : Nat) : Heap × ActorNodeParams :=
  (h ++ [heapGet h r], ⟨h.length⟩)

/-- `ActorNode.get_dict` on the abstract path (network.py lines 32-34),
the attribute view the spec calls `debug_attributes()`: dereferences the
stored parameter dictionary. -/
def ActorNodeParams.get_dict (h : Heap) (n : ActorNodeParams) : PyDict :=
  heapGet h n.paramsRef

/-!
## Well-formedness of graph states

Graphs reachable through the public surface (`add_connection` /
`del_connections` on nodes with distinct identities): node ids are
pairwise distinct and below the allocation counter, edges connect present
nodes, and every edge carries the four-key attribute dictionary written by
`add_connection`.
-/

/-- The edge dictionary has the `add_connection` shape. -/
def stdEdge (e : Edge) : Bool :=
  e.data == stdData (dget e.data "source") (dget e.data "sink")
    (dget e.data "source_subr") (dget e.data "sink_subr")

/-- Well-formedness of a `DFG` state. -/
def DFG.wf (g : DFG) : Bool :=
  (g.nodes.map (fun n => n.id)).Nodup &&
  g.nodes.all (fun n => n.id < g.nextId) &&
  g.edges.all (fun e =>
    g.nodes.any (fun n => n.id == e.src) && g.nodes.any (fun n => n.id == e.dst) && stdEdge e)

/-- No node both omits and names an endpoint of one polarity across its
edges: the side condition under which default-endpoint resolution cannot
merge two distinct pre-elaboration endpoint keys into one. -/
def DFG.noMixedEndpoints (g : DFG) : Bool :=
  g.nodes.all (fun u =>
    (!((g.edges.any (fun e => e.src == u.id && dget e.data "source" == PyVal.none)) &&
       (g.edges.any (fun e => e.src == u.id && !(dget e.data "source" == PyVal.none))))) &&
    (!((g.edges.any (fun e => e.dst == u.id && dget e.data "sink" == PyVal.none)) &&
       (g.edges.any (fun e => e.dst == u.id && !(dget e.data "sink" == PyVal.none))))))

/-!
## Concrete scenario graphs

Small graphs exercising the elaboration pipeline, used by the
counterexample and witness theorems below.  All are built through
`add_connection` on concrete or deferred nodes, as user code would.
-/

/-- A source actor with the single source endpoint `s` over layout `[f]`,
feeding sink `x` of node 1 under the explicit name `s` and sink `y` of
node 2 under an omitted source name. -/
def exMixedNames : DFG :=
  (DFG.add_connection ⟨[], [], 3, false⟩
      ⟨0, Option.none, .concrete ⟨Option.none, [("s", Pol.source, ["f"])]⟩⟩
      ⟨1, Option.none, .concrete ⟨Option.none, [("x", Pol.sink, ["f"])]⟩⟩
      (PyVal.str "s") (PyVal.str "x")).add_connection
    ⟨0, Option.none, .concrete ⟨Option.none, [("s", Pol.source, ["f"])]⟩⟩
    ⟨2, Option.none, .concrete ⟨Option.none, [("y", Pol.sink, ["f"])]⟩⟩
    PyVal.none (PyVal.str "y")

/-- Three subrecord connections into the sink endpoint `x` of node 2, in
insertion order A, B, A (nodes 0, 1, 0), so that adjacency-grouped edge
iteration visits them in the order A, A, B. -/
def exInterleaved : DFG :=
  ((DFG.add_connection ⟨[], [], 3, false⟩
        ⟨0, Option.none, .concrete ⟨Option.none,
          [("a1", Pol.source, ["f", "g", "h"]), ("a2", Pol.source, ["f", "g", "h"])]⟩⟩
        ⟨2, Option.none, .concrete ⟨Option.none, [("x", Pol.sink, ["f", "g", "h"])]⟩⟩
        (PyVal.str "a1") (PyVal.str "x") PyVal.none (PyVal.proj ["f"])).add_connection
      ⟨1, Option.none, .concrete ⟨Option.none, [("b", Pol.source, ["f", "g", "h"])]⟩⟩
      ⟨2, Option.none, .concrete ⟨Option.none, [("x", Pol.sink, ["f", "g", "h"])]⟩⟩
      (PyVal.str "b") (PyVal.str "x") PyVal.none (PyVal.proj ["g"])).add_connection
    ⟨0, Option.none, .concrete ⟨Option.none,
      [("a1", Pol.source, ["f", "g", "h"]), ("a2", Pol.source, ["f", "g", "h"])]⟩⟩
    ⟨2, Option.none, .concrete ⟨Option.none, [("x", Pol.sink, ["f", "g", "h"])]⟩⟩
    (PyVal.str "a2") (PyVal.str "x") PyVal.none (PyVal.proj ["h"])

/-- One connection carrying both a source-side and a sink-side subrecord. -/
def exBothSubr : DFG :=
  DFG.add_connection ⟨[], [], 2, false⟩
    ⟨0, Option.none, .concrete ⟨Option.none, [("s", Pol.source, ["f", "g"])]⟩⟩
    ⟨1, Option.none, .concrete ⟨Option.none, [("t", Pol.sink, ["f", "g"])]⟩⟩
    (PyVal.str "s") (PyVal.str "t") (PyVal.proj ["f"]) (PyVal.proj ["g"])

/-- The edge from the source node into the combinator that the combinator
half of pass 1 creates on `exBothSubr`, still carrying the source-side
subrecord. -/
def exBothSubrCombEdge : Edge :=
  ⟨0, 2, stdData (PyVal.str "s") (PyVal.str "sink0") (PyVal.proj ["f"]) PyVal.none⟩

/-- Two sources feeding the same sink endpoint `x` through sink-side
subrecords: pass 1 turns this into a two-input combinator. -/
def exFanin : DFG :=
  (DFG.add_connection ⟨[], [], 3, false⟩
      ⟨0, Option.none, .concrete ⟨Option.none, [("s", Pol.source, ["f", "g"])]⟩⟩
      ⟨2, Option.none, .concrete ⟨Option.none, [("x", Pol.sink, ["f", "g"])]⟩⟩
      (PyVal.str "s") (PyVal.str "x") PyVal.none (PyVal.proj ["f"])).add_connection
    ⟨1, Option.none, .concrete ⟨Option.none, [("t", Pol.source, ["f", "g"])]⟩⟩
    ⟨2, Option.none, .concrete ⟨Option.none, [("x", Pol.sink, ["f", "g"])]⟩⟩
    (PyVal.str "t") (PyVal.str "x") PyVal.none (PyVal.proj ["g"])

/-- `exFanin` after pass 1: the two-input combinator is node 3, abstract,
with two inbound edges and one outbound edge. -/
def exFaninP1 : DFG :=
  exFanin.eliminateSubrecordsAndDivergences

/-- Two mutually adjacent abstract plumbing nodes: an abstract Combinator
node 0 whose single outbound edge reaches an abstract Splitter node 1,
which is in turn the Combinator's only neighbour.  Each defers to the
other, so a layout-inference sweep makes no progress. -/
def exPlumbLoop : DFG :=
  DFG.add_connection ⟨[], [], 2, false⟩
    ⟨0, Option.none, .deferred .combinator ⟨[], Option.none⟩⟩
    ⟨1, Option.none, .deferred .splitter ⟨[], Option.none⟩⟩
    (PyVal.str "source") (PyVal.str "sink")

/-- The state `elaborate` reaches on `exPlumbLoop` when the layout
inference loop starts: the flag is set and nothing else changed (pass 1
rewrites nothing, there is no non-plumbing actor to instantiate). -/
def exPlumbLoopState : DFG :=
  { exPlumbLoop with elaborated := true }

/-- A single concrete connection between nodes 0 and 1 with fully named
endpoints. -/
def exOneEdge : DFG :=
  DFG.add_connection ⟨[], [], 2, false⟩
    ⟨0, Option.none, .concrete ⟨Option.none, [("s", Pol.source, ["f"])]⟩⟩
    ⟨1, Option.none, .concrete ⟨Option.none, [("t", Pol.sink, ["f"])]⟩⟩
    (PyVal.str "s") (PyVal.str "t")

/-- A connection omitting the sink endpoint name whose sink actor exposes
two sink endpoints (spec scenario B). -/
def exAmbig : DFG :=
  DFG.add_connection ⟨[], [], 2, false⟩
    ⟨0, Option.none, .concrete ⟨Option.none, [("s", Pol.source, ["f"])]⟩⟩
    ⟨1, Option.none, .concrete ⟨Option.none,
      [("t1", Pol.sink, ["f"]), ("t2", Pol.sink, ["f"])]⟩⟩
    (PyVal.str "s") PyVal.none

/-!
## Association-map lemmas

Characterization of the insertion-ordered multi-maps built by
`_sink_to_sources` / `_source_to_sinks` through `aApp` folds.
-/

/-- Total group lookup in a multi-map. -/
def aGet {α β : Type} [DecidableEq α] (d : List (α × List β)) (k : α) : List β :=
  match aFind d k with
  | Option.some vs => vs
  | Option.none => []

/-- The edge from one source entry into the combinator's numbered input
(network.py lines 135-136). -/
def combNewEdge (cid : Nat) (ns : Nat × SrcEntry) : Edge :=
  ⟨ns.2.1.id, cid, stdData ns.2.2.1 (PyVal.str ("sink" ++ toString ns.1)) ns.2.2.2.2 PyVal.none⟩

/-- All edges created by one combinator rewrite: one per source entry plus
the combinator-to-sink edge (network.py line 138). -/
def combNewEdges (cid dstId : Nat) (dstEp : PyVal) (sources : List SrcEntry) : List Edge :=
  sources.enum.map (combNewEdge cid) ++
    [⟨cid, dstId, stdData (PyVal.str "source") dstEp PyVal.none PyVal.none⟩]

/-- The deletion test of one loop iteration of the combinator rewrite. -/
def loopDelPred (dstId : Nat) (dstEp : PyVal) (ns : Nat × SrcEntry) (e : Edge) : Bool :=
  e.src == ns.2.1.id && e.dst == dstId &&
    matchesReq [("source", ns.2.2.1), ("sink", dstEp)] e.data

/-- An edge is deleted by the combinator rewrite when some enumerated
source entry's deletion test matches it. -/
def loopDelAny (dstId : Nat) (dstEp : PyVal) (L : List (Nat × SrcEntry)) (e : Edge) : Bool :=
  L.any (fun ns => loopDelPred dstId dstEp ns e)

/-- The combinator nodes created while folding the remaining sink-map
entries, given the next fresh id. -/
def combsOf (base : Nat) : List ((ActorNode × PyVal) × List SrcEntry) → List ActorNode
  | [] => []
  | (_, srcs) :: t =>
    if needsComb srcs then combNode base srcs :: combsOf (base + 1) t else combsOf base t

/-- The edges created while folding the remaining sink-map entries. -/
def combNewsOf (base : Nat) : List ((ActorNode × PyVal) × List SrcEntry) → List Edge
  | [] => []
  | (k, srcs) :: t =>
    if needsComb srcs then combNewEdges base k.1.id k.2 srcs ++ combNewsOf (base + 1) t
    else combNewsOf base t

/-- An edge is deleted by the combinator phase when some triggered entry's
deletion test matches it. -/
def combDelAll (ES : List ((ActorNode × PyVal) × List SrcEntry)) (e : Edge) : Bool :=
  ES.any (fun kv => needsComb kv.2 && loopDelAny kv.1.1.id kv.1.2 kv.2.enum e)

/-- The sink key of an edge, as `_sink_to_sources` computes it. -/
def sinkKeyOf (g : DFG) (e : Edge) : ActorNode × PyVal :=
  (g.nodeOf e.dst, dget e.data "sink")

/-- The source entry of an edge, as `_sink_to_sources` computes it. -/
def srcEntryOf (g : DFG) (e : Edge) : SrcEntry :=
  (g.nodeOf e.src, dget e.data "source", dget e.data "sink_subr", dget e.data "source_subr")

/-- The edge from the splitter's numbered output into one sink entry
(network.py lines 149-150). -/
def splitNewEdge (sid : Nat) (ns : Nat × SinkEntry) : Edge :=
  ⟨sid, ns.2.1.id, stdData (PyVal.str ("source" ++ toString ns.1)) ns.2.2.1 PyVal.none PyVal.none⟩

/-- All edges created by one splitter rewrite: one per sink entry plus the
source-to-splitter edge (network.py line 152). -/
def splitNewEdges (sid srcId : Nat) (srcEp : PyVal) (sinks : List SinkEntry) : List Edge :=
  sinks.enum.map (splitNewEdge sid) ++
    [⟨srcId, sid, stdData srcEp (PyVal.str "sink") PyVal.none PyVal.none⟩]

/-- The deletion test of one loop iteration of the splitter rewrite. -/
def splitLoopDelPred (srcId : Nat) (srcEp : PyVal) (ns : Nat × SinkEntry) (e : Edge) : Bool :=
  e.src == srcId && e.dst == ns.2.1.id &&
    matchesReq [("source", srcEp), ("sink", ns.2.2.1)] e.data

/-- An edge is deleted by the splitter rewrite when some enumerated sink
entry's deletion test matches it. -/
def splitLoopDelAny (srcId : Nat) (srcEp : PyVal) (L : List (Nat × SinkEntry)) (e : Edge) : Bool :=
  L.any (fun ns => splitLoopDelPred srcId srcEp ns e)

/-- The splitter nodes created while folding the remaining source-map
entries. -/
def splitsOf (base : Nat) : List ((ActorNode × PyVal) × List SinkEntry) → List ActorNode
  | [] => []
  | (_, sinks) :: t =>
    if needsSplit sinks then splitNode base sinks :: splitsOf (base + 1) t else splitsOf base t

/-- The edges created while folding the remaining source-map entries. -/
def splitNewsOf (base : Nat) : List ((ActorNode × PyVal) × List SinkEntry) → List Edge
  | [] => []
  | (k, sinks) :: t =>
    if needsSplit sinks then splitNewEdges base k.1.id k.2 sinks ++ splitNewsOf (base + 1) t
    else splitNewsOf base t

/-- An edge is deleted by the splitter phase when some triggered entry's
deletion test matches it. -/
def splitDelAll (ES : List ((ActorNode × PyVal) × List SinkEntry)) (e : Edge) : Bool :=
  ES.any (fun kv => needsSplit kv.2 && splitLoopDelAny kv.1.1.id kv.1.2 kv.2.enum e)

/-- The source key of an edge, as `_source_to_sinks` computes it. -/
def srcKeyOf (g : DFG) (e : Edge) : ActorNode × PyVal :=
  (g.nodeOf e.src, dget e.data "source")

/-- The sink entry of an edge, as `_source_to_sinks` computes it. -/
def sinkEntryOf (g : DFG) (e : Edge) : SinkEntry :=
  (g.nodeOf e.dst, dget e.data "sink", dget e.data "source_subr", dget e.data "sink_subr")

/-!
## C2: positional characterization of one combinator insertion
-/

/-- The sink-map entries that trigger combinator insertion, in map order
(network.py lines 124-125). -/
def combEntries (g : DFG) : List ((ActorNode × PyVal) × List SrcEntry) :=
  g.sinkToSources.filter (fun kv => needsComb kv.2)

/-- The three source nodes/entries of `exInterleaved` in grouped traversal
order: both A entries first (projections f then h), then B (projection g). -/
def exInterleavedA : ActorNode :=
  ⟨0, Option.none, .concrete ⟨Option.none,
    [("a1", Pol.source, ["f", "g", "h"]), ("a2", Pol.source, ["f", "g", "h"])]⟩⟩

def exInterleavedB : ActorNode :=
  ⟨1, Option.none, .concrete ⟨Option.none, [("b", Pol.source, ["f", "g", "h"])]⟩⟩

def exInterleavedX : ActorNode :=
  ⟨2, Option.none, .concrete ⟨Option.none, [("x", Pol.sink, ["f", "g", "h"])]⟩⟩

def exInterleavedSrcs : List SrcEntry :=
  [(exInterleavedA, PyVal.str "a1", PyVal.proj ["f"], PyVal.none),
   (exInterleavedA, PyVal.str "a2", PyVal.proj ["h"], PyVal.none),
   (exInterleavedB, PyVal.str "b", PyVal.proj ["g"], PyVal.none)]

/-- An abstract Combinator (node 1) whose single outbound edge reaches a
concrete sink node (node 0, endpoint `x` of layout `["f", "g"]`). -/
def gCombOut : DFG :=
  { nodes := [⟨0, Option.none, .concrete ⟨Option.none, [("x", Pol.sink, ["f", "g"])]⟩⟩,
      ⟨1, Option.none, .deferred .combinator ⟨[PyVal.none, PyVal.none], Option.none⟩⟩],
    edges := [⟨1, 0, stdData (PyVal.str "source") (PyVal.str "x") PyVal.none PyVal.none⟩],
    nextId := 2, elaborated := false }

/-- An abstract Splitter (node 1) whose single inbound edge comes from a
concrete source node (node 0, endpoint `y` of layout `["f", "g"]`). -/
def gSplitIn : DFG :=
  { nodes := [⟨0, Option.none, .concrete ⟨Option.none, [("y", Pol.source, ["f", "g"])]⟩⟩,
      ⟨1, Option.none, .deferred .splitter ⟨[PyVal.none], Option.none⟩⟩],
    edges := [⟨0, 1, stdData (PyVal.str "y") (PyVal.str "sink") PyVal.none PyVal.none⟩],
    nextId := 2, elaborated := false }

/-- The concrete Combinator that layout inference should produce on
`gCombOut`. -/
def gCombOutRes : ActorNode :=
  { gCombOut.nodeOf 1 with st := NodeSt.concrete ⟨(gCombOut.nodeOf 1).name, ("source", Pol.source, ["f", "g"]) :: ([PyVal.none, PyVal.none] : List PyVal).enum.map (fun nr => ("sink" ++ toString nr.1, Pol.sink, projLayout ["f", "g"] nr.2))⟩ }

/-- The concrete Splitter that layout inference should produce on
`gSplitIn`. -/
def gSplitInRes : ActorNode :=
  { gSplitIn.nodeOf 1 with st := NodeSt.concrete ⟨(gSplitIn.nodeOf 1).name, ("sink", Pol.sink, ["f", "g"]) :: ([PyVal.none] : List PyVal).enum.map (fun nr => ("source" ++ toString nr.1, Pol.source, projLayout ["f", "g"] nr.2))⟩ }

/-- The single edge of `exAmbig`: explicit source `s`, omitted sink name. -/
def exAmbigEdge : Edge := ⟨0, 1, stdData (PyVal.str "s") PyVal.none PyVal.none PyVal.none⟩

/-!
## C1: towards the post-elaboration invariants

Counting helpers and the converse own-key deletion lemmas.
-/

/-- Incoming edges of one (node id, sink endpoint) key. -/
def sinkCount (g : DFG) (dstId : Nat) (ep : PyVal) : Nat :=
  (g.edges.filter (fun e => e.dst == dstId && dget e.data "sink" == ep)).length

/-- Outgoing edges of one (node id, source endpoint) key. -/
def srcCount (g : DFG) (srcId : Nat) (ep : PyVal) : Nat :=
  (g.edges.filter (fun e => e.src == srcId && dget e.data "source" == ep)).length

/-!
## Preservation of the `elaborated` flag

No pass of the pipeline ever writes the `elaborated` field; only
`elaborate` itself sets it.
-/
theorem foldlPres {α β : Type} (f : β → α → β) (P : β → Prop) :
    ∀ (l : List α) (b : β), P b → (∀ b2 a, a ∈ l → P b2 → P (f b2 a)) → P (l.foldl f b) := by
  intro l
  induction l with
  | nil => intro b hb _; exact hb
  | cons a t ih =>
    intro b hb hs
    exact ih (f b a) (hs b a (List.mem_cons_self a t) hb)
      (fun b2 x hx => hs b2 x (List.mem_cons_of_mem a hx))

theorem elaborated_addNode (g : DFG) (n : ActorNode) :
    (g.addNode n).elaborated = g.elaborated := by
  unfold DFG.addNode
  split <;> rfl

theorem elaborated_add_connection (g : DFG) (a b : ActorNode) (p q r s : PyVal) :
    (g.add_connection a b p q r s).elaborated = g.elaborated := by
  unfold DFG.add_connection
  simp only
  rw [show ((g.addNode a).addNode b).elaborated = g.elaborated from
    (elaborated_addNode (g.addNode a) b).trans (elaborated_addNode g a)]

theorem elaborated_del_connections (g : DFG) (a b : Nat) (req : List (String × PyVal)) :
    (g.del_connections a b req).elaborated = g.elaborated := rfl

theorem elaborated_combStep (g : DFG) (dst : ActorNode) (dstEp : PyVal)
    (sources : List SrcEntry) : (combStep g dst dstEp sources).elaborated = g.elaborated := by
  unfold combStep
  split
  · rw [elaborated_add_connection]
    refine foldlPres _ (fun x : DFG => x.elaborated = g.elaborated) _ _ rfl ?_
    intro b2 a _ hb
    rw [elaborated_add_connection, elaborated_del_connections, hb]
  · rfl

theorem elaborated_splitStep (g : DFG) (src : ActorNode) (srcEp : PyVal)
    (sinks : List SinkEntry) : (splitStep g src srcEp sinks).elaborated = g.elaborated := by
  unfold splitStep
  split
  · rw [elaborated_add_connection]
    refine foldlPres _ (fun x : DFG => x.elaborated = g.elaborated) _ _ rfl ?_
    intro b2 a _ hb
    rw [elaborated_add_connection, elaborated_del_connections, hb]
  · rfl

theorem elaborated_combPhase (g : DFG) : (combPhase g).elaborated = g.elaborated := by
  unfold combPhase
  refine foldlPres _ (fun x : DFG => x.elaborated = g.elaborated) _ _ rfl ?_
  intro b2 a _ hb
  rw [elaborated_combStep, hb]

theorem elaborated_splitPhase (g : DFG) : (splitPhase g).elaborated = g.elaborated := by
  unfold splitPhase
  refine foldlPres _ (fun x : DFG => x.elaborated = g.elaborated) _ _ rfl ?_
  intro b2 a _ hb
  rw [elaborated_splitStep, hb]

theorem elaborated_pass1 (g : DFG) :
    (g.eliminateSubrecordsAndDivergences).elaborated = g.elaborated := by
  unfold DFG.eliminateSubrecordsAndDivergences
  rw [elaborated_splitPhase, elaborated_combPhase]

theorem elaborated_setNode (g : DFG) (n : ActorNode) :
    (g.setNode n).elaborated = g.elaborated := rfl

theorem elaborated_inferStep (g : DFG) (aId : Nat) :
    (inferStep g aId).1.elaborated = g.elaborated := by
  unfold inferStep
  dsimp only
  repeat' split
  all_goals rfl

theorem elaborated_inferSweep (g : DFG) (l : List Nat) :
    (inferSweep g l).1.elaborated = g.elaborated := by
  induction l generalizing g with
  | nil => rfl
  | cons a t ih =>
    show (inferSweep g (a :: t)).1.elaborated = g.elaborated
    unfold inferSweep
    rcases h : inferStep g a with ⟨g2, f⟩
    have hg2 : g2.elaborated = g.elaborated := by
      have := elaborated_inferStep g a
      rw [h] at this
      exact this
    cases f with
    | none => simpa [hg2] using ih g2
    | some fv => simpa using hg2

theorem elaborated_inferPlumbing (fuel : Nat) (g : DFG) :
    (inferPlumbingLayout fuel g).1.elaborated = g.elaborated := by
  induction fuel generalizing g with
  | zero => rfl
  | succ n ih =>
    show (inferPlumbingLayout (n + 1) g).1.elaborated = g.elaborated
    unfold inferPlumbingLayout
    by_cases hap : g.abstractPlumbing.isEmpty
    · simp [hap]
    · simp only [hap]
      rcases h : inferSweep g g.abstractPlumbing with ⟨g2, f⟩
      have hg2 : g2.elaborated = g.elaborated := by
        have := elaborated_inferSweep g g.abstractPlumbing
        rw [h] at this
        exact this
      cases f with
      | none =>
        by_cases he : g2 == g
        · simp [he, hg2]
        · simp only [he]
          simpa [hg2] using ih g2
      | some fv => simpa using hg2

theorem elaborated_instantiateNonPlumbing (g : DFG) :
    (instantiateNonPlumbing g).elaborated = g.elaborated := rfl

theorem elaborated_resolveEndpoints (g : DFG) :
    (resolveEndpoints g).1.elaborated = g.elaborated := by
  unfold resolveEndpoints
  rcases h : resolveEdgesGo g [] g.edges with ⟨es, f⟩
  rfl

theorem elaborated_instantiateActors (g : DFG) :
    (g.instantiateActors).1.elaborated = g.elaborated := by
  unfold DFG.instantiateActors
  dsimp only
  rcases h : inferPlumbingLayout ((instantiateNonPlumbing g).nodes.length + 1)
      (instantiateNonPlumbing g) with ⟨g2, f⟩
  have hg2 : g2.elaborated = g.elaborated := by
    have h2 := elaborated_inferPlumbing ((instantiateNonPlumbing g).nodes.length + 1)
      (instantiateNonPlumbing g)
    rw [h] at h2
    exact h2
  cases f with
  | none =>
    show (resolveEndpoints g2).1.elaborated = g.elaborated
    rw [elaborated_resolveEndpoints, hg2]
  | some fv => exact hg2

/-- After any `elaborate` call whose optimizer does not touch the flag
(the code itself never clears it), the flag reads true. -/
theorem elaborate_sets_flag (g : DFG) (opt : Option (DFG → DFG))
    (hopt : ∀ h : DFG, (applyOpt opt h).elaborated = h.elaborated) :
    (g.elaborate opt).1.elaborated = true := by
  unfold DFG.elaborate
  by_cases h : g.elaborated
  · simp [h]
  · simp only [h, Bool.false_eq_true, if_false]
    rw [elaborated_instantiateActors, hopt, elaborated_pass1]

/-- A graph whose flag is set is returned unchanged with no fault, no
matter the optimizer argument. -/
theorem elaborate_flagged (g : DFG) (opt : Option (DFG → DFG))
    (h : g.elaborated = true) : g.elaborate opt = (g, Option.none) := by
  unfold DFG.elaborate
  simp [h]

/-- C1 counterexample: on `exMixedNames`, `elaborate()` completes with no
fault, yet the resulting graph still answers `is_abstract() = true` —
default-name resolution merges the explicit source key `s` and the omitted
source key of node 0 into one endpoint feeding two sinks, a divergence that
pass 1 could not see.  The claim's invariant fails on a successfully
elaborated graph. -/
theorem claimC1_counterexample :
    (DFG.elaborate exMixedNames Option.none).2 = Option.none ∧
    (DFG.elaborate exMixedNames Option.none).1.is_abstract = true := by
  constructor
  · rfl
  · rfl

/-- C2 counterexample: on `exInterleaved`, pass 1 inserts exactly one
combinator (node 3), but its `subrecords` parameter lists the sink-side
projections as `[f, h, g]` — the adjacency-grouped `edges_iter` order of
`networkx.MultiDiGraph` — while the insertion order of the three original
edges carries `[f, g, h]`.  The claim's ordering conjunct fails. -/
theorem claimC2_counterexample :
    ((exInterleaved.eliminateSubrecordsAndDivergences).nodeOf 3).st =
      NodeSt.deferred ActorClass.combinator
        ⟨[PyVal.proj ["f"], PyVal.proj ["h"], PyVal.proj ["g"]], Option.none⟩ ∧
    ((exInterleaved.eliminateSubrecordsAndDivergences).nodes.filter
      (fun n => n.is_abstract)).length = 1 ∧
    exInterleaved.edges.map (fun e => dget e.data "sink_subr") =
      [PyVal.proj ["f"], PyVal.proj ["g"], PyVal.proj ["h"]] ∧
    [PyVal.proj ["f"], PyVal.proj ["h"], PyVal.proj ["g"]] ≠
      [PyVal.proj ["f"], PyVal.proj ["g"], PyVal.proj ["h"]] := by
  refine ⟨by rfl, by rfl, by rfl, by decide⟩

/-- C3 counterexample: on `exBothSubr`, the combinator half of pass 1
creates the edge `exBothSubrCombEdge` (source node → combinator, still
carrying the source-side projection), and the splitter half — whose
snapshot is taken only after the combinator half ran — deletes that very
edge and reroutes it through a splitter before pass 1 ends.  An edge
created during pass 1 is rewritten within the same pass. -/
theorem claimC3_counterexample :
    exBothSubrCombEdge ∈ (combPhase exBothSubr).edges ∧
    exBothSubrCombEdge ∉ (exBothSubr.eliminateSubrecordsAndDivergences).edges := by
  constructor
  · decide
  · decide

/-- C4 counterexample: on `exFaninP1` the rewrite-produced combinator
(node 3) has two inbound edges, so the dispatch described by the claim —
Combinator inspects its single *inbound* edge — fails its own
one-inbound-edge assertion, while the dispatch of the code (Combinator
inspects its single *outbound* edge) instantiates the combinator without
fault in the same sweep. -/
theorem claimC4_counterexample :
    (inferSweepSpecRoles exFaninP1 exFaninP1.abstractPlumbing).2 =
      Option.some Fault.assertionError ∧
    (inferSweep exFaninP1 exFaninP1.abstractPlumbing).2 = Option.none ∧
    ((inferSweep exFaninP1 exFaninP1.abstractPlumbing).1.nodeOf 3).is_abstract = false := by
  refine ⟨by rfl, by rfl, by rfl⟩

/-- C5: the code has no no-progress detector.  On `exPlumbLoopState` —
reached by `elaborate()` from the legal user graph `exPlumbLoop` — a full
sweep of `_infer_plumbing_layout` changes nothing while abstract plumbing
nodes remain, so the `while True` loop of network.py line 155 repeats the
identical sweep forever; no "unresolvable plumbing fixpoint" fault exists
in the code.  In the fuel model this surfaces as `Fault.nonTermination`
(the model's marker for a diverging loop) for every fuel value. -/
theorem claimC5_no_fixpoint_detector :
    (∀ fuel : Nat, inferPlumbingLayout fuel exPlumbLoopState =
      (exPlumbLoopState, Option.some Fault.nonTermination)) ∧
    DFG.elaborate exPlumbLoop Option.none =
      (exPlumbLoopState, Option.some Fault.nonTermination) ∧
    inferSweep exPlumbLoopState exPlumbLoopState.abstractPlumbing =
      (exPlumbLoopState, Option.none) := by
  refine ⟨?_, by decide, by decide⟩
  intro fuel
  cases fuel with
  | zero => rfl
  | succ n => rfl

/-- C6: `elaborate()` is idempotent — after a first call, a second call
with any optimizer argument returns the graph unchanged and runs no pass,
because the `elaborated` flag was set by the first call and is checked on
entry (network.py lines 204-206). -/
theorem claimC6_idempotent (g : DFG) (opt2 : Option (DFG → DFG)) :
    DFG.elaborate (DFG.elaborate g Option.none).1 opt2 =
      ((DFG.elaborate g Option.none).1, Option.none) := by
  apply elaborate_flagged
  exact elaborate_sets_flag g Option.none (fun h => rfl)

/-- C7 counterexample: `del_connections` with the requirement
`[("foo", "z")]` — a key appearing in no edge's data — removes the edge of
`exOneEdge` (the matching loop only iterates the edge's own keys, so a
requirement key absent from the edge's data imposes no constraint); the
claim says it removes none. -/
theorem claimC7_counterexample :
    (exOneEdge.del_connections 0 1 [("foo", PyVal.str "z")]).edges = [] ∧
    exOneEdge.edges.length = 1 := by
  constructor
  · rfl
  · rfl

theorem matchesReq_nil (d : List (String × PyVal)) : matchesReq [] d = true := by
  unfold matchesReq
  induction d with
  | nil => rfl
  | cons kv t ih => simp [List.all_cons, ih]

/-- C7 amended: `del_connections` removes exactly the edges between the
ordered pair whose data agrees with the requirements on every key present
in *both*; requirement keys absent from an edge's data impose no
constraint.  Hence empty requirements remove every edge between the pair;
a requirement whose keys appear in no edge's data also removes every edge
between the pair (not none, as the claim said); and a pair without edges
is a no-op. -/
theorem claimC7_amended (g : DFG) (s d : Nat) (req : List (String × PyVal)) :
    ((g.del_connections s d []).edges =
      g.edges.filter (fun e => !(e.src == s && e.dst == d))) ∧
    ((∀ e ∈ g.edges, ∀ kv ∈ req, ∀ dkv ∈ e.data, kv.1 ≠ dkv.1) →
      (g.del_connections s d req).edges =
        g.edges.filter (fun e => !(e.src == s && e.dst == d))) ∧
    ((∀ e ∈ g.edges, !(e.src == s && e.dst == d)) →
      g.del_connections s d req = g) := by
  refine ⟨?_, ?_, ?_⟩
  · unfold DFG.del_connections
    show g.edges.filter _ = g.edges.filter _
    apply List.filter_congr
    intro e _
    rw [matchesReq_nil]
    simp
  · intro habs
    unfold DFG.del_connections
    show g.edges.filter _ = g.edges.filter _
    apply List.filter_congr
    intro e he
    have hm : matchesReq req e.data = true := by
      unfold matchesReq
      rw [List.all_eq_true]
      intro kv hkv
      have hf : req.find? (fun r => r.1 == kv.1) = Option.none := by
        rw [List.find?_eq_none]
        intro rv hrv
        simpa using habs e he rv hrv kv hkv
      rw [hf]
    rw [hm]
    simp
  · intro hnone
    unfold DFG.del_connections
    have hfe : g.edges.filter (fun e =>
        !(e.src == s && e.dst == d && matchesReq req e.data)) = g.edges := by
      rw [List.filter_eq_self]
      intro e he
      have h1 := hnone e he
      cases hsrc : (e.src == s) <;> cases hdst : (e.dst == d) <;> simp_all
    rw [hfe]

/-- Witness for the amended C7 on concrete inputs: the absent-key removal
and the disconnected-pair no-op. -/
theorem claimC7_amended_witness :
    ((exOneEdge.del_connections 0 1 [("foo", PyVal.str "z")]).edges =
      exOneEdge.edges.filter (fun e => !(e.src == 0 && e.dst == 1))) ∧
    exOneEdge.del_connections 5 6 [("foo", PyVal.str "z")] = exOneEdge := by
  constructor
  · exact (claimC7_amended exOneEdge 0 1 [("foo", PyVal.str "z")]).2.1 (by decide)
  · exact (claimC7_amended exOneEdge 5 6 [("foo", PyVal.str "z")]).2.2 (by decide)

/-- C9 counterexample: `ActorNode.__init__` stores the caller's parameter
dictionary by reference (`self.parameters = parameters`, network.py
line 18).  Mutating the dictionary object after construction changes the
node's stored parameters as seen through `get_dict` (the spec's
`debug_attributes`): no copy is taken. -/
theorem claimC9_counterexample :
    ActorNodeParams.get_dict
        (heapSet [[("x", PyVal.str "a")]] 0
          (dictSet (heapGet [[("x", PyVal.str "a")]] 0) "x" (PyVal.str "b")))
        (actorNodeInit 0) ≠
      ActorNodeParams.get_dict [[("x", PyVal.str "a")]] (actorNodeInit 0) := by
  decide

/-- C9 amended: the constructor stores a *reference*, so every caller
mutation of the parameter dictionary is visible through the node's
stored parameters; the copying constructor described by the spec would
have insulated the node, as the second conjunct shows for the
spec-modelled copying variant. -/
theorem claimC9_amended (h : Heap) (r : Nat) (k : String) (v : PyVal)
    (hr : r < h.length) :
    ActorNodeParams.get_dict (heapSet h r (dictSet (heapGet h r) k v))
        (actorNodeInit r) = dictSet (heapGet h r) k v ∧
    ActorNodeParams.get_dict
        (heapSet (actorNodeInitSpecCopy h r).1 r (dictSet (heapGet h r) k v))
        (actorNodeInitSpecCopy h r).2 = heapGet h r := by
  constructor
  · show heapGet (h.set r (dictSet (heapGet h r) k v)) r = dictSet (heapGet h r) k v
    unfold heapGet
    rw [List.get?_eq_getElem?, List.getElem?_set_self (by simpa using hr)]
  · show heapGet ((h ++ [heapGet h r]).set r (dictSet (heapGet h r) k v)) h.length =
      heapGet h r
    unfold heapGet
    rw [List.get?_eq_getElem?, List.getElem?_set_ne (Nat.ne_of_lt hr),
      List.getElem?_concat_length]

/-- Witness for the amended C9 at a concrete heap. -/
theorem claimC9_amended_witness :
    ActorNodeParams.get_dict
        (heapSet [[("x", PyVal.str "a")]] 0
          (dictSet (heapGet [[("x", PyVal.str "a")]] 0) "x" (PyVal.str "b")))
        (actorNodeInit 0) =
      dictSet (heapGet [[("x", PyVal.str "a")]] 0) "x" (PyVal.str "b") := by
  exact (claimC9_amended [[("x", PyVal.str "a")]] 0 "x" (PyVal.str "b") (by decide)).1

/-- C10: `elaborate()` sets the flag before any pass runs, so whatever a
call returns — success, a fault from any pass, or the diverging-loop
marker — the flag reads true afterwards and every subsequent `elaborate()`
call returns the graph unchanged without re-running anything.  (The
optimizer hypothesis says the callback of pass 2 does not itself clear the
flag; the passes of the code never touch it.) -/
theorem claimC10_failed_not_retried (g : DFG) (opt opt2 : Option (DFG → DFG))
    (g2 : DFG) (f : Option Fault)
    (hopt : ∀ x : DFG, (applyOpt opt x).elaborated = x.elaborated)
    (hflag : DFG.elaborate g opt = (g2, f)) :
    g2.elaborated = true ∧ DFG.elaborate g2 opt2 = (g2, Option.none) := by
  have h1 : g2.elaborated = true := by
    have h2 := elaborate_sets_flag g opt hopt
    rw [hflag] at h2
    exact h2
  exact ⟨h1, elaborate_flagged g2 opt2 h1⟩

/-- Witness for C10 at the faulting scenario-B graph: elaboration raises
the ambiguous-endpoint fault in pass 3, the flag stays set, and the second
call is a no-op. -/
theorem claimC10_failed_not_retried_witness :
    (DFG.elaborate exAmbig Option.none).2 = Option.some Fault.ambiguousEndpoint ∧
    (DFG.elaborate exAmbig Option.none).1.elaborated = true ∧
    DFG.elaborate (DFG.elaborate exAmbig Option.none).1 Option.none =
      ((DFG.elaborate exAmbig Option.none).1, Option.none) := by
  have h := claimC10_failed_not_retried exAmbig Option.none Option.none
    (DFG.elaborate exAmbig Option.none).1 (DFG.elaborate exAmbig Option.none).2
    (fun x => rfl) rfl
  exact ⟨by decide, h.1, h.2⟩

theorem aFind_aApp_self {α β : Type} [DecidableEq α] (d : List (α × List β)) (k : α) (v : β) :
    aFind (aApp d k v) k = Option.some (aGet d k ++ [v]) := by
  induction d with
  | nil => simp [aApp, aFind, aGet]
  | cons kv t ih =>
    by_cases h : k = kv.1
    · simp [aApp, aFind, aGet, h]
    · simp [aApp, aFind, aGet, h] at ih ⊢
      exact ih

theorem aFind_aApp_ne {α β : Type} [DecidableEq α] (d : List (α × List β)) (k k2 : α) (v : β)
    (h : k2 ≠ k) : aFind (aApp d k v) k2 = aFind d k2 := by
  induction d with
  | nil => simp [aApp, aFind, h]
  | cons kv t ih =>
    by_cases h1 : k = kv.1
    · subst h1
      simp [aApp, aFind, h]
    · by_cases h2 : k2 = kv.1
      · simp [aApp, aFind, h1, h2]
      · simp [aApp, aFind, h1, h2]
        exact ih

theorem aFind_mem {α β : Type} [DecidableEq α] (d : List (α × List β)) (k : α) (vs : List β)
    (h : aFind d k = Option.some vs) : (k, vs) ∈ d := by
  induction d with
  | nil => simp [aFind] at h
  | cons kv t ih =>
    by_cases h1 : k = kv.1
    · subst h1
      simp [aFind] at h
      rcases kv with ⟨k1, vs1⟩
      simp_all
    · simp [aFind, h1] at h
      exact List.mem_cons_of_mem _ (ih h)

theorem aFind_of_mem_nodup {α β : Type} [DecidableEq α] (d : List (α × List β)) (k : α)
    (vs : List β) (hn : (d.map Prod.fst).Nodup) (h : (k, vs) ∈ d) :
    aFind d k = Option.some vs := by
  induction d with
  | nil => simp at h
  | cons kv t ih =>
    rcases List.mem_cons.mp h with h1 | h1
    · rw [← h1]
      simp [aFind]
    · have hk : k ≠ kv.1 := by
        intro he
        have : kv.1 ∈ t.map Prod.fst := he ▸ (List.mem_map.mpr ⟨(k, vs), h1, he ▸ rfl⟩)
        exact (List.nodup_cons.mp (by simpa using hn)).1 this
      simp only [aFind, hk, if_false]
      exact ih (List.nodup_cons.mp (by simpa using hn)).2 h1

theorem aApp_keys {α β : Type} [DecidableEq α] (d : List (α × List β)) (k : α) (v : β) :
    (aApp d k v).map Prod.fst =
      if k ∈ d.map Prod.fst then d.map Prod.fst else d.map Prod.fst ++ [k] := by
  induction d with
  | nil => simp [aApp]
  | cons kv t ih =>
    by_cases h : k = kv.1
    · simp [aApp, h]
    · simp only [aApp, if_neg h, List.map_cons, ih]
      by_cases h2 : k ∈ t.map Prod.fst
      · simp [h2, Ne.symm h, h]
      · simp [h2, Ne.symm h, h]

theorem aApp_keys_nodup {α β : Type} [DecidableEq α] (d : List (α × List β)) (k : α) (v : β)
    (hn : (d.map Prod.fst).Nodup) : ((aApp d k v).map Prod.fst).Nodup := by
  rw [aApp_keys]
  by_cases h : k ∈ d.map Prod.fst
  · simpa [h] using hn
  · simp only [h, if_false]
    simpa [List.nodup_append, h] using hn

/-- The group of a key after folding a list into the map: the old group
followed by the new entries whose key matches, in list order. -/
theorem aGet_foldl {γ α β : Type} [DecidableEq α] (κ : γ → α) (ε : γ → β) :
    ∀ (L : List γ) (d : List (α × List β)) (k : α),
      aGet (L.foldl (fun d2 e => aApp d2 (κ e) (ε e)) d) k =
        aGet d k ++ (L.filter (fun e => decide (κ e = k))).map ε := by
  intro L
  induction L with
  | nil => intro d k; simp
  | cons e t ih =>
    intro d k
    rw [List.foldl_cons, ih]
    by_cases h : κ e = k
    · subst h
      simp only [aGet, aFind_aApp_self]
      simp [aGet]
    · rw [show aGet (aApp d (κ e) (ε e)) k = aGet d k by
        simp only [aGet, aFind_aApp_ne d (κ e) k (ε e) (fun he => h he.symm)]]
      simp [h]

theorem keys_foldl_nodup {γ α β : Type} [DecidableEq α] (κ : γ → α) (ε : γ → β) :
    ∀ (L : List γ) (d : List (α × List β)), (d.map Prod.fst).Nodup →
      (((L.foldl (fun d2 e => aApp d2 (κ e) (ε e)) d)).map Prod.fst).Nodup := by
  intro L
  induction L with
  | nil => intro d hd; exact hd
  | cons e t ih =>
    intro d hd
    exact ih _ (aApp_keys_nodup d (κ e) (ε e) hd)

theorem aFind_foldl_of_group_ne {γ α β : Type} [DecidableEq α] (κ : γ → α) (ε : γ → β)
    (L : List γ) (k : α)
    (hne : (L.filter (fun e => decide (κ e = k))).map ε ≠ []) :
    aFind (L.foldl (fun d2 e => aApp d2 (κ e) (ε e)) []) k =
      Option.some ((L.filter (fun e => decide (κ e = k))).map ε) := by
  have hget := aGet_foldl κ ε L [] k
  simp only [aGet] at hget
  rcases hfind : aFind (L.foldl (fun d2 e => aApp d2 (κ e) (ε e)) []) k with _ | vs
  · rw [hfind] at hget
    simp only [aFind, List.nil_append] at hget
    exact absurd hget.symm hne
  · rw [hfind] at hget
    simp only [aFind, List.nil_append] at hget
    rw [hget]

/-- Every entry of a map folded from the empty map holds exactly the group
of its key. -/
theorem mem_foldl_group {γ α β : Type} [DecidableEq α] (κ : γ → α) (ε : γ → β)
    (L : List γ) (k : α) (vs : List β)
    (hmem : (k, vs) ∈ L.foldl (fun d2 e => aApp d2 (κ e) (ε e)) []) :
    vs = (L.filter (fun e => decide (κ e = k))).map ε := by
  have hn := keys_foldl_nodup κ ε L [] (by simp)
  have hf := aFind_of_mem_nodup _ k vs hn hmem
  have hget := aGet_foldl κ ε L [] k
  simp only [aGet, hf, aFind, List.nil_append] at hget
  exact hget

/-- Every element of the folded list appears in the group of its key, and
that group is an entry of the map. -/
theorem mem_foldl_entry {γ α β : Type} [DecidableEq α] (κ : γ → α) (ε : γ → β)
    (L : List γ) (e : γ) (he : e ∈ L) :
    (κ e, (L.filter (fun e2 => decide (κ e2 = κ e))).map ε) ∈
      L.foldl (fun d2 e2 => aApp d2 (κ e2) (ε e2)) [] := by
  have hne : (L.filter (fun e2 => decide (κ e2 = κ e))).map ε ≠ [] := by
    have : e ∈ L.filter (fun e2 => decide (κ e2 = κ e)) := by
      rw [List.mem_filter]
      exact ⟨he, by simp⟩
    intro hnil
    rcases List.map_eq_nil_iff.mp hnil with h2
    rw [h2] at this
    simp at this
  exact aFind_mem _ _ _ (aFind_foldl_of_group_ne κ ε L (κ e) hne)

/-!
## `edges_iter` is a permutation of the edge list

networkx iterates edges grouped by source node and neighbour; for a
well-formed graph this ordering is a permutation of the flat edge list.
-/
theorem mem_dedupFirstAux (x : Nat) :
    ∀ (M seen : List Nat), x ∈ dedupFirstAux seen M ↔ (x ∈ M ∧ x ∉ seen) := by
  intro M
  induction M with
  | nil => intro seen; simp [dedupFirstAux]
  | cons y t ih =>
    intro seen
    by_cases hy : y ∈ seen
    · rw [show dedupFirstAux seen (y :: t) = dedupFirstAux seen t by
        simp [dedupFirstAux, hy]]
      rw [ih seen, List.mem_cons]
      constructor
      · rintro ⟨h1, h2⟩
        exact ⟨Or.inr h1, h2⟩
      · rintro ⟨h1 | h1, h2⟩
        · exact absurd (h1 ▸ hy) h2
        · exact ⟨h1, h2⟩
    · rw [show dedupFirstAux seen (y :: t) = y :: dedupFirstAux (seen ++ [y]) t by
        simp [dedupFirstAux, hy]]
      rw [List.mem_cons, ih (seen ++ [y]), List.mem_cons, List.mem_append, List.mem_singleton]
      constructor
      · rintro (h1 | ⟨h1, h2⟩)
        · exact ⟨Or.inl h1, h1 ▸ hy⟩
        · refine ⟨Or.inr h1, fun hc => h2 (Or.inl hc)⟩
      · rintro ⟨h1 | h1, h2⟩
        · exact Or.inl h1
        · by_cases hxy : x = y
          · exact Or.inl hxy
          · exact Or.inr ⟨h1, fun hc => (hc.elim (fun hc2 => h2 hc2) (fun hc2 => hxy hc2))⟩

theorem nodup_dedupFirstAux :
    ∀ (M seen : List Nat), (dedupFirstAux seen M).Nodup := by
  intro M
  induction M with
  | nil => intro seen; simp [dedupFirstAux]
  | cons y t ih =>
    intro seen
    by_cases hy : y ∈ seen
    · rw [show dedupFirstAux seen (y :: t) = dedupFirstAux seen t by
        simp [dedupFirstAux, hy]]
      exact ih seen
    · rw [show dedupFirstAux seen (y :: t) = y :: dedupFirstAux (seen ++ [y]) t by
        simp [dedupFirstAux, hy]]
      rw [List.nodup_cons]
      refine ⟨?_, ih (seen ++ [y])⟩
      intro hmem
      rcases (mem_dedupFirstAux y t (seen ++ [y])).mp hmem with ⟨_, h2⟩
      exact h2 (by simp)

theorem mem_dedupFirst (x : Nat) (M : List Nat) : x ∈ dedupFirst M ↔ x ∈ M := by
  unfold dedupFirst
  rw [mem_dedupFirstAux]
  simp

theorem nodup_dedupFirst (M : List Nat) : (dedupFirst M).Nodup :=
  nodup_dedupFirstAux M []

/-- Partition of a list into the fibers of a key function, over a
duplicate-free covering key list, is a permutation of the list. -/
theorem fiber_partition {β : Type} (κ : β → Nat) :
    ∀ (keys : List Nat) (l : List β), keys.Nodup → (∀ e ∈ l, κ e ∈ keys) →
      List.Perm (keys.flatMap (fun k => l.filter (fun e => κ e == k))) l := by
  intro keys
  induction keys with
  | nil =>
    intro l _ hcov
    cases l with
    | nil => simp
    | cons e t => exact absurd (hcov e (List.mem_cons_self e t)) (by simp)
  | cons k ks ih =>
    intro l hnd hcov
    have hrest : ∀ k2 ∈ ks, l.filter (fun e => κ e == k2) =
        (l.filter (fun e => !(κ e == k))).filter (fun e => κ e == k2) := by
      intro k2 hk2
      rw [List.filter_filter]
      apply List.filter_congr
      intro e _
      by_cases he : κ e = k2
      · have hk3 : ¬(κ e = k) := by
          intro hek
          exact (List.nodup_cons.mp hnd).1 (hek ▸ he ▸ hk2)
        have hk4 : ¬(k2 = k) := fun hc => hk3 (he.trans hc)
        simp [he, hk4]
      · simp [he]
    have hflat : ks.flatMap (fun k2 => l.filter (fun e => κ e == k2)) =
        ks.flatMap (fun k2 => (l.filter (fun e => !(κ e == k))).filter (fun e => κ e == k2)) :=
      List.flatMap_congr hrest
    refine List.Perm.trans ?_ (List.filter_append_perm (fun e => κ e == k) l)
    rw [List.flatMap_cons, hflat]
    exact List.Perm.append_left _ (ih (l.filter (fun e => !(κ e == k)))
      (List.nodup_cons.mp hnd).2 (by
        intro e he
        rcases List.mem_filter.mp he with ⟨hel, hne⟩
        rcases List.mem_cons.mp (hcov e hel) with h2 | h2
        · exact absurd (beq_iff_eq.mpr h2) (by simpa using hne)
        · exact h2))

theorem wf_parts (g : DFG) (h : g.wf = true) :
    (g.nodes.map (fun n => n.id)).Nodup ∧
    (∀ n ∈ g.nodes, n.id < g.nextId) ∧
    (∀ e ∈ g.edges, (∃ n ∈ g.nodes, n.id = e.src) ∧ (∃ n ∈ g.nodes, n.id = e.dst) ∧
      stdEdge e = true) := by
  unfold DFG.wf at h
  simp only [Bool.and_eq_true, List.all_eq_true] at h
  refine ⟨by simpa using h.1.1, ?_, ?_⟩
  · intro n hn
    simpa using h.1.2 n hn
  · intro e he
    rcases h.2 e he with h2
    simp only [Bool.and_eq_true, List.any_eq_true] at h2
    refine ⟨?_, ?_, h2.2⟩
    · rcases h2.1.1 with ⟨n, hn, hne⟩
      exact ⟨n, hn, by simpa using hne⟩
    · rcases h2.1.2 with ⟨n, hn, hne⟩
      exact ⟨n, hn, by simpa using hne⟩

/-- For a well-formed graph, `edges_iter` enumerates exactly the edge
list, reordered. -/
theorem edgesIter_perm (g : DFG) (h : g.wf = true) :
    List.Perm g.edgesIter g.edges := by
  rcases wf_parts g h with ⟨hnd, _, hedge⟩
  unfold DFG.edgesIter
  have hinner : ∀ u ∈ g.nodes,
      List.Perm ((dedupFirst ((g.edges.filter (fun e => e.src == u.id)).map (fun e => e.dst))).flatMap
        (fun v => (g.edges.filter (fun e => e.src == u.id)).filter (fun e => e.dst == v)))
        (g.edges.filter (fun e => e.src == u.id)) := by
    intro u _
    apply fiber_partition (fun e : Edge => e.dst)
    · exact nodup_dedupFirst _
    · intro e he
      rw [mem_dedupFirst]
      exact List.mem_map.mpr ⟨e, he, rfl⟩
  have houter := List.Perm.flatMap_left (f := fun u : ActorNode =>
      (dedupFirst ((g.edges.filter (fun e => e.src == u.id)).map (fun e => e.dst))).flatMap
        (fun v => (g.edges.filter (fun e => e.src == u.id)).filter (fun e => e.dst == v)))
    (g := fun u : ActorNode => g.edges.filter (fun e => e.src == u.id)) g.nodes hinner
  refine houter.trans ?_
  have hmapform : g.nodes.flatMap (fun u => g.edges.filter (fun e => e.src == u.id)) =
      (g.nodes.map (fun n => n.id)).flatMap (fun i => g.edges.filter (fun e => e.src == i)) := by
    rw [List.flatMap_map]
  rw [hmapform]
  apply fiber_partition (fun e : Edge => e.src)
  · exact hnd
  · intro e he
    rcases (hedge e he).1 with ⟨n, hn, hne⟩
    exact List.mem_map.mpr ⟨n, hn, hne⟩

/-- Membership transfers between `edges_iter` and the edge list. -/
theorem mem_edgesIter (g : DFG) (h : g.wf = true) (e : Edge) :
    e ∈ g.edgesIter ↔ e ∈ g.edges :=
  (edgesIter_perm g h).mem_iff

/-!
## Closed form of one combinator rewrite

`combStep` interleaves `del_connections` and `add_connection`; because the
combinator node is fresh, no edge it creates is ever matched by a later
deletion of the same step, and the whole step is equivalent to one filter
followed by appending the new edges.
-/

/-- The attribute lookups of `stdData` dictionaries. -/
theorem dget_stdData (a b c d : PyVal) :
    dget (stdData a b c d) "source" = a ∧ dget (stdData a b c d) "sink" = b ∧
    dget (stdData a b c d) "source_subr" = c ∧ dget (stdData a b c d) "sink_subr" = d := by
  refine ⟨rfl, rfl, rfl, rfl⟩

theorem addNode_present (g : DFG) (n : ActorNode)
    (h : g.nodes.any (fun m => m.id == n.id) = true) : g.addNode n = g := by
  unfold DFG.addNode
  simp [h]

theorem addNode_absent (g : DFG) (n : ActorNode)
    (h : g.nodes.any (fun m => m.id == n.id) = false) :
    g.addNode n = { g with nodes := g.nodes ++ [n] } := by
  unfold DFG.addNode
  simp [h]

theorem combLoop_closed (dstId : Nat) (dstEp : PyVal) (comb : ActorNode) :
    ∀ (L : List (Nat × SrcEntry)) (g2 : DFG),
      (∀ ns ∈ L, g2.nodes.any (fun m => m.id == ns.2.1.id) = true) →
      g2.nodes.any (fun m => m.id == comb.id) = true →
      dstId ≠ comb.id →
      L.foldl (fun gg ns =>
        (gg.del_connections ns.2.1.id dstId [("source", ns.2.2.1), ("sink", dstEp)]).add_connection
          ns.2.1 comb ns.2.2.1 (PyVal.str ("sink" ++ toString ns.1)) ns.2.2.2.2 PyVal.none) g2 =
      { g2 with edges := g2.edges.filter (fun e => !loopDelAny dstId dstEp L e) ++ L.map (combNewEdge comb.id) } := by
  intro L
  induction L with
  | nil =>
    intro g2 _ _ _
    show g2 = _
    simp [loopDelAny]
  | cons ns0 L ih =>
    intro g2 hsrcs hcomb hdst
    rw [List.foldl_cons]
    have hstep : (g2.del_connections ns0.2.1.id dstId
        [("source", ns0.2.2.1), ("sink", dstEp)]).add_connection
          ns0.2.1 comb ns0.2.2.1 (PyVal.str ("sink" ++ toString ns0.1)) ns0.2.2.2.2 PyVal.none =
        { g2 with edges := g2.edges.filter (fun e => !loopDelPred dstId dstEp ns0 e) ++
            [combNewEdge comb.id ns0] } := by
      have hdel_nodes : (g2.del_connections ns0.2.1.id dstId
          [("source", ns0.2.2.1), ("sink", dstEp)]).nodes = g2.nodes := rfl
      have h1 : ((g2.del_connections ns0.2.1.id dstId
          [("source", ns0.2.2.1), ("sink", dstEp)]).nodes.any
            (fun m => m.id == ns0.2.1.id)) = true := by
        rw [hdel_nodes]
        exact hsrcs ns0 (List.mem_cons_self _ _)
      unfold DFG.add_connection
      rw [addNode_present _ _ h1]
      rw [addNode_present _ _ (by rw [hdel_nodes]; exact hcomb)]
      rfl
    rw [hstep]
    rw [ih ({ g2 with edges := g2.edges.filter (fun e => !loopDelPred dstId dstEp ns0 e) ++ [combNewEdge comb.id ns0] })
        (fun ns hns => hsrcs ns (List.mem_cons_of_mem _ hns)) hcomb hdst]
    simp only
    congr 1
    rw [List.filter_append]
    have hnew : List.filter (fun e => !loopDelAny dstId dstEp L e) [combNewEdge comb.id ns0] =
        [combNewEdge comb.id ns0] := by
      rw [List.filter_eq_self]
      intro e he
      rcases List.mem_singleton.mp he with rfl
      have : loopDelAny dstId dstEp L (combNewEdge comb.id ns0) = false := by
        unfold loopDelAny
        rw [List.any_eq_false]
        intro ns _
        unfold loopDelPred
        have : ((combNewEdge comb.id ns0).dst == dstId) = false := by
          simp only [combNewEdge]
          exact beq_eq_false_iff_ne.mpr (fun hc => hdst hc.symm)
        simp [this]
      simp [this]
    rw [hnew, List.filter_filter]
    rw [show (List.filter (fun e =>
        (!loopDelAny dstId dstEp L e) && !loopDelPred dstId dstEp ns0 e) g2.edges) =
        List.filter (fun e => !loopDelAny dstId dstEp (ns0 :: L) e) g2.edges from
      List.filter_congr (fun e _ => by
        unfold loopDelAny
        rw [List.any_cons]
        cases h1 : loopDelPred dstId dstEp ns0 e <;>
          cases h2 : L.any (fun ns => loopDelPred dstId dstEp ns e) <;> simp [h1, h2])]
    rw [List.append_assoc]
    rfl

theorem any_eq_false_of_ids (g : DFG) (hids : ∀ n ∈ g.nodes, n.id < g.nextId) :
    (g.nodes.any (fun m => m.id == g.nextId)) = false := by
  rw [List.any_eq_false]
  intro m hm
  simp only [beq_iff_eq]
  exact Nat.ne_of_lt (hids m hm)

theorem id_lt_of_any (g : DFG) (i : Nat) (hids : ∀ n ∈ g.nodes, n.id < g.nextId)
    (h : g.nodes.any (fun m => m.id == i) = true) : i < g.nextId := by
  rw [List.any_eq_true] at h
  rcases h with ⟨m, hm, hmi⟩
  rw [beq_iff_eq] at hmi
  exact hmi ▸ hids m hm

theorem add_connection_both_present (g : DFG) (a b : ActorNode) (p q r s : PyVal)
    (ha : g.nodes.any (fun m => m.id == a.id) = true)
    (hb : g.nodes.any (fun m => m.id == b.id) = true) :
    g.add_connection a b p q r s = { g with edges := g.edges ++ [⟨a.id, b.id, stdData p q r s⟩] } := by
  unfold DFG.add_connection
  rw [addNode_present g a ha, addNode_present g b hb]

theorem add_connection_present_absent (g : DFG) (a b : ActorNode) (p q r s : PyVal)
    (ha : g.nodes.any (fun m => m.id == a.id) = true)
    (hb : g.nodes.any (fun m => m.id == b.id) = false) :
    g.add_connection a b p q r s =
      { g with nodes := g.nodes ++ [b], edges := g.edges ++ [⟨a.id, b.id, stdData p q r s⟩] } := by
  unfold DFG.add_connection
  rw [addNode_present g a ha, addNode_absent g b hb]

theorem combNode_id (cid : Nat) (ss : List SrcEntry) : (combNode cid ss).id = cid := rfl

theorem combStep_closed (g : DFG) (dst : ActorNode) (dstEp : PyVal) (sources : List SrcEntry)
    (hneed : needsComb sources = true)
    (hids : ∀ n ∈ g.nodes, n.id < g.nextId)
    (hdst : g.nodes.any (fun m => m.id == dst.id) = true)
    (hsrcs : ∀ s ∈ sources, g.nodes.any (fun m => m.id == s.1.id) = true) :
    combStep g dst dstEp sources =
      { nodes := g.nodes ++ [combNode g.nextId sources],
        edges := g.edges.filter (fun e => !loopDelAny dst.id dstEp sources.enum e) ++ combNewEdges g.nextId dst.id dstEp sources,
        nextId := g.nextId + 1, elaborated := g.elaborated } := by
  have hdstlt : dst.id < g.nextId := id_lt_of_any g dst.id hids hdst
  have hdstne : dst.id ≠ (combNode g.nextId sources).id := by
    show dst.id ≠ g.nextId
    exact Nat.ne_of_lt hdstlt
  obtain ⟨s0, rest, rfl⟩ : ∃ s0 rest, sources = s0 :: rest := by
    cases sources with
    | nil => simp [needsComb] at hneed
    | cons a t => exact ⟨a, t, rfl⟩
  unfold combStep
  rw [if_pos hneed]
  dsimp only
  rw [List.enum_cons, List.foldl_cons]
  rw [add_connection_present_absent
      (({ g with nextId := g.nextId + 1 } : DFG).del_connections s0.1.id dst.id
        [("source", s0.2.1), ("sink", dstEp)]) s0.1 (combNode g.nextId (s0 :: rest))
      s0.2.1 (PyVal.str ("sink" ++ toString 0)) s0.2.2.2 PyVal.none
      (by
        show (g.nodes.any (fun m => m.id == s0.1.id)) = true
        exact hsrcs s0 (List.mem_cons_self _ _))
      (by
        show (g.nodes.any (fun m => m.id == g.nextId)) = false
        exact any_eq_false_of_ids g hids)]
  rw [show ({ ({ g with nextId := g.nextId + 1 } : DFG).del_connections s0.1.id dst.id
        [("source", s0.2.1), ("sink", dstEp)] with
      nodes := (({ g with nextId := g.nextId + 1 } : DFG).del_connections s0.1.id dst.id
        [("source", s0.2.1), ("sink", dstEp)]).nodes ++ [combNode g.nextId (s0 :: rest)],
      edges := (({ g with nextId := g.nextId + 1 } : DFG).del_connections s0.1.id dst.id
        [("source", s0.2.1), ("sink", dstEp)]).edges ++ [⟨s0.1.id, (combNode g.nextId (s0 :: rest)).id, stdData s0.2.1 (PyVal.str ("sink" ++ toString 0)) s0.2.2.2 PyVal.none⟩] } : DFG) =
      ({ nodes := g.nodes ++ [combNode g.nextId (s0 :: rest)],
         edges := g.edges.filter (fun e => !loopDelPred dst.id dstEp (0, s0) e) ++ [combNewEdge g.nextId (0, s0)],
         nextId := g.nextId + 1, elaborated := g.elaborated } : DFG) from rfl]
  rw [combLoop_closed dst.id dstEp (combNode g.nextId (s0 :: rest)) (rest.enumFrom 1)
      ({ nodes := g.nodes ++ [combNode g.nextId (s0 :: rest)],
         edges := g.edges.filter (fun e => !loopDelPred dst.id dstEp (0, s0) e) ++ [combNewEdge g.nextId (0, s0)],
         nextId := g.nextId + 1, elaborated := g.elaborated })
      (by
        intro ns hns
        have hmem : ns.2 ∈ s0 :: rest :=
          List.mem_cons_of_mem s0 (List.snd_mem_of_mem_enumFrom hns)
        show ((g.nodes ++ [combNode g.nextId (s0 :: rest)]).any (fun m => m.id == ns.2.1.id)) = true
        rw [List.any_append, Bool.or_eq_true]
        exact Or.inl (hsrcs ns.2 hmem))
      (by
        show ((g.nodes ++ [combNode g.nextId (s0 :: rest)]).any
          (fun m => m.id == (combNode g.nextId (s0 :: rest)).id)) = true
        rw [List.any_append, Bool.or_eq_true]
        right
        simp)
      hdstne]
  rw [add_connection_both_present _ (combNode g.nextId (s0 :: rest)) dst
      (PyVal.str "source") dstEp PyVal.none PyVal.none
      (by
        show ((g.nodes ++ [combNode g.nextId (s0 :: rest)]).any
          (fun m => m.id == (combNode g.nextId (s0 :: rest)).id)) = true
        rw [List.any_append, Bool.or_eq_true]
        right
        simp)
      (by
        show ((g.nodes ++ [combNode g.nextId (s0 :: rest)]).any (fun m => m.id == dst.id)) = true
        rw [List.any_append, Bool.or_eq_true]
        exact Or.inl hdst)]
  congr 1
  rw [List.filter_append]
  have hnew0 : List.filter (fun e => !loopDelAny dst.id dstEp (rest.enumFrom 1) e)
      [combNewEdge g.nextId (0, s0)] = [combNewEdge g.nextId (0, s0)] := by
    rw [List.filter_eq_self]
    intro e he
    rcases List.mem_singleton.mp he with rfl
    have hfa : loopDelAny dst.id dstEp (rest.enumFrom 1) (combNewEdge g.nextId (0, s0)) = false := by
      unfold loopDelAny
      rw [List.any_eq_false]
      intro ns _
      unfold loopDelPred
      have hd : ((combNewEdge g.nextId (0, s0)).dst == dst.id) = false := by
        simp only [combNewEdge]
        exact beq_eq_false_iff_ne.mpr (fun hc => hdstne hc.symm)
      simp [hd]
    simp [hfa]
  rw [hnew0, List.filter_filter]
  rw [show (List.filter (fun e =>
      (!loopDelAny dst.id dstEp (rest.enumFrom 1) e) && !loopDelPred dst.id dstEp (0, s0) e) g.edges) =
      List.filter (fun e => !loopDelAny dst.id dstEp ((s0 :: rest).enum) e) g.edges from
    List.filter_congr (fun e _ => by
      unfold loopDelAny
      rw [List.enum_cons, List.any_cons]
      cases h1 : loopDelPred dst.id dstEp (0, s0) e <;>
        cases h2 : (rest.enumFrom 1).any (fun ns => loopDelPred dst.id dstEp ns e) <;> simp [h1, h2])]
  rw [List.append_assoc]
  unfold combNewEdges
  rw [List.enum_cons, List.map_cons]
  simp [combNode_id, List.append_assoc]

theorem combStep_skip (g : DFG) (dst : ActorNode) (dstEp : PyVal) (sources : List SrcEntry)
    (h : needsComb sources = false) : combStep g dst dstEp sources = g := by
  unfold combStep
  rw [if_neg (by simp [h])]

theorem combNewEdges_not_deleted (ES : List ((ActorNode × PyVal) × List SrcEntry))
    (cid dstId : Nat) (dstEp : PyVal) (srcs : List SrcEntry) (bound : Nat)
    (hcid : bound ≤ cid)
    (hESdst : ∀ kv ∈ ES, kv.1.1.id < bound)
    (hESsrc : ∀ kv ∈ ES, ∀ s ∈ kv.2, s.1.id < bound) :
    ∀ e ∈ combNewEdges cid dstId dstEp srcs, combDelAll ES e = false := by
  intro e he
  unfold combDelAll
  rw [List.any_eq_false]
  intro kv hkv
  have hLDA : loopDelAny kv.1.1.id kv.1.2 kv.2.enum e = false := by
    unfold loopDelAny
    rw [List.any_eq_false]
    intro ns hns
    unfold loopDelPred
    rcases List.mem_append.mp he with he2 | he2
    · rcases List.mem_map.mp he2 with ⟨ms, _, rfl⟩
      have hdstne : ((combNewEdge cid ms).dst == kv.1.1.id) = false := by
        simp only [combNewEdge]
        exact beq_eq_false_iff_ne.mpr
          (Nat.ne_of_gt (Nat.lt_of_lt_of_le (hESdst kv hkv) hcid))
      simp [hdstne]
    · rcases List.mem_singleton.mp he2 with rfl
      have hsrcne : ((⟨cid, dstId, stdData (PyVal.str "source") dstEp PyVal.none PyVal.none⟩ : Edge).src ==
          ns.2.1.id) = false := by
        exact beq_eq_false_iff_ne.mpr
          (Nat.ne_of_gt (Nat.lt_of_lt_of_le
            (hESsrc kv hkv ns.2 (List.snd_mem_of_mem_enumFrom hns)) hcid))
      simp [hsrcne]
  simp [hLDA]

theorem combsOf_cons_pos (base : Nat) (k : ActorNode × PyVal) (srcs : List SrcEntry)
    (t : List ((ActorNode × PyVal) × List SrcEntry)) (h : needsComb srcs = true) :
    combsOf base ((k, srcs) :: t) = combNode base srcs :: combsOf (base + 1) t := by
  simp [combsOf, h]

theorem combsOf_cons_neg (base : Nat) (k : ActorNode × PyVal) (srcs : List SrcEntry)
    (t : List ((ActorNode × PyVal) × List SrcEntry)) (h : needsComb srcs = false) :
    combsOf base ((k, srcs) :: t) = combsOf base t := by
  simp [combsOf, h]

theorem combNewsOf_cons_pos (base : Nat) (k : ActorNode × PyVal) (srcs : List SrcEntry)
    (t : List ((ActorNode × PyVal) × List SrcEntry)) (h : needsComb srcs = true) :
    combNewsOf base ((k, srcs) :: t) =
      combNewEdges base k.1.id k.2 srcs ++ combNewsOf (base + 1) t := by
  simp [combNewsOf, h]

theorem combNewsOf_cons_neg (base : Nat) (k : ActorNode × PyVal) (srcs : List SrcEntry)
    (t : List ((ActorNode × PyVal) × List SrcEntry)) (h : needsComb srcs = false) :
    combNewsOf base ((k, srcs) :: t) = combNewsOf base t := by
  simp [combNewsOf, h]

theorem combFold_closed :
    ∀ (ES : List ((ActorNode × PyVal) × List SrcEntry)) (G : DFG),
      (∀ n ∈ G.nodes, n.id < G.nextId) →
      (∀ kv ∈ ES, G.nodes.any (fun m => m.id == kv.1.1.id) = true ∧
        ∀ s ∈ kv.2, G.nodes.any (fun m => m.id == s.1.id) = true) →
      ES.foldl (fun g2 kv => combStep g2 kv.1.1 kv.1.2 kv.2) G =
        { nodes := G.nodes ++ combsOf G.nextId ES,
          edges := G.edges.filter (fun e => !combDelAll ES e) ++ combNewsOf G.nextId ES,
          nextId := G.nextId + (ES.filter (fun kv => needsComb kv.2)).length,
          elaborated := G.elaborated } := by
  intro ES
  induction ES with
  | nil =>
    intro G _ _
    show G = _
    simp [combsOf, combNewsOf, combDelAll]
  | cons kv ES ih =>
    intro G hids hpres
    rw [List.foldl_cons]
    rcases kv with ⟨⟨dst, dstEp⟩, srcs⟩
    by_cases hneed : needsComb srcs = true
    · rw [combStep_closed G dst dstEp srcs hneed hids
        (hpres _ (List.mem_cons_self _ _)).1 (hpres _ (List.mem_cons_self _ _)).2]
      rw [ih _ (by
          intro n hn
          rcases List.mem_append.mp hn with h1 | h1
          · exact Nat.lt_succ_of_lt (hids n h1)
          · rcases List.mem_singleton.mp h1 with rfl
            exact Nat.lt_succ_self _)
        (by
          intro kv2 hkv2
          constructor
          · show ((G.nodes ++ [combNode G.nextId srcs]).any (fun m => m.id == kv2.1.1.id)) = true
            rw [List.any_append, Bool.or_eq_true]
            exact Or.inl (hpres kv2 (List.mem_cons_of_mem _ hkv2)).1
          · intro s hs
            show ((G.nodes ++ [combNode G.nextId srcs]).any (fun m => m.id == s.1.id)) = true
            rw [List.any_append, Bool.or_eq_true]
            exact Or.inl ((hpres kv2 (List.mem_cons_of_mem _ hkv2)).2 s hs))]
      congr 1
      · show (G.nodes ++ [combNode G.nextId srcs]) ++ combsOf (G.nextId + 1) ES = _
        rw [List.append_assoc, combsOf_cons_pos _ _ _ _ hneed]
        rfl
      · show (G.edges.filter (fun e => !loopDelAny dst.id dstEp srcs.enum e) ++
            combNewEdges G.nextId dst.id dstEp srcs).filter (fun e => !combDelAll ES e) ++
            combNewsOf (G.nextId + 1) ES = _
        rw [List.filter_append]
        have hsurv : (combNewEdges G.nextId dst.id dstEp srcs).filter
            (fun e => !combDelAll ES e) = combNewEdges G.nextId dst.id dstEp srcs := by
          rw [List.filter_eq_self]
          intro e he
          have hf := combNewEdges_not_deleted ES G.nextId dst.id dstEp srcs G.nextId
            (Nat.le_refl _)
            (fun kv2 hkv2 => id_lt_of_any G kv2.1.1.id hids (hpres kv2 (List.mem_cons_of_mem _ hkv2)).1)
            (fun kv2 hkv2 s hs => id_lt_of_any G s.1.id hids
              ((hpres kv2 (List.mem_cons_of_mem _ hkv2)).2 s hs))
            e he
          simp [hf]
        rw [hsurv, List.filter_filter]
        rw [show (List.filter (fun e => (!combDelAll ES e) && !loopDelAny dst.id dstEp srcs.enum e) G.edges) =
            List.filter (fun e => !combDelAll (((dst, dstEp), srcs) :: ES) e) G.edges from
          List.filter_congr (fun e _ => by
            unfold combDelAll
            rw [List.any_cons]
            cases h1 : loopDelAny dst.id dstEp srcs.enum e <;>
              cases h2 : ES.any (fun kv => needsComb kv.2 && loopDelAny kv.1.1.id kv.1.2 kv.2.enum e) <;>
                simp [h1, h2, hneed])]
        rw [List.append_assoc, combNewsOf_cons_pos _ _ _ _ hneed]
      · show G.nextId + 1 + (ES.filter (fun kv => needsComb kv.2)).length = _
        rw [List.filter_cons_of_pos (by simpa using hneed), List.length_cons]
        omega
    · rw [combStep_skip G dst dstEp srcs (by simpa using hneed)]
      rw [ih G hids (fun kv2 hkv2 => hpres kv2 (List.mem_cons_of_mem _ hkv2))]
      congr 1
      · rw [combsOf_cons_neg _ _ _ _ (by simpa using hneed)]
      · rw [show (List.filter (fun e => !combDelAll ES e) G.edges) =
            List.filter (fun e => !combDelAll (((dst, dstEp), srcs) :: ES) e) G.edges from
          List.filter_congr (fun e _ => by
            unfold combDelAll
            rw [List.any_cons]
            simp only [Bool.not_eq_true] at hneed
            simp [hneed])]
        rw [combNewsOf_cons_neg _ _ _ _ (by simpa using hneed)]
      · rw [List.filter_cons_of_neg (by simpa using hneed)]

theorem keys_foldl_mem {γ α β : Type} [DecidableEq α] (κ : γ → α) (ε : γ → β) :
    ∀ (L : List γ) (d : List (α × List β)) (k : α),
      k ∈ ((L.foldl (fun d2 e => aApp d2 (κ e) (ε e)) d).map Prod.fst) →
      k ∈ d.map Prod.fst ∨ ∃ e ∈ L, κ e = k := by
  intro L
  induction L with
  | nil => intro d k h; exact Or.inl h
  | cons e t ih =>
    intro d k h
    rcases ih (aApp d (κ e) (ε e)) k h with h1 | h1
    · rw [aApp_keys] at h1
      by_cases h2 : κ e ∈ d.map Prod.fst
      · rw [if_pos h2] at h1
        exact Or.inl h1
      · rw [if_neg h2] at h1
        rcases List.mem_append.mp h1 with h3 | h3
        · exact Or.inl h3
        · exact Or.inr ⟨e, List.mem_cons_self _ _, (List.mem_singleton.mp h3).symm⟩
    · rcases h1 with ⟨e2, he2, hk⟩
      exact Or.inr ⟨e2, List.mem_cons_of_mem _ he2, hk⟩

theorem sinkToSources_eq (g : DFG) :
    g.sinkToSources =
      g.edgesIter.foldl (fun d e => aApp d (sinkKeyOf g e) (srcEntryOf g e)) [] := rfl

theorem nodeOf_mem (g : DFG) (i : Nat) (h : ∃ n ∈ g.nodes, n.id = i) :
    g.nodeOf i ∈ g.nodes ∧ (g.nodeOf i).id = i := by
  unfold DFG.nodeOf
  rcases hfind : g.nodes.find? (fun m => m.id == i) with _ | n
  · rcases h with ⟨n, hn, hni⟩
    rw [List.find?_eq_none] at hfind
    exact absurd (by simpa using hni) (by simpa using hfind n hn)
  · rw [hfind]
    refine ⟨List.mem_of_find?_eq_some hfind, ?_⟩
    simpa using List.find?_some hfind

theorem sinkToSources_group (g : DFG) (kv : (ActorNode × PyVal) × List SrcEntry)
    (hmem : kv ∈ g.sinkToSources) :
    kv.2 = (g.edgesIter.filter (fun e => decide (sinkKeyOf g e = kv.1))).map (srcEntryOf g) := by
  rcases kv with ⟨k, vs⟩
  rw [sinkToSources_eq] at hmem
  exact mem_foldl_group (sinkKeyOf g) (srcEntryOf g) g.edgesIter k vs hmem

theorem sinkToSources_key_edge (g : DFG) (kv : (ActorNode × PyVal) × List SrcEntry)
    (hmem : kv ∈ g.sinkToSources) :
    ∃ e ∈ g.edgesIter, sinkKeyOf g e = kv.1 := by
  rw [sinkToSources_eq] at hmem
  have hk : kv.1 ∈ ((g.edgesIter.foldl
      (fun d e => aApp d (sinkKeyOf g e) (srcEntryOf g e)) []).map Prod.fst) :=
    List.mem_map.mpr ⟨kv, hmem, rfl⟩
  rcases keys_foldl_mem (sinkKeyOf g) (srcEntryOf g) g.edgesIter [] kv.1 hk with h1 | h1
  · simp at h1
  · exact h1

theorem wf_dst_present (g : DFG) (hwf : g.wf = true) (e : Edge) (he : e ∈ g.edges) :
    g.nodeOf e.dst ∈ g.nodes ∧ (g.nodeOf e.dst).id = e.dst :=
  nodeOf_mem g e.dst ((wf_parts g hwf).2.2 e he).2.1

theorem wf_src_present (g : DFG) (hwf : g.wf = true) (e : Edge) (he : e ∈ g.edges) :
    g.nodeOf e.src ∈ g.nodes ∧ (g.nodeOf e.src).id = e.src :=
  nodeOf_mem g e.src ((wf_parts g hwf).2.2 e he).1

/-- `combPhase` in closed form: pre-existing edges whose sink key is not
triggered survive in order, followed by the created edges; the created
combinator nodes are appended to the node list; the id counter advances by
the number of triggered sink keys. -/
theorem combPhase_closed (g : DFG) (hwf : g.wf = true) :
    combPhase g =
      { nodes := g.nodes ++ combsOf g.nextId g.sinkToSources,
        edges := g.edges.filter (fun e => !combDelAll g.sinkToSources e) ++
          combNewsOf g.nextId g.sinkToSources,
        nextId := g.nextId + (g.sinkToSources.filter (fun kv => needsComb kv.2)).length,
        elaborated := g.elaborated } := by
  unfold combPhase
  apply combFold_closed g.sinkToSources g (wf_parts g hwf).2.1
  intro kv hkv
  constructor
  · rcases sinkToSources_key_edge g kv hkv with ⟨e, he, hke⟩
    have he2 : e ∈ g.edges := (mem_edgesIter g hwf e).mp he
    rcases wf_dst_present g hwf e he2 with ⟨hm, hid⟩
    rw [List.any_eq_true]
    refine ⟨g.nodeOf e.dst, hm, ?_⟩
    have : kv.1.1 = g.nodeOf e.dst := by
      rw [← hke]
      rfl
    rw [this]
    simp
  · intro s hs
    have hgroup := sinkToSources_group g kv hkv
    rw [hgroup] at hs
    rcases List.mem_map.mp hs with ⟨e, hef, rfl⟩
    have he2 : e ∈ g.edges := (mem_edgesIter g hwf e).mp (List.mem_filter.mp hef).1
    rcases wf_src_present g hwf e he2 with ⟨hm, hid⟩
    rw [List.any_eq_true]
    refine ⟨g.nodeOf e.src, hm, ?_⟩
    simp [srcEntryOf]

/-!
## Closed form of the splitter half, mirroring the combinator half
-/
theorem add_connection_absent_present (g : DFG) (a b : ActorNode) (p q r s : PyVal)
    (ha : g.nodes.any (fun m => m.id == a.id) = false)
    (hb : g.nodes.any (fun m => m.id == b.id) = true) :
    g.add_connection a b p q r s =
      { g with nodes := g.nodes ++ [a], edges := g.edges ++ [⟨a.id, b.id, stdData p q r s⟩] } := by
  unfold DFG.add_connection
  rw [addNode_absent g a ha]
  rw [addNode_present _ b (by
    show ((g.nodes ++ [a]).any (fun m => m.id == b.id)) = true
    rw [List.any_append, Bool.or_eq_true]
    exact Or.inl hb)]

theorem splitLoop_closed (srcId : Nat) (srcEp : PyVal) (spl : ActorNode) :
    ∀ (L : List (Nat × SinkEntry)) (g2 : DFG),
      (∀ ns ∈ L, g2.nodes.any (fun m => m.id == ns.2.1.id) = true) →
      g2.nodes.any (fun m => m.id == spl.id) = true →
      srcId ≠ spl.id →
      L.foldl (fun gg ns =>
        (gg.del_connections srcId ns.2.1.id [("source", srcEp), ("sink", ns.2.2.1)]).add_connection
          spl ns.2.1 (PyVal.str ("source" ++ toString ns.1)) ns.2.2.1 PyVal.none PyVal.none) g2 =
      { g2 with edges := g2.edges.filter (fun e => !splitLoopDelAny srcId srcEp L e) ++ L.map (splitNewEdge spl.id) } := by
  intro L
  induction L with
  | nil =>
    intro g2 _ _ _
    show g2 = _
    simp [splitLoopDelAny]
  | cons ns0 L ih =>
    intro g2 hsinks hspl hsrc
    rw [List.foldl_cons]
    have hstep : (g2.del_connections srcId ns0.2.1.id
        [("source", srcEp), ("sink", ns0.2.2.1)]).add_connection
          spl ns0.2.1 (PyVal.str ("source" ++ toString ns0.1)) ns0.2.2.1 PyVal.none PyVal.none =
        { g2 with edges := g2.edges.filter (fun e => !splitLoopDelPred srcId srcEp ns0 e) ++
            [splitNewEdge spl.id ns0] } := by
      rw [add_connection_both_present _ spl ns0.2.1 _ _ _ _
        (by
          show (g2.nodes.any (fun m => m.id == spl.id)) = true
          exact hspl)
        (by
          show (g2.nodes.any (fun m => m.id == ns0.2.1.id)) = true
          exact hsinks ns0 (List.mem_cons_self _ _))]
      rfl
    rw [hstep]
    rw [ih ({ g2 with edges := g2.edges.filter (fun e => !splitLoopDelPred srcId srcEp ns0 e) ++ [splitNewEdge spl.id ns0] })
        (fun ns hns => hsinks ns (List.mem_cons_of_mem _ hns)) hspl hsrc]
    simp only
    congr 1
    rw [List.filter_append]
    have hnew : List.filter (fun e => !splitLoopDelAny srcId srcEp L e) [splitNewEdge spl.id ns0] =
        [splitNewEdge spl.id ns0] := by
      rw [List.filter_eq_self]
      intro e he
      rcases List.mem_singleton.mp he with rfl
      have hfa : splitLoopDelAny srcId srcEp L (splitNewEdge spl.id ns0) = false := by
        unfold splitLoopDelAny
        rw [List.any_eq_false]
        intro ns _
        unfold splitLoopDelPred
        have hs : ((splitNewEdge spl.id ns0).src == srcId) = false := by
          simp only [splitNewEdge]
          exact beq_eq_false_iff_ne.mpr (fun hc => hsrc hc.symm)
        simp [hs]
      simp [hfa]
    rw [hnew, List.filter_filter]
    rw [show (List.filter (fun e =>
        (!splitLoopDelAny srcId srcEp L e) && !splitLoopDelPred srcId srcEp ns0 e) g2.edges) =
        List.filter (fun e => !splitLoopDelAny srcId srcEp (ns0 :: L) e) g2.edges from
      List.filter_congr (fun e _ => by
        unfold splitLoopDelAny
        rw [List.any_cons]
        cases h1 : splitLoopDelPred srcId srcEp ns0 e <;>
          cases h2 : L.any (fun ns => splitLoopDelPred srcId srcEp ns e) <;> simp [h1, h2])]
    rw [List.append_assoc]
    rfl

theorem splitNode_id (sid : Nat) (ss : List SinkEntry) : (splitNode sid ss).id = sid := rfl

theorem splitStep_closed (g : DFG) (src : ActorNode) (srcEp : PyVal) (sinks : List SinkEntry)
    (hneed : needsSplit sinks = true)
    (hids : ∀ n ∈ g.nodes, n.id < g.nextId)
    (hsrc : g.nodes.any (fun m => m.id == src.id) = true)
    (hsinks : ∀ s ∈ sinks, g.nodes.any (fun m => m.id == s.1.id) = true) :
    splitStep g src srcEp sinks =
      { nodes := g.nodes ++ [splitNode g.nextId sinks],
        edges := g.edges.filter (fun e => !splitLoopDelAny src.id srcEp sinks.enum e) ++ splitNewEdges g.nextId src.id srcEp sinks,
        nextId := g.nextId + 1, elaborated := g.elaborated } := by
  have hsrclt : src.id < g.nextId := id_lt_of_any g src.id hids hsrc
  have hsrcne : src.id ≠ (splitNode g.nextId sinks).id := by
    show src.id ≠ g.nextId
    exact Nat.ne_of_lt hsrclt
  obtain ⟨s0, rest, rfl⟩ : ∃ s0 rest, sinks = s0 :: rest := by
    cases sinks with
    | nil => simp [needsSplit] at hneed
    | cons a t => exact ⟨a, t, rfl⟩
  unfold splitStep
  rw [if_pos hneed]
  dsimp only
  rw [List.enum_cons, List.foldl_cons]
  rw [add_connection_absent_present
      (({ g with nextId := g.nextId + 1 } : DFG).del_connections src.id s0.1.id
        [("source", srcEp), ("sink", s0.2.1)]) (splitNode g.nextId (s0 :: rest)) s0.1
      (PyVal.str ("source" ++ toString 0)) s0.2.1 PyVal.none PyVal.none
      (by
        show (g.nodes.any (fun m => m.id == g.nextId)) = false
        exact any_eq_false_of_ids g hids)
      (by
        show (g.nodes.any (fun m => m.id == s0.1.id)) = true
        exact hsinks s0 (List.mem_cons_self _ _))]
  rw [show ({ ({ g with nextId := g.nextId + 1 } : DFG).del_connections src.id s0.1.id
        [("source", srcEp), ("sink", s0.2.1)] with
      nodes := (({ g with nextId := g.nextId + 1 } : DFG).del_connections src.id s0.1.id
        [("source", srcEp), ("sink", s0.2.1)]).nodes ++ [splitNode g.nextId (s0 :: rest)],
      edges := (({ g with nextId := g.nextId + 1 } : DFG).del_connections src.id s0.1.id
        [("source", srcEp), ("sink", s0.2.1)]).edges ++ [⟨(splitNode g.nextId (s0 :: rest)).id, s0.1.id, stdData (PyVal.str ("source" ++ toString 0)) s0.2.1 PyVal.none PyVal.none⟩] } : DFG) =
      ({ nodes := g.nodes ++ [splitNode g.nextId (s0 :: rest)],
         edges := g.edges.filter (fun e => !splitLoopDelPred src.id srcEp (0, s0) e) ++ [splitNewEdge g.nextId (0, s0)],
         nextId := g.nextId + 1, elaborated := g.elaborated } : DFG) from rfl]
  rw [splitLoop_closed src.id srcEp (splitNode g.nextId (s0 :: rest)) (rest.enumFrom 1)
      ({ nodes := g.nodes ++ [splitNode g.nextId (s0 :: rest)],
         edges := g.edges.filter (fun e => !splitLoopDelPred src.id srcEp (0, s0) e) ++ [splitNewEdge g.nextId (0, s0)],
         nextId := g.nextId + 1, elaborated := g.elaborated })
      (by
        intro ns hns
        have hmem : ns.2 ∈ s0 :: rest :=
          List.mem_cons_of_mem s0 (List.snd_mem_of_mem_enumFrom hns)
        show ((g.nodes ++ [splitNode g.nextId (s0 :: rest)]).any (fun m => m.id == ns.2.1.id)) = true
        rw [List.any_append, Bool.or_eq_true]
        exact Or.inl (hsinks ns.2 hmem))
      (by
        show ((g.nodes ++ [splitNode g.nextId (s0 :: rest)]).any
          (fun m => m.id == (splitNode g.nextId (s0 :: rest)).id)) = true
        rw [List.any_append, Bool.or_eq_true]
        right
        simp)
      hsrcne]
  rw [add_connection_both_present _ src (splitNode g.nextId (s0 :: rest))
      srcEp (PyVal.str "sink") PyVal.none PyVal.none
      (by
        show ((g.nodes ++ [splitNode g.nextId (s0 :: rest)]).any (fun m => m.id == src.id)) = true
        rw [List.any_append, Bool.or_eq_true]
        exact Or.inl hsrc)
      (by
        show ((g.nodes ++ [splitNode g.nextId (s0 :: rest)]).any
          (fun m => m.id == (splitNode g.nextId (s0 :: rest)).id)) = true
        rw [List.any_append, Bool.or_eq_true]
        right
        simp)]
  congr 1
  rw [List.filter_append]
  have hnew0 : List.filter (fun e => !splitLoopDelAny src.id srcEp (rest.enumFrom 1) e)
      [splitNewEdge g.nextId (0, s0)] = [splitNewEdge g.nextId (0, s0)] := by
    rw [List.filter_eq_self]
    intro e he
    rcases List.mem_singleton.mp he with rfl
    have hfa : splitLoopDelAny src.id srcEp (rest.enumFrom 1) (splitNewEdge g.nextId (0, s0)) = false := by
      unfold splitLoopDelAny
      rw [List.any_eq_false]
      intro ns _
      unfold splitLoopDelPred
      have hd : ((splitNewEdge g.nextId (0, s0)).src == src.id) = false := by
        simp only [splitNewEdge]
        exact beq_eq_false_iff_ne.mpr (fun hc => hsrcne hc.symm)
      simp [hd]
    simp [hfa]
  rw [hnew0, List.filter_filter]
  rw [show (List.filter (fun e =>
      (!splitLoopDelAny src.id srcEp (rest.enumFrom 1) e) && !splitLoopDelPred src.id srcEp (0, s0) e) g.edges) =
      List.filter (fun e => !splitLoopDelAny src.id srcEp ((s0 :: rest).enum) e) g.edges from
    List.filter_congr (fun e _ => by
      unfold splitLoopDelAny
      rw [List.enum_cons, List.any_cons]
      cases h1 : splitLoopDelPred src.id srcEp (0, s0) e <;>
        cases h2 : (rest.enumFrom 1).any (fun ns => splitLoopDelPred src.id srcEp ns e) <;> simp [h1, h2])]
  rw [List.append_assoc]
  unfold splitNewEdges
  rw [List.enum_cons, List.map_cons]
  simp [splitNode_id, List.append_assoc]

theorem splitStep_skip (g : DFG) (src : ActorNode) (srcEp : PyVal) (sinks : List SinkEntry)
    (h : needsSplit sinks = false) : splitStep g src srcEp sinks = g := by
  unfold splitStep
  rw [if_neg (by simp [h])]

theorem splitsOf_cons_pos (base : Nat) (k : ActorNode × PyVal) (sinks : List SinkEntry)
    (t : List ((ActorNode × PyVal) × List SinkEntry)) (h : needsSplit sinks = true) :
    splitsOf base ((k, sinks) :: t) = splitNode base sinks :: splitsOf (base + 1) t := by
  simp [splitsOf, h]

theorem splitsOf_cons_neg (base : Nat) (k : ActorNode × PyVal) (sinks : List SinkEntry)
    (t : List ((ActorNode × PyVal) × List SinkEntry)) (h : needsSplit sinks = false) :
    splitsOf base ((k, sinks) :: t) = splitsOf base t := by
  simp [splitsOf, h]

theorem splitNewsOf_cons_pos (base : Nat) (k : ActorNode × PyVal) (sinks : List SinkEntry)
    (t : List ((ActorNode × PyVal) × List SinkEntry)) (h : needsSplit sinks = true) :
    splitNewsOf base ((k, sinks) :: t) =
      splitNewEdges base k.1.id k.2 sinks ++ splitNewsOf (base + 1) t := by
  simp [splitNewsOf, h]

theorem splitNewsOf_cons_neg (base : Nat) (k : ActorNode × PyVal) (sinks : List SinkEntry)
    (t : List ((ActorNode × PyVal) × List SinkEntry)) (h : needsSplit sinks = false) :
    splitNewsOf base ((k, sinks) :: t) = splitNewsOf base t := by
  simp [splitNewsOf, h]

theorem splitNewEdges_not_deleted (ES : List ((ActorNode × PyVal) × List SinkEntry))
    (sid srcId : Nat) (srcEp : PyVal) (sinks : List SinkEntry) (bound : Nat)
    (hsid : bound ≤ sid)
    (hESsrc : ∀ kv ∈ ES, kv.1.1.id < bound)
    (hESdst : ∀ kv ∈ ES, ∀ s ∈ kv.2, s.1.id < bound) :
    ∀ e ∈ splitNewEdges sid srcId srcEp sinks, splitDelAll ES e = false := by
  intro e he
  unfold splitDelAll
  rw [List.any_eq_false]
  intro kv hkv
  have hLDA : splitLoopDelAny kv.1.1.id kv.1.2 kv.2.enum e = false := by
    unfold splitLoopDelAny
    rw [List.any_eq_false]
    intro ns hns
    unfold splitLoopDelPred
    rcases List.mem_append.mp he with he2 | he2
    · rcases List.mem_map.mp he2 with ⟨ms, _, rfl⟩
      have hsrcne : ((splitNewEdge sid ms).src == kv.1.1.id) = false := by
        simp only [splitNewEdge]
        exact beq_eq_false_iff_ne.mpr
          (Nat.ne_of_gt (Nat.lt_of_lt_of_le (hESsrc kv hkv) hsid))
      simp [hsrcne]
    · rcases List.mem_singleton.mp he2 with rfl
      have hdstne : ((⟨srcId, sid, stdData srcEp (PyVal.str "sink") PyVal.none PyVal.none⟩ : Edge).dst ==
          ns.2.1.id) = false := by
        exact beq_eq_false_iff_ne.mpr
          (Nat.ne_of_gt (Nat.lt_of_lt_of_le
            (hESdst kv hkv ns.2 (List.snd_mem_of_mem_enumFrom hns)) hsid))
      simp [hdstne]
  simp [hLDA]

theorem splitFold_closed :
    ∀ (ES : List ((ActorNode × PyVal) × List SinkEntry)) (G : DFG),
      (∀ n ∈ G.nodes, n.id < G.nextId) →
      (∀ kv ∈ ES, G.nodes.any (fun m => m.id == kv.1.1.id) = true ∧
        ∀ s ∈ kv.2, G.nodes.any (fun m => m.id == s.1.id) = true) →
      ES.foldl (fun g2 kv => splitStep g2 kv.1.1 kv.1.2 kv.2) G =
        { nodes := G.nodes ++ splitsOf G.nextId ES,
          edges := G.edges.filter (fun e => !splitDelAll ES e) ++ splitNewsOf G.nextId ES,
          nextId := G.nextId + (ES.filter (fun kv => needsSplit kv.2)).length,
          elaborated := G.elaborated } := by
  intro ES
  induction ES with
  | nil =>
    intro G _ _
    show G = _
    simp [splitsOf, splitNewsOf, splitDelAll]
  | cons kv ES ih =>
    intro G hids hpres
    rw [List.foldl_cons]
    rcases kv with ⟨⟨src, srcEp⟩, sinks⟩
    by_cases hneed : needsSplit sinks = true
    · rw [splitStep_closed G src srcEp sinks hneed hids
        (hpres _ (List.mem_cons_self _ _)).1 (hpres _ (List.mem_cons_self _ _)).2]
      rw [ih _ (by
          intro n hn
          rcases List.mem_append.mp hn with h1 | h1
          · exact Nat.lt_succ_of_lt (hids n h1)
          · rcases List.mem_singleton.mp h1 with rfl
            exact Nat.lt_succ_self _)
        (by
          intro kv2 hkv2
          constructor
          · show ((G.nodes ++ [splitNode G.nextId sinks]).any (fun m => m.id == kv2.1.1.id)) = true
            rw [List.any_append, Bool.or_eq_true]
            exact Or.inl (hpres kv2 (List.mem_cons_of_mem _ hkv2)).1
          · intro s hs
            show ((G.nodes ++ [splitNode G.nextId sinks]).any (fun m => m.id == s.1.id)) = true
            rw [List.any_append, Bool.or_eq_true]
            exact Or.inl ((hpres kv2 (List.mem_cons_of_mem _ hkv2)).2 s hs))]
      congr 1
      · show (G.nodes ++ [splitNode G.nextId sinks]) ++ splitsOf (G.nextId + 1) ES = _
        rw [List.append_assoc, splitsOf_cons_pos _ _ _ _ hneed]
        rfl
      · show (G.edges.filter (fun e => !splitLoopDelAny src.id srcEp sinks.enum e) ++
            splitNewEdges G.nextId src.id srcEp sinks).filter (fun e => !splitDelAll ES e) ++
            splitNewsOf (G.nextId + 1) ES = _
        rw [List.filter_append]
        have hsurv : (splitNewEdges G.nextId src.id srcEp sinks).filter
            (fun e => !splitDelAll ES e) = splitNewEdges G.nextId src.id srcEp sinks := by
          rw [List.filter_eq_self]
          intro e he
          have hf := splitNewEdges_not_deleted ES G.nextId src.id srcEp sinks G.nextId
            (Nat.le_refl _)
            (fun kv2 hkv2 => id_lt_of_any G kv2.1.1.id hids (hpres kv2 (List.mem_cons_of_mem _ hkv2)).1)
            (fun kv2 hkv2 s hs => id_lt_of_any G s.1.id hids
              ((hpres kv2 (List.mem_cons_of_mem _ hkv2)).2 s hs))
            e he
          simp [hf]
        rw [hsurv, List.filter_filter]
        rw [show (List.filter (fun e => (!splitDelAll ES e) && !splitLoopDelAny src.id srcEp sinks.enum e) G.edges) =
            List.filter (fun e => !splitDelAll (((src, srcEp), sinks) :: ES) e) G.edges from
          List.filter_congr (fun e _ => by
            unfold splitDelAll
            rw [List.any_cons]
            cases h1 : splitLoopDelAny src.id srcEp sinks.enum e <;>
              cases h2 : ES.any (fun kv => needsSplit kv.2 && splitLoopDelAny kv.1.1.id kv.1.2 kv.2.enum e) <;>
                simp [h1, h2, hneed])]
        rw [List.append_assoc, splitNewsOf_cons_pos _ _ _ _ hneed]
      · show G.nextId + 1 + (ES.filter (fun kv => needsSplit kv.2)).length = _
        rw [List.filter_cons_of_pos (by simpa using hneed), List.length_cons]
        omega
    · rw [splitStep_skip G src srcEp sinks (by simpa using hneed)]
      rw [ih G hids (fun kv2 hkv2 => hpres kv2 (List.mem_cons_of_mem _ hkv2))]
      congr 1
      · rw [splitsOf_cons_neg _ _ _ _ (by simpa using hneed)]
      · rw [show (List.filter (fun e => !splitDelAll ES e) G.edges) =
            List.filter (fun e => !splitDelAll (((src, srcEp), sinks) :: ES) e) G.edges from
          List.filter_congr (fun e _ => by
            unfold splitDelAll
            rw [List.any_cons]
            simp only [Bool.not_eq_true] at hneed
            simp [hneed])]
        rw [splitNewsOf_cons_neg _ _ _ _ (by simpa using hneed)]
      · rw [List.filter_cons_of_neg (by simpa using hneed)]

theorem sourceToSinks_eq (g : DFG) :
    g.sourceToSinks =
      g.edgesIter.foldl (fun d e => aApp d (srcKeyOf g e) (sinkEntryOf g e)) [] := rfl

theorem sourceToSinks_group (g : DFG) (kv : (ActorNode × PyVal) × List SinkEntry)
    (hmem : kv ∈ g.sourceToSinks) :
    kv.2 = (g.edgesIter.filter (fun e => decide (srcKeyOf g e = kv.1))).map (sinkEntryOf g) := by
  rcases kv with ⟨k, vs⟩
  rw [sourceToSinks_eq] at hmem
  exact mem_foldl_group (srcKeyOf g) (sinkEntryOf g) g.edgesIter k vs hmem

theorem sourceToSinks_key_edge (g : DFG) (kv : (ActorNode × PyVal) × List SinkEntry)
    (hmem : kv ∈ g.sourceToSinks) :
    ∃ e ∈ g.edgesIter, srcKeyOf g e = kv.1 := by
  rw [sourceToSinks_eq] at hmem
  have hk : kv.1 ∈ ((g.edgesIter.foldl
      (fun d e => aApp d (srcKeyOf g e) (sinkEntryOf g e)) []).map Prod.fst) :=
    List.mem_map.mpr ⟨kv, hmem, rfl⟩
  rcases keys_foldl_mem (srcKeyOf g) (sinkEntryOf g) g.edgesIter [] kv.1 hk with h1 | h1
  · simp at h1
  · exact h1

/-- `splitPhase` in closed form. -/
theorem splitPhase_closed (g : DFG) (hwf : g.wf = true) :
    splitPhase g =
      { nodes := g.nodes ++ splitsOf g.nextId g.sourceToSinks,
        edges := g.edges.filter (fun e => !splitDelAll g.sourceToSinks e) ++
          splitNewsOf g.nextId g.sourceToSinks,
        nextId := g.nextId + (g.sourceToSinks.filter (fun kv => needsSplit kv.2)).length,
        elaborated := g.elaborated } := by
  unfold splitPhase
  apply splitFold_closed g.sourceToSinks g (wf_parts g hwf).2.1
  intro kv hkv
  constructor
  · rcases sourceToSinks_key_edge g kv hkv with ⟨e, he, hke⟩
    have he2 : e ∈ g.edges := (mem_edgesIter g hwf e).mp he
    rcases wf_src_present g hwf e he2 with ⟨hm, hid⟩
    rw [List.any_eq_true]
    refine ⟨g.nodeOf e.src, hm, ?_⟩
    have : kv.1.1 = g.nodeOf e.src := by
      rw [← hke]
      rfl
    rw [this]
    simp
  · intro s hs
    have hgroup := sourceToSinks_group g kv hkv
    rw [hgroup] at hs
    rcases List.mem_map.mp hs with ⟨e, hef, rfl⟩
    have he2 : e ∈ g.edges := (mem_edgesIter g hwf e).mp (List.mem_filter.mp hef).1
    rcases wf_dst_present g hwf e he2 with ⟨hm, hid⟩
    rw [List.any_eq_true]
    refine ⟨g.nodeOf e.dst, hm, ?_⟩
    simp [sinkEntryOf]

/-!
## Well-formedness is preserved by pass 1
-/
theorem stdEdge_mk (x y : Nat) (a b c d : PyVal) :
    stdEdge ⟨x, y, stdData a b c d⟩ = true := by
  unfold stdEdge
  have hd := dget_stdData a b c d
  show (stdData a b c d == stdData (dget (stdData a b c d) "source") (dget (stdData a b c d) "sink")
    (dget (stdData a b c d) "source_subr") (dget (stdData a b c d) "sink_subr")) = true
  rw [hd.1, hd.2.1, hd.2.2.1, hd.2.2.2]
  exact beq_self_eq_true _

theorem combsOf_ids : ∀ (ES : List ((ActorNode × PyVal) × List SrcEntry)) (base : Nat)
    (c : ActorNode), c ∈ combsOf base ES →
    base ≤ c.id ∧ c.id < base + (ES.filter (fun kv => needsComb kv.2)).length := by
  intro ES
  induction ES with
  | nil => intro base c hc; simp [combsOf] at hc
  | cons kv t ih =>
    intro base c hc
    rcases kv with ⟨k, srcs⟩
    by_cases hneed : needsComb srcs = true
    · rw [combsOf_cons_pos _ _ _ _ hneed] at hc
      rw [List.filter_cons_of_pos (by simpa using hneed), List.length_cons]
      rcases List.mem_cons.mp hc with h1 | h1
      · subst h1
        simp only [combNode_id]
        omega
      · rcases ih (base + 1) c h1 with ⟨h2, h3⟩
        exact ⟨Nat.le_of_succ_le h2, by omega⟩
    · rw [combsOf_cons_neg _ _ _ _ (by simpa using hneed)] at hc
      rw [List.filter_cons_of_neg (by simpa using hneed)]
      exact ih base c hc

theorem combsOf_ids_nodup : ∀ (ES : List ((ActorNode × PyVal) × List SrcEntry)) (base : Nat),
    ((combsOf base ES).map (fun n => n.id)).Nodup := by
  intro ES
  induction ES with
  | nil => intro base; simp [combsOf]
  | cons kv t ih =>
    intro base
    rcases kv with ⟨k, srcs⟩
    by_cases hneed : needsComb srcs = true
    · rw [combsOf_cons_pos _ _ _ _ hneed]
      rw [List.map_cons, List.nodup_cons]
      refine ⟨?_, ih (base + 1)⟩
      intro hmem
      rcases List.mem_map.mp hmem with ⟨c, hc, hcid⟩
      rcases combsOf_ids t (base + 1) c hc with ⟨h1, _⟩
      rw [combNode_id] at hcid
      omega
    · rw [combsOf_cons_neg _ _ _ _ (by simpa using hneed)]
      exact ih base

theorem combNewsOf_edges : ∀ (ES : List ((ActorNode × PyVal) × List SrcEntry)) (base : Nat)
    (N : List ActorNode),
    (∀ kv ∈ ES, N.any (fun m => m.id == kv.1.1.id) = true ∧
      ∀ s ∈ kv.2, N.any (fun m => m.id == s.1.id) = true) →
    ∀ e ∈ combNewsOf base ES,
      (N.any (fun m => m.id == e.src) = true ∨ ∃ c ∈ combsOf base ES, c.id = e.src) ∧
      (N.any (fun m => m.id == e.dst) = true ∨ ∃ c ∈ combsOf base ES, c.id = e.dst) ∧
      stdEdge e = true := by
  intro ES
  induction ES with
  | nil => intro base N _ e he; simp [combNewsOf] at he
  | cons kv t ih =>
    intro base N hpres e he
    rcases kv with ⟨k, srcs⟩
    by_cases hneed : needsComb srcs = true
    · rw [combNewsOf_cons_pos _ _ _ _ hneed] at he
      rw [combsOf_cons_pos _ _ _ _ hneed]
      rcases List.mem_append.mp he with he1 | he1
      · rcases List.mem_append.mp he1 with he2 | he2
        · rcases List.mem_map.mp he2 with ⟨ns, hns, rfl⟩
          refine ⟨Or.inl ?_, Or.inr ⟨combNode base srcs, List.mem_cons_self _ _, rfl⟩, ?_⟩
          · exact (hpres _ (List.mem_cons_self _ _)).2 ns.2 (List.snd_mem_of_mem_enumFrom hns)
          · exact stdEdge_mk _ _ _ _ _ _
        · rcases List.mem_singleton.mp he2 with rfl
          refine ⟨Or.inr ⟨combNode base srcs, List.mem_cons_self _ _, rfl⟩,
            Or.inl (hpres _ (List.mem_cons_self _ _)).1, stdEdge_mk _ _ _ _ _ _⟩
      · rcases ih (base + 1) N (fun kv2 hkv2 => hpres kv2 (List.mem_cons_of_mem _ hkv2)) e he1
          with ⟨h1, h2, h3⟩
        refine ⟨?_, ?_, h3⟩
        · rcases h1 with h1 | ⟨c, hc, hcid⟩
          · exact Or.inl h1
          · exact Or.inr ⟨c, List.mem_cons_of_mem _ hc, hcid⟩
        · rcases h2 with h2 | ⟨c, hc, hcid⟩
          · exact Or.inl h2
          · exact Or.inr ⟨c, List.mem_cons_of_mem _ hc, hcid⟩
    · rw [combNewsOf_cons_neg _ _ _ _ (by simpa using hneed)] at he
      rw [combsOf_cons_neg _ _ _ _ (by simpa using hneed)]
      exact ih base N (fun kv2 hkv2 => hpres kv2 (List.mem_cons_of_mem _ hkv2)) e he

theorem sinkToSources_pres (g : DFG) (hwf : g.wf = true) :
    ∀ kv ∈ g.sinkToSources, g.nodes.any (fun m => m.id == kv.1.1.id) = true ∧
      ∀ s ∈ kv.2, g.nodes.any (fun m => m.id == s.1.id) = true := by
  intro kv hkv
  constructor
  · rcases sinkToSources_key_edge g kv hkv with ⟨e, he, hke⟩
    have he2 : e ∈ g.edges := (mem_edgesIter g hwf e).mp he
    rcases wf_dst_present g hwf e he2 with ⟨hm, hid⟩
    rw [List.any_eq_true]
    refine ⟨g.nodeOf e.dst, hm, ?_⟩
    have h3 : kv.1.1 = g.nodeOf e.dst := by rw [← hke]; rfl
    rw [h3]
    simp
  · intro s hs
    have hgroup := sinkToSources_group g kv hkv
    rw [hgroup] at hs
    rcases List.mem_map.mp hs with ⟨e, hef, rfl⟩
    have he2 : e ∈ g.edges := (mem_edgesIter g hwf e).mp (List.mem_filter.mp hef).1
    rcases wf_src_present g hwf e he2 with ⟨hm, hid⟩
    rw [List.any_eq_true]
    refine ⟨g.nodeOf e.src, hm, ?_⟩
    simp [srcEntryOf]

theorem wf_combPhase (g : DFG) (hwf : g.wf = true) : (combPhase g).wf = true := by
  rcases wf_parts g hwf with ⟨hnd, hlt, hedges⟩
  rw [combPhase_closed g hwf]
  unfold DFG.wf
  simp only [Bool.and_eq_true, List.all_eq_true]
  refine ⟨⟨?_, ?_⟩, ?_⟩
  · rw [decide_eq_true_eq, List.map_append, List.nodup_append]
    refine ⟨by simpa using hnd, by simpa using combsOf_ids_nodup g.sinkToSources g.nextId, ?_⟩
    intro i hi hi2
    rcases List.mem_map.mp hi with ⟨n, hn, rfl⟩
    rcases List.mem_map.mp hi2 with ⟨c, hc, hcid⟩
    rcases combsOf_ids g.sinkToSources g.nextId c hc with ⟨h1, _⟩
    have h2 := hlt n hn
    omega
  · intro n hn
    rw [decide_eq_true_eq]
    simp only [List.mem_append] at hn
    show n.id < g.nextId + (g.sinkToSources.filter (fun kv => needsComb kv.2)).length
    rcases hn with hn | hn
    · have := hlt n hn
      omega
    · rcases combsOf_ids g.sinkToSources g.nextId n hn with ⟨_, h2⟩
      exact h2
  · intro e he
    simp only [List.mem_append] at he
    rcases he with he | he
    · rcases List.mem_filter.mp he with ⟨he2, _⟩
      rcases hedges e he2 with ⟨⟨n1, hn1, hid1⟩, ⟨n2, hn2, hid2⟩, hstd⟩
      simp only [Bool.and_eq_true, List.any_eq_true]
      exact ⟨⟨⟨n1, List.mem_append_left _ hn1, by simpa using hid1⟩,
        ⟨n2, List.mem_append_left _ hn2, by simpa using hid2⟩⟩, hstd⟩
    · rcases combNewsOf_edges g.sinkToSources g.nextId g.nodes
        (sinkToSources_pres g hwf) e he with ⟨h1, h2, h3⟩
      simp only [Bool.and_eq_true, List.any_eq_true]
      refine ⟨⟨?_, ?_⟩, h3⟩
      · rcases h1 with h1 | ⟨c, hc, hcid⟩
        · rw [List.any_eq_true] at h1
          rcases h1 with ⟨n, hn, hni⟩
          exact ⟨n, List.mem_append_left _ hn, hni⟩
        · exact ⟨c, List.mem_append_right _ hc, by simpa using hcid⟩
      · rcases h2 with h2 | ⟨c, hc, hcid⟩
        · rw [List.any_eq_true] at h2
          rcases h2 with ⟨n, hn, hni⟩
          exact ⟨n, List.mem_append_left _ hn, hni⟩
        · exact ⟨c, List.mem_append_right _ hc, by simpa using hcid⟩

theorem splitsOf_ids : ∀ (ES : List ((ActorNode × PyVal) × List SinkEntry)) (base : Nat)
    (c : ActorNode), c ∈ splitsOf base ES →
    base ≤ c.id ∧ c.id < base + (ES.filter (fun kv => needsSplit kv.2)).length := by
  intro ES
  induction ES with
  | nil => intro base c hc; simp [splitsOf] at hc
  | cons kv t ih =>
    intro base c hc
    rcases kv with ⟨k, sinks⟩
    by_cases hneed : needsSplit sinks = true
    · rw [splitsOf_cons_pos _ _ _ _ hneed] at hc
      rw [List.filter_cons_of_pos (by simpa using hneed), List.length_cons]
      rcases List.mem_cons.mp hc with h1 | h1
      · subst h1
        simp only [splitNode_id]
        omega
      · rcases ih (base + 1) c h1 with ⟨h2, h3⟩
        exact ⟨Nat.le_of_succ_le h2, by omega⟩
    · rw [splitsOf_cons_neg _ _ _ _ (by simpa using hneed)] at hc
      rw [List.filter_cons_of_neg (by simpa using hneed)]
      exact ih base c hc

theorem splitsOf_ids_nodup : ∀ (ES : List ((ActorNode × PyVal) × List SinkEntry)) (base : Nat),
    ((splitsOf base ES).map (fun n => n.id)).Nodup := by
  intro ES
  induction ES with
  | nil => intro base; simp [splitsOf]
  | cons kv t ih =>
    intro base
    rcases kv with ⟨k, sinks⟩
    by_cases hneed : needsSplit sinks = true
    · rw [splitsOf_cons_pos _ _ _ _ hneed]
      rw [List.map_cons, List.nodup_cons]
      refine ⟨?_, ih (base + 1)⟩
      intro hmem
      rcases List.mem_map.mp hmem with ⟨c, hc, hcid⟩
      rcases splitsOf_ids t (base + 1) c hc with ⟨h1, _⟩
      rw [splitNode_id] at hcid
      omega
    · rw [splitsOf_cons_neg _ _ _ _ (by simpa using hneed)]
      exact ih base

theorem splitNewsOf_edges : ∀ (ES : List ((ActorNode × PyVal) × List SinkEntry)) (base : Nat)
    (N : List ActorNode),
    (∀ kv ∈ ES, N.any (fun m => m.id == kv.1.1.id) = true ∧
      ∀ s ∈ kv.2, N.any (fun m => m.id == s.1.id) = true) →
    ∀ e ∈ splitNewsOf base ES,
      (N.any (fun m => m.id == e.src) = true ∨ ∃ c ∈ splitsOf base ES, c.id = e.src) ∧
      (N.any (fun m => m.id == e.dst) = true ∨ ∃ c ∈ splitsOf base ES, c.id = e.dst) ∧
      stdEdge e = true := by
  intro ES
  induction ES with
  | nil => intro base N _ e he; simp [splitNewsOf] at he
  | cons kv t ih =>
    intro base N hpres e he
    rcases kv with ⟨k, sinks⟩
    by_cases hneed : needsSplit sinks = true
    · rw [splitNewsOf_cons_pos _ _ _ _ hneed] at he
      rw [splitsOf_cons_pos _ _ _ _ hneed]
      rcases List.mem_append.mp he with he1 | he1
      · rcases List.mem_append.mp he1 with he2 | he2
        · rcases List.mem_map.mp he2 with ⟨ns, hns, rfl⟩
          refine ⟨Or.inr ⟨splitNode base sinks, List.mem_cons_self _ _, rfl⟩, Or.inl ?_, ?_⟩
          · exact (hpres _ (List.mem_cons_self _ _)).2 ns.2 (List.snd_mem_of_mem_enumFrom hns)
          · exact stdEdge_mk _ _ _ _ _ _
        · rcases List.mem_singleton.mp he2 with rfl
          refine ⟨Or.inl (hpres _ (List.mem_cons_self _ _)).1,
            Or.inr ⟨splitNode base sinks, List.mem_cons_self _ _, rfl⟩, stdEdge_mk _ _ _ _ _ _⟩
      · rcases ih (base + 1) N (fun kv2 hkv2 => hpres kv2 (List.mem_cons_of_mem _ hkv2)) e he1
          with ⟨h1, h2, h3⟩
        refine ⟨?_, ?_, h3⟩
        · rcases h1 with h1 | ⟨c, hc, hcid⟩
          · exact Or.inl h1
          · exact Or.inr ⟨c, List.mem_cons_of_mem _ hc, hcid⟩
        · rcases h2 with h2 | ⟨c, hc, hcid⟩
          · exact Or.inl h2
          · exact Or.inr ⟨c, List.mem_cons_of_mem _ hc, hcid⟩
    · rw [splitNewsOf_cons_neg _ _ _ _ (by simpa using hneed)] at he
      rw [splitsOf_cons_neg _ _ _ _ (by simpa using hneed)]
      exact ih base N (fun kv2 hkv2 => hpres kv2 (List.mem_cons_of_mem _ hkv2)) e he

theorem sourceToSinks_pres (g : DFG) (hwf : g.wf = true) :
    ∀ kv ∈ g.sourceToSinks, g.nodes.any (fun m => m.id == kv.1.1.id) = true ∧
      ∀ s ∈ kv.2, g.nodes.any (fun m => m.id == s.1.id) = true := by
  intro kv hkv
  constructor
  · rcases sourceToSinks_key_edge g kv hkv with ⟨e, he, hke⟩
    have he2 : e ∈ g.edges := (mem_edgesIter g hwf e).mp he
    rcases wf_src_present g hwf e he2 with ⟨hm, hid⟩
    rw [List.any_eq_true]
    refine ⟨g.nodeOf e.src, hm, ?_⟩
    have h3 : kv.1.1 = g.nodeOf e.src := by rw [← hke]; rfl
    rw [h3]
    simp
  · intro s hs
    have hgroup := sourceToSinks_group g kv hkv
    rw [hgroup] at hs
    rcases List.mem_map.mp hs with ⟨e, hef, rfl⟩
    have he2 : e ∈ g.edges := (mem_edgesIter g hwf e).mp (List.mem_filter.mp hef).1
    rcases wf_dst_present g hwf e he2 with ⟨hm, hid⟩
    rw [List.any_eq_true]
    refine ⟨g.nodeOf e.dst, hm, ?_⟩
    simp [sinkEntryOf]

theorem wf_splitPhase (g : DFG) (hwf : g.wf = true) : (splitPhase g).wf = true := by
  rcases wf_parts g hwf with ⟨hnd, hlt, hedges⟩
  rw [splitPhase_closed g hwf]
  unfold DFG.wf
  simp only [Bool.and_eq_true, List.all_eq_true]
  refine ⟨⟨?_, ?_⟩, ?_⟩
  · rw [decide_eq_true_eq, List.map_append, List.nodup_append]
    refine ⟨by simpa using hnd, by simpa using splitsOf_ids_nodup g.sourceToSinks g.nextId, ?_⟩
    intro i hi hi2
    rcases List.mem_map.mp hi with ⟨n, hn, rfl⟩
    rcases List.mem_map.mp hi2 with ⟨c, hc, hcid⟩
    rcases splitsOf_ids g.sourceToSinks g.nextId c hc with ⟨h1, _⟩
    have h2 := hlt n hn
    omega
  · intro n hn
    rw [decide_eq_true_eq]
    simp only [List.mem_append] at hn
    show n.id < g.nextId + (g.sourceToSinks.filter (fun kv => needsSplit kv.2)).length
    rcases hn with hn | hn
    · have := hlt n hn
      omega
    · rcases splitsOf_ids g.sourceToSinks g.nextId n hn with ⟨_, h2⟩
      exact h2
  · intro e he
    simp only [List.mem_append] at he
    rcases he with he | he
    · rcases List.mem_filter.mp he with ⟨he2, _⟩
      rcases hedges e he2 with ⟨⟨n1, hn1, hid1⟩, ⟨n2, hn2, hid2⟩, hstd⟩
      simp only [Bool.and_eq_true, List.any_eq_true]
      exact ⟨⟨⟨n1, List.mem_append_left _ hn1, by simpa using hid1⟩,
        ⟨n2, List.mem_append_left _ hn2, by simpa using hid2⟩⟩, hstd⟩
    · rcases splitNewsOf_edges g.sourceToSinks g.nextId g.nodes
        (sourceToSinks_pres g hwf) e he with ⟨h1, h2, h3⟩
      simp only [Bool.and_eq_true, List.any_eq_true]
      refine ⟨⟨?_, ?_⟩, h3⟩
      · rcases h1 with h1 | ⟨c, hc, hcid⟩
        · rw [List.any_eq_true] at h1
          rcases h1 with ⟨n, hn, hni⟩
          exact ⟨n, List.mem_append_left _ hn, hni⟩
        · exact ⟨c, List.mem_append_right _ hc, by simpa using hcid⟩
      · rcases h2 with h2 | ⟨c, hc, hcid⟩
        · rw [List.any_eq_true] at h2
          rcases h2 with ⟨n, hn, hni⟩
          exact ⟨n, List.mem_append_left _ hn, hni⟩
        · exact ⟨c, List.mem_append_right _ hc, by simpa using hcid⟩

theorem wf_pass1 (g : DFG) (hwf : g.wf = true) :
    (g.eliminateSubrecordsAndDivergences).wf = true :=
  wf_splitPhase (combPhase g) (wf_combPhase g hwf)

/-!
## Injectivity of decimal numeral rendering

The numbered plumbing endpoints `sink0..sinkN-1` / `source0..sourceN-1`
are pairwise distinct because `toString` on naturals is injective; proved
here from the structure of `Nat.toDigitsCore`.
-/
theorem toDigitsCore_succ (b f n : Nat) (ds : List Char) :
    Nat.toDigitsCore b (f + 1) n ds =
      (if n / b = 0 then (Nat.digitChar (n % b)) :: ds
       else Nat.toDigitsCore b f (n / b) ((Nat.digitChar (n % b)) :: ds)) := rfl

theorem toDigitsCore_stable (b : Nat) (hb : 2 ≤ b) :
    ∀ n, ∀ f fp : Nat, n < f → n < fp → ∀ ds : List Char,
      Nat.toDigitsCore b f n ds = Nat.toDigitsCore b fp n ds := by
  intro n
  induction n using Nat.strong_induction_on with
  | _ n ih =>
    intro f fp hf hfp ds
    rcases f with _ | f1
    · omega
    rcases fp with _ | f2
    · omega
    rw [toDigitsCore_succ, toDigitsCore_succ]
    by_cases h0 : n / b = 0
    · rw [if_pos h0, if_pos h0]
    · rw [if_neg h0, if_neg h0]
      have hn0 : 0 < n := by
        rcases Nat.eq_zero_or_pos n with h1 | h1
        · exact absurd (h1 ▸ Nat.zero_div b) h0
        · exact h1
      have hdiv : n / b < n := Nat.div_lt_self hn0 (by omega)
      exact ih (n / b) hdiv f1 f2 (by omega) (by omega) _

theorem toDigitsCore_shift (b : Nat) (hb : 2 ≤ b) :
    ∀ n, ∀ f : Nat, n < f → ∀ ds : List Char,
      Nat.toDigitsCore b f n ds = Nat.toDigitsCore b (n + 1) n [] ++ ds := by
  intro n
  induction n using Nat.strong_induction_on with
  | _ n ih =>
    intro f hf ds
    rcases f with _ | f1
    · omega
    rw [toDigitsCore_succ, toDigitsCore_succ]
    by_cases h0 : n / b = 0
    · rw [if_pos h0, if_pos h0]
      rfl
    · rw [if_neg h0, if_neg h0]
      have hn0 : 0 < n := by
        rcases Nat.eq_zero_or_pos n with h1 | h1
        · exact absurd (h1 ▸ Nat.zero_div b) h0
        · exact h1
      have hdiv : n / b < n := Nat.div_lt_self hn0 (by omega)
      rw [ih (n / b) hdiv f1 (by omega) ((Nat.digitChar (n % b)) :: ds)]
      rw [toDigitsCore_stable b hb (n / b) n (n / b + 1) (by omega) (by omega)]
      rw [ih (n / b) hdiv (n / b + 1) (by omega) [Nat.digitChar (n % b)]]
      rw [List.append_assoc]
      rfl

theorem digits_struct (b : Nat) (hb : 2 ≤ b) (n : Nat) :
    Nat.toDigitsCore b (n + 1) n [] =
      (if n / b = 0 then [] else Nat.toDigitsCore b (n / b + 1) (n / b) []) ++
        [Nat.digitChar (n % b)] := by
  rw [toDigitsCore_succ]
  by_cases h0 : n / b = 0
  · rw [if_pos h0, if_pos h0]
    rfl
  · rw [if_neg h0, if_neg h0]
    have hn0 : 0 < n := by
      rcases Nat.eq_zero_or_pos n with h1 | h1
      · exact absurd (h1 ▸ Nat.zero_div b) h0
      · exact h1
    have hdiv : n / b < n := Nat.div_lt_self hn0 (by omega)
    rw [toDigitsCore_stable b hb (n / b) n (n / b + 1) (by omega) (by omega)]
    exact toDigitsCore_shift b hb (n / b) (n / b + 1) (by omega) [Nat.digitChar (n % b)]

theorem digitChar_inj_lt10 (x y : Nat) (hx : x < 10) (hy : y < 10)
    (h : Nat.digitChar x = Nat.digitChar y) : x = y := by
  interval_cases x <;> interval_cases y <;> simp_all [Nat.digitChar]

theorem toDigits10_inj : ∀ n m : Nat,
    Nat.toDigitsCore 10 (n + 1) n [] = Nat.toDigitsCore 10 (m + 1) m [] → n = m := by
  intro n
  induction n using Nat.strong_induction_on with
  | _ n ih =>
    intro m h
    rw [digits_struct 10 (by omega) n, digits_struct 10 (by omega) m] at h
    rcases List.append_inj' h (by simp) with ⟨hpre, hdig⟩
    have hmod : n % 10 = m % 10 := by
      refine digitChar_inj_lt10 _ _ (Nat.mod_lt _ (by omega)) (Nat.mod_lt _ (by omega)) ?_
      simpa using hdig
    have hne : ∀ k : Nat, Nat.toDigitsCore 10 (k + 1) k [] ≠ [] := by
      intro k
      rw [digits_struct 10 (by omega) k]
      simp
    by_cases h1 : n / 10 = 0 <;> by_cases h2 : m / 10 = 0
    · omega
    · rw [if_pos h1, if_neg h2] at hpre
      exact absurd hpre.symm (hne (m / 10))
    · rw [if_neg h1, if_pos h2] at hpre
      exact absurd hpre (hne (n / 10))
    · rw [if_neg h1, if_neg h2] at hpre
      have hn0 : 0 < n := by
        rcases Nat.eq_zero_or_pos n with h3 | h3
        · exact absurd (h3 ▸ Nat.zero_div 10) h1
        · exact h3
      have := ih (n / 10) (Nat.div_lt_self hn0 (by omega)) (m / 10) hpre
      omega

theorem toString_nat_inj (n m : Nat) (h : toString n = toString m) : n = m := by
  have h2 : Nat.repr n = Nat.repr m := h
  unfold Nat.repr Nat.toDigits at h2
  have h3 : (Nat.toDigitsCore 10 (n + 1) n []) = (Nat.toDigitsCore 10 (m + 1) m []) := by
    have h4 := congrArg String.data h2
    simpa [List.asString] using h4
  exact toDigits10_inj n m h3

theorem string_append_right_inj (s a b : String) (h : s ++ a = s ++ b) : a = b := by
  have hd : (s ++ a).data = (s ++ b).data := congrArg String.data h
  rw [String.data_append, String.data_append] at hd
  exact String.ext (List.append_cancel_left hd)

theorem numbered_name_inj (s : String) (n m : Nat)
    (h : s ++ toString n = s ++ toString m) : n = m :=
  toString_nat_inj n m (string_append_right_inj s _ _ h)

/-- C3 amended: each half of pass 1 operates on a snapshot of its own
pre-half edge set, so every edge created by combinator insertion is still
present when the combinator half ends, and every edge created by splitter
insertion — whose snapshot is the graph after the combinator half — is
still present when pass 1 ends.  (The claim's stronger statement, that no
edge created during pass 1 is ever rewritten within the pass, fails: the
splitter half's snapshot includes the combinator half's output, see the
counterexample.) -/
theorem claimC3_amended (g : DFG) (hwf : g.wf = true) :
    (∀ e ∈ combNewsOf g.nextId g.sinkToSources, e ∈ (combPhase g).edges) ∧
    (∀ e ∈ splitNewsOf (combPhase g).nextId (combPhase g).sourceToSinks,
      e ∈ (g.eliminateSubrecordsAndDivergences).edges) := by
  constructor
  · intro e he
    rw [combPhase_closed g hwf]
    exact List.mem_append_right _ he
  · intro e he
    unfold DFG.eliminateSubrecordsAndDivergences
    rw [splitPhase_closed (combPhase g) (wf_combPhase g hwf)]
    exact List.mem_append_right _ he

/-- Witness for the amended C3 on the two-subrecord scenario graph. -/
theorem claimC3_amended_witness :
    exBothSubrCombEdge ∈ (combPhase exBothSubr).edges ∧
    (⟨3, 2, stdData (PyVal.str "source0") (PyVal.str "sink0") PyVal.none PyVal.none⟩ : Edge) ∈
      (exBothSubr.eliminateSubrecordsAndDivergences).edges := by
  have h := claimC3_amended exBothSubr (by decide)
  exact ⟨h.1 exBothSubrCombEdge (by decide),
    h.2 ⟨3, 2, stdData (PyVal.str "source0") (PyVal.str "sink0") PyVal.none PyVal.none⟩ (by decide)⟩

/-!
## Own-key deletion: an edge is deleted by a rewrite half exactly when its
own endpoint key is triggered
-/
theorem matchesReq_std (xs ys a b c d : PyVal) :
    matchesReq [("source", xs), ("sink", ys)] (stdData a b c d) = (xs == a && ys == b) := by
  show (List.all _ _) = _
  simp only [stdData, List.all_cons, List.all_nil]
  rw [show (List.find? (fun r => r.1 == "source") [("source", xs), ("sink", ys)]) =
    Option.some ("source", xs) from rfl]
  rw [show (List.find? (fun r => r.1 == "sink") [("source", xs), ("sink", ys)]) =
    Option.some ("sink", ys) from rfl]
  rw [show (List.find? (fun r => r.1 == "source_subr") [("source", xs), ("sink", ys)]) =
    Option.none from rfl]
  rw [show (List.find? (fun r => r.1 == "sink_subr") [("source", xs), ("sink", ys)]) =
    Option.none from rfl]
  simp

theorem sink_key_node (g : DFG) (hwf : g.wf = true)
    (kv : (ActorNode × PyVal) × List SrcEntry) (hkv : kv ∈ g.sinkToSources) :
    kv.1.1 = g.nodeOf kv.1.1.id := by
  rcases sinkToSources_key_edge g kv hkv with ⟨e, he, hke⟩
  have he2 : e ∈ g.edges := (mem_edgesIter g hwf e).mp he
  rcases wf_dst_present g hwf e he2 with ⟨_, hid⟩
  have h1 : kv.1.1 = g.nodeOf e.dst := by rw [← hke]; rfl
  have h2 : kv.1.1.id = e.dst := by rw [h1]; exact hid
  rw [h2]
  exact h1

theorem source_key_node (g : DFG) (hwf : g.wf = true)
    (kv : (ActorNode × PyVal) × List SinkEntry) (hkv : kv ∈ g.sourceToSinks) :
    kv.1.1 = g.nodeOf kv.1.1.id := by
  rcases sourceToSinks_key_edge g kv hkv with ⟨e, he, hke⟩
  have he2 : e ∈ g.edges := (mem_edgesIter g hwf e).mp he
  rcases wf_src_present g hwf e he2 with ⟨_, hid⟩
  have h1 : kv.1.1 = g.nodeOf e.src := by rw [← hke]; rfl
  have h2 : kv.1.1.id = e.src := by rw [h1]; exact hid
  rw [h2]
  exact h1

theorem exists_enumFrom_of_mem {α : Type} (l : List α) (a : α) (h : a ∈ l) :
    ∀ k : Nat, ∃ n, (n, a) ∈ l.enumFrom k := by
  induction l with
  | nil => simp at h
  | cons x t ih =>
    intro k
    rcases List.mem_cons.mp h with h1 | h1
    · exact ⟨k, by simp [h1]⟩
    · rcases ih h1 (k + 1) with ⟨n, hn⟩
      exact ⟨n, by simp [List.enumFrom]; right; exact hn⟩

theorem exists_enum_of_mem {α : Type} (l : List α) (a : α) (h : a ∈ l) :
    ∃ n, (n, a) ∈ l.enum :=
  exists_enumFrom_of_mem l a h 0

/-- The entry an edge contributes to the sink map, together with the full
group of its key. -/
theorem edge_sink_entry (g : DFG) (hwf : g.wf = true) (e : Edge) (he : e ∈ g.edges) :
    (sinkKeyOf g e,
      (g.edgesIter.filter (fun e2 => decide (sinkKeyOf g e2 = sinkKeyOf g e))).map (srcEntryOf g)) ∈
        g.sinkToSources ∧
    srcEntryOf g e ∈
      (g.edgesIter.filter (fun e2 => decide (sinkKeyOf g e2 = sinkKeyOf g e))).map (srcEntryOf g) := by
  have he2 : e ∈ g.edgesIter := (mem_edgesIter g hwf e).mpr he
  constructor
  · rw [sinkToSources_eq]
    exact mem_foldl_entry (sinkKeyOf g) (srcEntryOf g) g.edgesIter e he2
  · exact List.mem_map.mpr ⟨e, List.mem_filter.mpr ⟨he2, by simp⟩, rfl⟩

/-- The entry an edge contributes to the source map, with its group. -/
theorem edge_source_entry (g : DFG) (hwf : g.wf = true) (e : Edge) (he : e ∈ g.edges) :
    (srcKeyOf g e,
      (g.edgesIter.filter (fun e2 => decide (srcKeyOf g e2 = srcKeyOf g e))).map (sinkEntryOf g)) ∈
        g.sourceToSinks ∧
    sinkEntryOf g e ∈
      (g.edgesIter.filter (fun e2 => decide (srcKeyOf g e2 = srcKeyOf g e))).map (sinkEntryOf g) := by
  have he2 : e ∈ g.edgesIter := (mem_edgesIter g hwf e).mpr he
  constructor
  · rw [sourceToSinks_eq]
    exact mem_foldl_entry (srcKeyOf g) (sinkEntryOf g) g.edgesIter e he2
  · exact List.mem_map.mpr ⟨e, List.mem_filter.mpr ⟨he2, by simp⟩, rfl⟩

/-- If the sink group of an edge's own key is triggered, the combinator
half deletes the edge. -/
theorem combDelAll_own (g : DFG) (hwf : g.wf = true) (e : Edge) (he : e ∈ g.edges)
    (htrig : needsComb
      ((g.edgesIter.filter (fun e2 => decide (sinkKeyOf g e2 = sinkKeyOf g e))).map (srcEntryOf g)) = true) :
    combDelAll g.sinkToSources e = true := by
  rcases edge_sink_entry g hwf e he with ⟨hentry, hself⟩
  unfold combDelAll
  rw [List.any_eq_true]
  refine ⟨_, hentry, ?_⟩
  rw [Bool.and_eq_true]
  refine ⟨htrig, ?_⟩
  unfold loopDelAny
  rw [List.any_eq_true]
  rcases exists_enum_of_mem _ _ hself with ⟨n, hn⟩
  refine ⟨(n, srcEntryOf g e), hn, ?_⟩
  unfold loopDelPred
  have hstd := ((wf_parts g hwf).2.2 e he).2.2
  have hdata : e.data = stdData (dget e.data "source") (dget e.data "sink")
      (dget e.data "source_subr") (dget e.data "sink_subr") := beq_iff_eq.mp hstd
  rw [Bool.and_eq_true, Bool.and_eq_true]
  refine ⟨⟨?_, ?_⟩, ?_⟩
  · show (e.src == (g.nodeOf e.src).id) = true
    rcases wf_src_present g hwf e he with ⟨_, hid⟩
    simp [hid]
  · show (e.dst == (g.nodeOf e.dst).id) = true
    rcases wf_dst_present g hwf e he with ⟨_, hid⟩
    simp [hid]
  · show matchesReq [("source", dget e.data "source"), ("sink", dget e.data "sink")] e.data = true
    rw [hdata, matchesReq_std]
    simp [dget_stdData]

/-- If the source group of an edge's own key is triggered, the splitter
half deletes the edge. -/
theorem splitDelAll_own (g : DFG) (hwf : g.wf = true) (e : Edge) (he : e ∈ g.edges)
    (htrig : needsSplit
      ((g.edgesIter.filter (fun e2 => decide (srcKeyOf g e2 = srcKeyOf g e))).map (sinkEntryOf g)) = true) :
    splitDelAll g.sourceToSinks e = true := by
  rcases edge_source_entry g hwf e he with ⟨hentry, hself⟩
  unfold splitDelAll
  rw [List.any_eq_true]
  refine ⟨_, hentry, ?_⟩
  rw [Bool.and_eq_true]
  refine ⟨htrig, ?_⟩
  unfold splitLoopDelAny
  rw [List.any_eq_true]
  rcases exists_enum_of_mem _ _ hself with ⟨n, hn⟩
  refine ⟨(n, sinkEntryOf g e), hn, ?_⟩
  unfold splitLoopDelPred
  have hstd := ((wf_parts g hwf).2.2 e he).2.2
  have hdata : e.data = stdData (dget e.data "source") (dget e.data "sink")
      (dget e.data "source_subr") (dget e.data "sink_subr") := beq_iff_eq.mp hstd
  rw [Bool.and_eq_true, Bool.and_eq_true]
  refine ⟨⟨?_, ?_⟩, ?_⟩
  · show (e.src == (g.nodeOf e.src).id) = true
    rcases wf_src_present g hwf e he with ⟨_, hid⟩
    simp [hid]
  · show (e.dst == (g.nodeOf e.dst).id) = true
    rcases wf_dst_present g hwf e he with ⟨_, hid⟩
    simp [hid]
  · show matchesReq [("source", dget e.data "source"), ("sink", dget e.data "sink")] e.data = true
    rw [hdata, matchesReq_std]
    simp [dget_stdData]

theorem sinkToSources_keys_nodup (g : DFG) :
    ((g.sinkToSources).map Prod.fst).Nodup := by
  rw [sinkToSources_eq]
  exact keys_foldl_nodup _ _ _ [] (by simp)

theorem sourceToSinks_keys_nodup (g : DFG) :
    ((g.sourceToSinks).map Prod.fst).Nodup := by
  rw [sourceToSinks_eq]
  exact keys_foldl_nodup _ _ _ [] (by simp)

theorem sinkToSources_key_lt (g : DFG) (hwf : g.wf = true) :
    ∀ kv ∈ g.sinkToSources, kv.1.1.id < g.nextId := by
  intro kv hkv
  rcases sinkToSources_key_edge g kv hkv with ⟨e, he, hke⟩
  have he2 := (mem_edgesIter g hwf e).mp he
  rcases wf_dst_present g hwf e he2 with ⟨hm, _⟩
  have h1 : kv.1.1 = g.nodeOf e.dst := by rw [← hke]; rfl
  rw [h1]
  exact (wf_parts g hwf).2.1 _ hm

theorem sourceToSinks_key_lt (g : DFG) (hwf : g.wf = true) :
    ∀ kv ∈ g.sourceToSinks, kv.1.1.id < g.nextId := by
  intro kv hkv
  rcases sourceToSinks_key_edge g kv hkv with ⟨e, he, hke⟩
  have he2 := (mem_edgesIter g hwf e).mp he
  rcases wf_src_present g hwf e he2 with ⟨hm, _⟩
  have h1 : kv.1.1 = g.nodeOf e.src := by rw [← hke]; rfl
  rw [h1]
  exact (wf_parts g hwf).2.1 _ hm

theorem sinkToSources_val_eq (g : DFG) (k : ActorNode × PyVal) (v1 v2 : List SrcEntry)
    (h1 : (k, v1) ∈ g.sinkToSources) (h2 : (k, v2) ∈ g.sinkToSources) : v1 = v2 := by
  have e1 := sinkToSources_group g (k, v1) h1
  have e2 := sinkToSources_group g (k, v2) h2
  exact e1.trans e2.symm

theorem sourceToSinks_val_eq (g : DFG) (k : ActorNode × PyVal) (v1 v2 : List SinkEntry)
    (h1 : (k, v1) ∈ g.sourceToSinks) (h2 : (k, v2) ∈ g.sourceToSinks) : v1 = v2 := by
  have e1 := sourceToSinks_group g (k, v1) h1
  have e2 := sourceToSinks_group g (k, v2) h2
  exact e1.trans e2.symm

theorem combsOf_get :
    ∀ (ES : List ((ActorNode × PyVal) × List SrcEntry)) (base i : Nat)
      (k : ActorNode × PyVal) (srcs : List SrcEntry),
      (ES.filter (fun kv => needsComb kv.2)).get? i = some (k, srcs) →
      combNode (base + i) srcs ∈ combsOf base ES := by
  intro ES
  induction ES with
  | nil => intro base i k srcs h; simp at h
  | cons kv0 t ih =>
    intro base i k srcs h
    rcases kv0 with ⟨k0, s0⟩
    cases h0 : needsComb s0 with
    | true =>
      rw [List.filter_cons,
        if_pos (show (fun kv : (ActorNode × PyVal) × List SrcEntry => needsComb kv.2) (k0, s0) =
          true from h0)] at h
      rw [combsOf_cons_pos _ _ _ _ h0]
      cases i with
      | zero =>
        have hp : (k0, s0) = (k, srcs) := Option.some.inj h
        injection hp with hp1 hp2
        subst hp2
        exact List.mem_cons_self _ _
      | succ j =>
        have h2 : (t.filter (fun kv => needsComb kv.2)).get? j = some (k, srcs) := h
        have := ih (base + 1) j k srcs h2
        rw [show base + (j + 1) = base + 1 + j by omega]
        exact List.mem_cons_of_mem _ this
    | false =>
      rw [List.filter_cons,
        if_neg (show ¬((fun kv : (ActorNode × PyVal) × List SrcEntry => needsComb kv.2) (k0, s0) =
          true) by simp [h0])] at h
      rw [combsOf_cons_neg _ _ _ _ h0]
      exact ih base i k srcs h

theorem enum_map_filter_dst_ne (cid dstId : Nat) (h : cid ≠ dstId) (p2 : Edge → Bool)
    (L : List (Nat × SrcEntry)) :
    (L.map (combNewEdge cid)).filter (fun e => e.dst == dstId && p2 e) = [] := by
  rw [List.filter_eq_nil_iff]
  intro e he
  rcases List.mem_map.mp he with ⟨ms, _, rfl⟩
  have hne : ((combNewEdge cid ms).dst == dstId) = false := by
    apply beq_eq_false_iff_ne.mpr
    simpa [combNewEdge] using h
  simp [hne]

theorem combNewsOf_filter_sink_nil (dstId : Nat) (dstEp : PyVal) :
    ∀ (ES : List ((ActorNode × PyVal) × List SrcEntry)) (base : Nat),
      dstId < base →
      (∀ kv ∈ ES, needsComb kv.2 = true → ¬(kv.1.1.id = dstId ∧ kv.1.2 = dstEp)) →
      (combNewsOf base ES).filter
        (fun e => e.dst == dstId && dget e.data "sink" == dstEp) = [] := by
  intro ES
  induction ES with
  | nil => intro base _ _; simp [combNewsOf]
  | cons kv0 t ih =>
    intro base hlt hno
    rcases kv0 with ⟨k0, s0⟩
    cases h0 : needsComb s0 with
    | false =>
      rw [combNewsOf_cons_neg _ _ _ _ h0]
      exact ih base hlt (fun kv hkv => hno kv (List.mem_cons_of_mem _ hkv))
    | true =>
      rw [combNewsOf_cons_pos _ _ _ _ h0, List.filter_append]
      have hA : (combNewEdges base k0.1.id k0.2 s0).filter
          (fun e => e.dst == dstId && dget e.data "sink" == dstEp) = [] := by
        unfold combNewEdges
        rw [List.filter_append,
          enum_map_filter_dst_ne base dstId (Nat.ne_of_gt hlt) _ s0.enum]
        rw [List.nil_append, List.filter_eq_nil_iff]
        intro e he
        rcases List.mem_singleton.mp he with rfl
        intro hp
        rw [Bool.and_eq_true] at hp
        have hq1 : k0.1.id = dstId := beq_iff_eq.mp hp.1
        have hq2 : k0.2 = dstEp := beq_iff_eq.mp hp.2
        exact hno (k0, s0) (List.mem_cons_self _ _) h0 ⟨hq1, hq2⟩
      rw [hA, List.nil_append]
      exact ih (base + 1) (Nat.lt_succ_of_lt hlt)
        (fun kv hkv => hno kv (List.mem_cons_of_mem _ hkv))

theorem combNewsOf_filter_sink (dstId : Nat) (dstEp : PyVal) (k : ActorNode × PyVal)
    (srcs : List SrcEntry) :
    ∀ (ES : List ((ActorNode × PyVal) × List SrcEntry)) (base i : Nat),
      dstId < base →
      (ES.map Prod.fst).Nodup →
      (∀ kv ∈ ES, kv.1.1.id = dstId → kv.1.2 = dstEp → kv.1 = k) →
      ((ES.filter (fun kv => needsComb kv.2)).get? i = some (k, srcs)) →
      k.1.id = dstId → k.2 = dstEp →
      (combNewsOf base ES).filter
        (fun e => e.dst == dstId && dget e.data "sink" == dstEp) =
        [⟨base + i, dstId, stdData (PyVal.str "source") dstEp PyVal.none PyVal.none⟩] := by
  intro ES
  induction ES with
  | nil => intro base i _ _ _ hget _ _; simp at hget
  | cons kv0 t ih =>
    intro base i hlt hnd huniq hget hk1 hk2
    rcases kv0 with ⟨k0, s0⟩
    rw [List.map_cons, List.nodup_cons] at hnd
    cases h0 : needsComb s0 with
    | false =>
      rw [combNewsOf_cons_neg _ _ _ _ h0]
      rw [List.filter_cons,
        if_neg (show ¬((fun kv : (ActorNode × PyVal) × List SrcEntry => needsComb kv.2) (k0, s0) =
          true) by simp [h0])] at hget
      exact ih base i hlt hnd.2 (fun kv hkv => huniq kv (List.mem_cons_of_mem _ hkv)) hget hk1 hk2
    | true =>
      rw [combNewsOf_cons_pos _ _ _ _ h0, List.filter_append]
      rw [List.filter_cons,
        if_pos (show (fun kv : (ActorNode × PyVal) × List SrcEntry => needsComb kv.2) (k0, s0) =
          true from h0)] at hget
      cases i with
      | zero =>
        have hp : (k0, s0) = (k, srcs) := Option.some.inj hget
        injection hp with hp1 hp2
        subst hp1
        subst hp2
        have hA : (combNewEdges base k0.1.id k0.2 s0).filter
            (fun e => e.dst == dstId && dget e.data "sink" == dstEp) =
            [⟨base, dstId, stdData (PyVal.str "source") dstEp PyVal.none PyVal.none⟩] := by
          unfold combNewEdges
          rw [List.filter_append,
            enum_map_filter_dst_ne base dstId (Nat.ne_of_gt hlt) _ s0.enum, List.nil_append]
          rw [List.filter_cons]
          rw [if_pos (show ((⟨base, k0.1.id,
              stdData (PyVal.str "source") k0.2 PyVal.none PyVal.none⟩ : Edge).dst == dstId &&
              dget (stdData (PyVal.str "source") k0.2 PyVal.none PyVal.none) "sink" == dstEp) =
              true by
            rw [hk1, hk2]
            show (dstId == dstId && dstEp == dstEp) = true
            simp)]
          rw [hk1, hk2]
          rfl
        rw [hA]
        have hB : (combNewsOf (base + 1) t).filter
            (fun e => e.dst == dstId && dget e.data "sink" == dstEp) = [] := by
          apply combNewsOf_filter_sink_nil dstId dstEp t (base + 1) (Nat.lt_succ_of_lt hlt)
          intro kv hkv _ hq
          have hkk : kv.1 = k0 := huniq kv (List.mem_cons_of_mem _ hkv) hq.1 hq.2
          exact hnd.1 (hkk ▸ List.mem_map.mpr ⟨kv, hkv, rfl⟩)
        rw [hB, List.append_nil]
        rfl
      | succ j =>
        have hA : (combNewEdges base k0.1.id k0.2 s0).filter
            (fun e => e.dst == dstId && dget e.data "sink" == dstEp) = [] := by
          unfold combNewEdges
          rw [List.filter_append,
            enum_map_filter_dst_ne base dstId (Nat.ne_of_gt hlt) _ s0.enum, List.nil_append]
          rw [List.filter_eq_nil_iff]
          intro e he
          rcases List.mem_singleton.mp he with rfl
          intro hp
          rw [Bool.and_eq_true] at hp
          have hq1 : k0.1.id = dstId := beq_iff_eq.mp hp.1
          have hq2 : k0.2 = dstEp := beq_iff_eq.mp hp.2
          have hkk : k0 = k := huniq (k0, s0) (List.mem_cons_self _ _) hq1 hq2
          have hkmem : (k, srcs) ∈ t :=
            List.mem_of_mem_filter (List.get?_mem hget)
          exact hnd.1 (hkk ▸ List.mem_map.mpr ⟨(k, srcs), hkmem, rfl⟩)
        rw [hA, List.nil_append]
        rw [show base + (j + 1) = base + 1 + j by omega]
        exact ih (base + 1) j (Nat.lt_succ_of_lt hlt) hnd.2
          (fun kv hkv => huniq kv (List.mem_cons_of_mem _ hkv)) hget hk1 hk2

theorem combSurvivors_filter_sink_nil (g : DFG) (hwf : g.wf = true)
    (dst : ActorNode) (dstEp : PyVal) (srcs : List SrcEntry)
    (hmem : ((dst, dstEp), srcs) ∈ g.sinkToSources)
    (htrig : needsComb srcs = true) :
    (g.edges.filter (fun e => !combDelAll g.sinkToSources e)).filter
      (fun e => e.dst == dst.id && dget e.data "sink" == dstEp) = [] := by
  rw [List.filter_eq_nil_iff]
  intro e he
  rcases List.mem_filter.mp he with ⟨he1, he2⟩
  intro hp
  rw [Bool.and_eq_true] at hp
  have hdstid : e.dst = dst.id := beq_iff_eq.mp hp.1
  have hsink : dget e.data "sink" = dstEp := beq_iff_eq.mp hp.2
  have hnode : dst = g.nodeOf dst.id := sink_key_node g hwf ((dst, dstEp), srcs) hmem
  have hkey : sinkKeyOf g e = (dst, dstEp) := by
    unfold sinkKeyOf
    rw [hdstid, hsink, ← hnode]
  rcases edge_sink_entry g hwf e he1 with ⟨hent, _⟩
  rw [hkey] at hent
  have hval : ((g.edgesIter.filter
      (fun e2 => decide (sinkKeyOf g e2 = sinkKeyOf g e))).map (srcEntryOf g)) = srcs := by
    apply sinkToSources_val_eq g (dst, dstEp)
    · rw [← hkey]
      rcases edge_sink_entry g hwf e he1 with ⟨hent2, _⟩
      exact hent2
    · exact hmem
  have hdel : combDelAll g.sinkToSources e = true := by
    apply combDelAll_own g hwf e he1
    rw [hval]
    exact htrig
  rw [hdel] at he2
  simp at he2

theorem combNewsOf_filter_cid_nil (cid : Nat) :
    ∀ (ES : List ((ActorNode × PyVal) × List SrcEntry)) (base : Nat),
      cid < base → (∀ kv ∈ ES, kv.1.1.id ≠ cid) →
      (combNewsOf base ES).filter (fun e => e.dst == cid) = [] := by
  intro ES
  induction ES with
  | nil => intro base _ _; simp [combNewsOf]
  | cons kv0 t ih =>
    intro base hlt hno
    rcases kv0 with ⟨k0, s0⟩
    cases h0 : needsComb s0 with
    | false =>
      rw [combNewsOf_cons_neg _ _ _ _ h0]
      exact ih base hlt (fun kv hkv => hno kv (List.mem_cons_of_mem _ hkv))
    | true =>
      rw [combNewsOf_cons_pos _ _ _ _ h0, List.filter_append]
      have hA : (combNewEdges base k0.1.id k0.2 s0).filter (fun e => e.dst == cid) = [] := by
        rw [List.filter_eq_nil_iff]
        intro e he
        unfold combNewEdges at he
        rcases List.mem_append.mp he with he2 | he2
        · rcases List.mem_map.mp he2 with ⟨ms, _, rfl⟩
          simp only [combNewEdge]
          intro hc
          exact Nat.ne_of_gt hlt (beq_iff_eq.mp hc)
        · rcases List.mem_singleton.mp he2 with rfl
          intro hc
          exact hno (k0, s0) (List.mem_cons_self _ _) (beq_iff_eq.mp hc)
      rw [hA, List.nil_append]
      exact ih (base + 1) (Nat.lt_succ_of_lt hlt)
        (fun kv hkv => hno kv (List.mem_cons_of_mem _ hkv))

theorem combNewsOf_filter_cid (k : ActorNode × PyVal) (srcs : List SrcEntry) :
    ∀ (ES : List ((ActorNode × PyVal) × List SrcEntry)) (base i : Nat),
      (∀ kv ∈ ES, kv.1.1.id < base) →
      ((ES.filter (fun kv => needsComb kv.2)).get? i = some (k, srcs)) →
      (combNewsOf base ES).filter (fun e => e.dst == base + i) =
        srcs.enum.map (combNewEdge (base + i)) := by
  intro ES
  induction ES with
  | nil => intro base i _ hget; simp at hget
  | cons kv0 t ih =>
    intro base i hlt hget
    rcases kv0 with ⟨k0, s0⟩
    cases h0 : needsComb s0 with
    | false =>
      rw [combNewsOf_cons_neg _ _ _ _ h0]
      rw [List.filter_cons,
        if_neg (show ¬((fun kv : (ActorNode × PyVal) × List SrcEntry => needsComb kv.2) (k0, s0) =
          true) by simp [h0])] at hget
      exact ih base i (fun kv hkv => hlt kv (List.mem_cons_of_mem _ hkv)) hget
    | true =>
      rw [combNewsOf_cons_pos _ _ _ _ h0, List.filter_append]
      rw [List.filter_cons,
        if_pos (show (fun kv : (ActorNode × PyVal) × List SrcEntry => needsComb kv.2) (k0, s0) =
          true from h0)] at hget
      cases i with
      | zero =>
        have hp : (k0, s0) = (k, srcs) := Option.some.inj hget
        injection hp with hp1 hp2
        subst hp1
        subst hp2
        have hA : (combNewEdges base k0.1.id k0.2 s0).filter (fun e => e.dst == base + 0) =
            s0.enum.map (combNewEdge (base + 0)) := by
          unfold combNewEdges
          rw [List.filter_append]
          have h1 : (s0.enum.map (combNewEdge base)).filter (fun e => e.dst == base + 0) =
              s0.enum.map (combNewEdge base) := by
            rw [List.filter_eq_self]
            intro e he
            rcases List.mem_map.mp he with ⟨ms, _, rfl⟩
            simp [combNewEdge]
          have h2 : ([(⟨base, k0.1.id,
              stdData (PyVal.str "source") k0.2 PyVal.none PyVal.none⟩ : Edge)]).filter
              (fun e => e.dst == base + 0) = [] := by
            rw [List.filter_eq_nil_iff]
            intro e he
            rcases List.mem_singleton.mp he with rfl
            intro hc
            have : k0.1.id = base + 0 := beq_iff_eq.mp hc
            have hid : k0.1.id < base := hlt (k0, s0) (List.mem_cons_self _ _)
            omega
          rw [h1, h2, List.append_nil]
          rfl
        rw [hA]
        have hB : (combNewsOf (base + 1) t).filter (fun e => e.dst == base + 0) = [] := by
          apply combNewsOf_filter_cid_nil (base + 0) t (base + 1) (by omega)
          intro kv hkv
          have := hlt kv (List.mem_cons_of_mem _ hkv)
          omega
        rw [hB, List.append_nil]
      | succ j =>
        have hA : (combNewEdges base k0.1.id k0.2 s0).filter
            (fun e => e.dst == base + (j + 1)) = [] := by
          rw [List.filter_eq_nil_iff]
          intro e he
          unfold combNewEdges at he
          rcases List.mem_append.mp he with he2 | he2
          · rcases List.mem_map.mp he2 with ⟨ms, _, rfl⟩
            simp only [combNewEdge]
            intro hc
            have := beq_iff_eq.mp hc
            omega
          · rcases List.mem_singleton.mp he2 with rfl
            intro hc
            have : k0.1.id = base + (j + 1) := beq_iff_eq.mp hc
            have hid : k0.1.id < base := hlt (k0, s0) (List.mem_cons_self _ _)
            omega
        rw [hA, List.nil_append]
        rw [show base + (j + 1) = base + 1 + j by omega]
        exact ih (base + 1) j
          (fun kv hkv => Nat.lt_succ_of_lt (hlt kv (List.mem_cons_of_mem _ hkv))) hget

theorem sink_name_ne (k m : Nat) (h : k ≠ m) :
    (PyVal.str ("sink" ++ toString k) == PyVal.str ("sink" ++ toString m)) = false := by
  apply beq_eq_false_iff_ne.mpr
  intro hc
  injection hc with hc2
  exact h (numbered_name_inj "sink" k m hc2)

theorem enum_map_filter_name_nil (cid : Nat) :
    ∀ (t : List SrcEntry) (k m : Nat), m < k →
      ((t.enumFrom k).map (combNewEdge cid)).filter
        (fun e => dget e.data "sink" == PyVal.str ("sink" ++ toString m)) = [] := by
  intro t
  induction t with
  | nil => intro k m _; rfl
  | cons a t2 ih =>
    intro k m hlt
    show ((combNewEdge cid (k, a)) :: (t2.enumFrom (k + 1)).map (combNewEdge cid)).filter
      (fun e => dget e.data "sink" == PyVal.str ("sink" ++ toString m)) = []
    rw [List.filter_cons,
      if_neg (show ¬((dget (combNewEdge cid (k, a)).data "sink" ==
        PyVal.str ("sink" ++ toString m)) = true) by
        show ¬((PyVal.str ("sink" ++ toString k) == PyVal.str ("sink" ++ toString m)) = true)
        rw [sink_name_ne k m (Nat.ne_of_gt hlt)]
        simp)]
    exact ih (k + 1) m (Nat.lt_succ_of_lt hlt)

theorem enum_map_filter_name (cid : Nat) :
    ∀ (srcs : List SrcEntry) (k j : Nat) (s : SrcEntry),
      srcs.get? j = some s →
      ((srcs.enumFrom k).map (combNewEdge cid)).filter
        (fun e => dget e.data "sink" == PyVal.str ("sink" ++ toString (k + j))) =
        [combNewEdge cid (k + j, s)] := by
  intro srcs
  induction srcs with
  | nil => intro k j s h; simp at h
  | cons a t ih =>
    intro k j s h
    cases j with
    | zero =>
      have hs : a = s := Option.some.inj h
      subst hs
      show ((combNewEdge cid (k, a)) :: (t.enumFrom (k + 1)).map (combNewEdge cid)).filter
        (fun e => dget e.data "sink" == PyVal.str ("sink" ++ toString (k + 0))) =
        [combNewEdge cid (k + 0, a)]
      rw [List.filter_cons,
        if_pos (show (dget (combNewEdge cid (k, a)).data "sink" ==
          PyVal.str ("sink" ++ toString (k + 0))) = true from beq_self_eq_true _)]
      rw [enum_map_filter_name_nil cid t (k + 1) (k + 0) (by omega)]
      rfl
    | succ j2 =>
      show ((combNewEdge cid (k, a)) :: (t.enumFrom (k + 1)).map (combNewEdge cid)).filter
        (fun e => dget e.data "sink" == PyVal.str ("sink" ++ toString (k + (j2 + 1)))) =
        [combNewEdge cid (k + (j2 + 1), s)]
      rw [List.filter_cons,
        if_neg (show ¬((dget (combNewEdge cid (k, a)).data "sink" ==
          PyVal.str ("sink" ++ toString (k + (j2 + 1)))) = true) by
          show ¬((PyVal.str ("sink" ++ toString k) ==
            PyVal.str ("sink" ++ toString (k + (j2 + 1)))) = true)
          rw [sink_name_ne k (k + (j2 + 1)) (by omega)]
          simp)]
      rw [show k + (j2 + 1) = (k + 1) + j2 by omega]
      exact ih (k + 1) j2 s h

/-- C2 (amended): for the i-th sink-map entry ((dst, dstEp), srcs) that
triggers combinator insertion, pass 1's combinator half (a) adds a fresh
Combinator node, (b) whose `subrecords` parameter lists the sink-side
subrecords of `srcs`, where `srcs` is the feeding edges in
adjacency-grouped `edges_iter` traversal order — sources from the same
edge pair are grouped together — not in global connection-insertion
order; (c) the sink endpoint is left with exactly one incoming edge,
coming from the combinator with no subrecords; and (d) the j-th entry of
`srcs` becomes exactly one edge into the combinator's numbered input
`sink<j>`, keeping its original source endpoint and source subrecord. -/
theorem claimC2_amended (g : DFG) (hwf : g.wf = true) (i : Nat)
    (dst : ActorNode) (dstEp : PyVal) (srcs : List SrcEntry)
    (hentry : (combEntries g).get? i = some ((dst, dstEp), srcs)) :
    (combNode (g.nextId + i) srcs ∈ (combPhase g).nodes ∧
      ∀ n ∈ g.nodes, n.id ≠ g.nextId + i) ∧
    ((combNode (g.nextId + i) srcs).st =
      NodeSt.deferred ActorClass.combinator ⟨srcs.map (fun s => s.2.2.1), Option.none⟩ ∧
      srcs = (g.edgesIter.filter
        (fun e => decide (sinkKeyOf g e = (dst, dstEp)))).map (srcEntryOf g)) ∧
    ((combPhase g).edges.filter
        (fun e => e.dst == dst.id && dget e.data "sink" == dstEp) =
      [⟨g.nextId + i, dst.id, stdData (PyVal.str "source") dstEp PyVal.none PyVal.none⟩]) ∧
    (∀ j s, srcs.get? j = some s →
      (combPhase g).edges.filter
          (fun e => dget e.data "sink" == PyVal.str ("sink" ++ toString j) &&
            e.dst == g.nextId + i) =
        [⟨s.1.id, g.nextId + i,
          stdData s.2.1 (PyVal.str ("sink" ++ toString j)) s.2.2.2 PyVal.none⟩]) := by
  have hmemF : ((dst, dstEp), srcs) ∈ combEntries g := List.get?_mem hentry
  have hmem : ((dst, dstEp), srcs) ∈ g.sinkToSources := List.mem_of_mem_filter hmemF
  have htrig : needsComb srcs = true := (List.mem_filter.mp hmemF).2
  have hnode : dst = g.nodeOf dst.id := sink_key_node g hwf ((dst, dstEp), srcs) hmem
  have hklt : dst.id < g.nextId := sinkToSources_key_lt g hwf ((dst, dstEp), srcs) hmem
  have huniq : ∀ kv ∈ g.sinkToSources,
      kv.1.1.id = dst.id → kv.1.2 = dstEp → kv.1 = (dst, dstEp) := by
    intro kv hkv h1 h2
    have h3 : kv.1.1 = g.nodeOf kv.1.1.id := sink_key_node g hwf kv hkv
    have h4 : kv.1.1 = dst := by rw [h3, h1, ← hnode]
    rcases hkv2 : kv.1 with ⟨n0, e0⟩
    rw [hkv2] at h4 h2
    have h4b : n0 = dst := h4
    have h2b : e0 = dstEp := h2
    rw [h4b, h2b]
  have hedges : (combPhase g).edges =
      g.edges.filter (fun e => !combDelAll g.sinkToSources e) ++
        combNewsOf g.nextId g.sinkToSources := by
    rw [combPhase_closed g hwf]
  refine ⟨⟨?_, ?_⟩, ⟨rfl, ?_⟩, ?_, ?_⟩
  · rw [combPhase_closed g hwf]
    exact List.mem_append_right _ (combsOf_get g.sinkToSources g.nextId i (dst, dstEp) srcs hentry)
  · intro n hn
    have := (wf_parts g hwf).2.1 n hn
    omega
  · exact sinkToSources_group g ((dst, dstEp), srcs) hmem
  · rw [hedges]
    rw [List.filter_append,
      combSurvivors_filter_sink_nil g hwf dst dstEp srcs hmem htrig, List.nil_append]
    exact combNewsOf_filter_sink dst.id dstEp (dst, dstEp) srcs g.sinkToSources g.nextId i
      hklt (sinkToSources_keys_nodup g) huniq hentry rfl rfl
  · intro j s hjs
    rw [hedges]
    rw [List.filter_append]
    have hsur : ((g.edges.filter (fun e => !combDelAll g.sinkToSources e)).filter
        (fun e => dget e.data "sink" == PyVal.str ("sink" ++ toString j) &&
          e.dst == g.nextId + i)) = [] := by
      rw [List.filter_eq_nil_iff]
      intro e he
      rcases List.mem_filter.mp he with ⟨he1, _⟩
      intro hp
      rw [Bool.and_eq_true] at hp
      have h1 : e.dst = g.nextId + i := beq_iff_eq.mp hp.2
      rcases wf_dst_present g hwf e he1 with ⟨hm, hid⟩
      have h2 : (g.nodeOf e.dst).id < g.nextId := (wf_parts g hwf).2.1 _ hm
      omega
    rw [hsur, List.nil_append]
    rw [← List.filter_filter]
    rw [combNewsOf_filter_cid (dst, dstEp) srcs g.sinkToSources g.nextId i
      (sinkToSources_key_lt g hwf) hentry]
    have hres := enum_map_filter_name (g.nextId + i) srcs 0 j s hjs
    rw [Nat.zero_add] at hres
    exact hres

/-- Witness for C2 amended at the interleaved example: the first triggered
sink-map entry is ((X, "x"), [A.a1/f, A.a2/h, B.b/g]) — adjacency-grouped
traversal order, not the insertion order f, g, h — and the combinator node
built from it is added to the graph. -/
theorem claimC2_amended_witness :
    exInterleaved.wf = true ∧
    (combEntries exInterleaved).get? 0 =
      some ((exInterleavedX, PyVal.str "x"), exInterleavedSrcs) ∧
    combNode (exInterleaved.nextId + 0) exInterleavedSrcs ∈ (combPhase exInterleaved).nodes :=
  ⟨by decide, by decide,
    (claimC2_amended exInterleaved (by decide) 0 exInterleavedX (PyVal.str "x")
      exInterleavedSrcs (by decide)).1.1⟩

/-!
## C4: the actual layout-inference dispatch
-/

/-- C4 (amended): in `_infer_plumbing_layout`, an abstract Combinator's
layout is inferred through its single *outbound* edge (the
`plumbing.layout_source` branch, network.py lines 169-177): when the sink
neighbour is concrete and names endpoint `ep` of layout `l`, the step
instantiates the Combinator with layout `l` (one full-layout source plus
one numbered sink per subrecord) and no fault.  Symmetrically, an abstract
Splitter's layout is inferred through its single *inbound* edge (the
`plumbing.layout_sink` branch, lines 160-168).  The spec's section 4.3
narrative assigns the roles the other way around. -/
theorem claimC4_amended (g : DFG) (aId : Nat) (p : Params) (e : Edge)
    (act : Actor) (ep : String) (l : Layout) :
    ((g.nodeOf aId).st = NodeSt.deferred ActorClass.combinator p →
      g.edges.filter (fun e2 => e2.src == aId) = [e] →
      (g.nodeOf e.dst).st = NodeSt.concrete act →
      dget e.data "sink" = PyVal.str ep →
      act.tokenLayout ep = Option.some l →
      inferStep g aId =
        (g.setNode { g.nodeOf aId with st := NodeSt.concrete ⟨(g.nodeOf aId).name,
          ("source", Pol.source, l) ::
            p.subrecords.enum.map
              (fun nr => ("sink" ++ toString nr.1, Pol.sink, projLayout l nr.2))⟩ },
         Option.none)) ∧
    ((g.nodeOf aId).st = NodeSt.deferred ActorClass.splitter p →
      g.edges.filter (fun e2 => e2.dst == aId) = [e] →
      (g.nodeOf e.src).st = NodeSt.concrete act →
      dget e.data "source" = PyVal.str ep →
      act.tokenLayout ep = Option.some l →
      inferStep g aId =
        (g.setNode { g.nodeOf aId with st := NodeSt.concrete ⟨(g.nodeOf aId).name,
          ("sink", Pol.sink, l) ::
            p.subrecords.enum.map
              (fun nr => ("source" ++ toString nr.1, Pol.source, projLayout l nr.2))⟩ },
         Option.none)) := by
  constructor
  · intro ha hedges hoth hsink htok
    unfold inferStep
    dsimp only
    rw [ha]
    simp only [ActorClass.inLayoutSink, ActorClass.inLayoutSource, Bool.false_eq_true,
      if_false, if_true, hedges, hoth, hsink, htok]
    rfl
  · intro ha hedges hoth hsrc htok
    unfold inferStep
    dsimp only
    rw [ha]
    simp only [ActorClass.inLayoutSink, ActorClass.inLayoutSource, Bool.false_eq_true,
      if_false, if_true, hedges, hoth, hsrc, htok]
    rfl

/-- Witness for C4 amended: both branches at concrete graphs — the
Combinator of `gCombOut` is instantiated through its outbound edge, the
Splitter of `gSplitIn` through its inbound edge. -/
theorem claimC4_amended_witness :
    inferStep gCombOut 1 = (gCombOut.setNode gCombOutRes, Option.none) ∧
    inferStep gSplitIn 1 = (gSplitIn.setNode gSplitInRes, Option.none) :=
  ⟨(claimC4_amended gCombOut 1 ⟨[PyVal.none, PyVal.none], Option.none⟩
      ⟨1, 0, stdData (PyVal.str "source") (PyVal.str "x") PyVal.none PyVal.none⟩
      ⟨Option.none, [("x", Pol.sink, ["f", "g"])]⟩ "x" ["f", "g"]).1
      (by decide) (by decide) (by decide) (by decide) (by decide),
   (claimC4_amended gSplitIn 1 ⟨[PyVal.none], Option.none⟩
      ⟨0, 1, stdData (PyVal.str "y") (PyVal.str "sink") PyVal.none PyVal.none⟩
      ⟨Option.none, [("y", Pol.source, ["f", "g"])]⟩ "y" ["f", "g"]).2
      (by decide) (by decide) (by decide) (by decide) (by decide)⟩

/-!
## C8: default endpoint resolution
-/
theorem resolveEdgesGo_ok (g : DFG) :
    ∀ (rest acc : List Edge), (∀ e ∈ rest, (resolveEdge g e).2 = Option.none) →
      resolveEdgesGo g acc rest =
        (acc ++ rest.map (fun e => (resolveEdge g e).1), Option.none) := by
  intro rest
  induction rest with
  | nil => intro acc _; simp [resolveEdgesGo]
  | cons e r ih =>
    intro acc hok
    show (match resolveEdge g e with
      | (e2, Option.none) => resolveEdgesGo g (acc ++ [e2]) r
      | (e2, Option.some f) => (acc ++ [e2] ++ r, Option.some f)) = _
    rcases hr : resolveEdge g e with ⟨e2, f⟩
    have hf : f = Option.none := by
      have := hok e (List.mem_cons_self _ _)
      rw [hr] at this
      exact this
    subst hf
    show resolveEdgesGo g (acc ++ [e2]) r = _
    rw [ih (acc ++ [e2]) (fun x hx => hok x (List.mem_cons_of_mem _ hx))]
    rw [List.map_cons, List.append_assoc]
    have : (resolveEdge g e).1 = e2 := by rw [hr]
    rw [this]
    rfl

theorem resolveEdgesGo_fault (g : DFG) :
    ∀ (pre : List Edge) (acc : List Edge) (post : List Edge) (e0 e2 : Edge) (f : Fault),
      (∀ x ∈ pre, (resolveEdge g x).2 = Option.none) →
      resolveEdge g e0 = (e2, Option.some f) →
      resolveEdgesGo g acc (pre ++ e0 :: post) =
        (acc ++ pre.map (fun x => (resolveEdge g x).1) ++ e2 :: post, Option.some f) := by
  intro pre
  induction pre with
  | nil =>
    intro acc post e0 e2 f _ hfault
    show (match resolveEdge g e0 with
      | (x, Option.none) => resolveEdgesGo g (acc ++ [x]) post
      | (x, Option.some fl) => (acc ++ [x] ++ post, Option.some fl)) = _
    rw [hfault]
    simp
  | cons x r ih =>
    intro acc post e0 e2 f hok hfault
    show (match resolveEdge g x with
      | (y, Option.none) => resolveEdgesGo g (acc ++ [y]) (r ++ e0 :: post)
      | (y, Option.some fl) => (acc ++ [y] ++ (r ++ e0 :: post), Option.some fl)) = _
    rcases hr : resolveEdge g x with ⟨y, fl⟩
    have hfl : fl = Option.none := by
      have := hok x (List.mem_cons_self _ _)
      rw [hr] at this
      exact this
    subst hfl
    show resolveEdgesGo g (acc ++ [y]) (r ++ e0 :: post) = _
    rw [ih (acc ++ [y]) post e0 e2 f (fun z hz => hok z (List.mem_cons_of_mem _ hz)) hfault]
    rw [List.map_cons]
    have : (resolveEdge g x).1 = y := by rw [hr]
    rw [this]
    simp

/-- C8: pass 3's default-endpoint resolution.  Per edge: an omitted
(`None`) endpoint name whose owning concrete actor does not expose exactly
one endpoint of the required polarity makes `resolveEdge` return the
ambiguous-endpoint fault with the edge unresolved — an endpoint is never
picked arbitrarily — and an omitted name whose owner exposes exactly one
such endpoint is rewritten to that unique endpoint; `single_sink` returns
`None` exactly when the sink-endpoint count differs from one.  At the graph
level, the pass rewrites every edge in place when all resolve, and aborts
with the first faulting edge's fault otherwise. -/
theorem claimC8_default_resolution (g : DFG) (e : Edge) :
    (∀ act : Actor, act.single_sink = Option.none ↔
      (act.eps.filter (fun x => x.2.1 == Pol.sink)).length ≠ 1) ∧
    (∀ act, dget e.data "source" = PyVal.none →
      (g.nodeOf e.src).st = NodeSt.concrete act →
      act.single_source = Option.none →
      resolveEdge g e = (e, Option.some Fault.ambiguousEndpoint)) ∧
    (∀ act s, dget e.data "source" = PyVal.str s →
      dget e.data "sink" = PyVal.none →
      (g.nodeOf e.dst).st = NodeSt.concrete act →
      act.single_sink = Option.none →
      resolveEdge g e = (e, Option.some Fault.ambiguousEndpoint)) ∧
    (∀ act s t, dget e.data "source" = PyVal.str s →
      dget e.data "sink" = PyVal.none →
      (g.nodeOf e.dst).st = NodeSt.concrete act →
      act.single_sink = Option.some t →
      resolveEdge g e = ({ e with data := stdData (PyVal.str s) (PyVal.str t) (dget e.data "source_subr") (dget e.data "sink_subr") }, Option.none)) ∧
    (∀ act1 act2 s t, dget e.data "source" = PyVal.none →
      dget e.data "sink" = PyVal.none →
      (g.nodeOf e.src).st = NodeSt.concrete act1 →
      (g.nodeOf e.dst).st = NodeSt.concrete act2 →
      act1.single_source = Option.some s →
      act2.single_sink = Option.some t →
      resolveEdge g e = ({ e with data := stdData (PyVal.str s) (PyVal.str t) (dget e.data "source_subr") (dget e.data "sink_subr") }, Option.none)) ∧
    ((∀ x ∈ g.edges, (resolveEdge g x).2 = Option.none) →
      resolveEndpoints g =
        ({ g with edges := g.edges.map (fun x => (resolveEdge g x).1) }, Option.none)) ∧
    (∀ pre post e0 e2 f, g.edges = pre ++ e0 :: post →
      (∀ x ∈ pre, (resolveEdge g x).2 = Option.none) →
      resolveEdge g e0 = (e2, Option.some f) →
      resolveEndpoints g =
        ({ g with edges := pre.map (fun x => (resolveEdge g x).1) ++ e2 :: post },
          Option.some f)) := by
  refine ⟨?_, ?_, ?_, ?_, ?_, ?_, ?_⟩
  · intro act
    unfold Actor.single_sink
    rcases hf : act.eps.filter (fun x => x.2.1 == Pol.sink) with _ | ⟨a, _ | ⟨b, l⟩⟩ <;>
      rw [hf] <;> simp
  · intro act hsrc hconc hss
    unfold resolveEdge
    simp only [hsrc, hconc, hss]
  · intro act s hsrc hsink hconc hss
    unfold resolveEdge
    simp only [hsrc, hsink, hconc, hss]
  · intro act s t hsrc hsink hconc hss
    unfold resolveEdge
    simp only [hsrc, hsink, hconc, hss]
  · intro act1 act2 s t hsrc hsink hconc1 hconc2 hss ht
    unfold resolveEdge
    simp only [hsrc, hconc1, hss]
    rw [show dget (stdData (PyVal.str s) (dget e.data "sink") (dget e.data "source_subr")
        (dget e.data "sink_subr")) "sink" = dget e.data "sink" from rfl]
    simp only [hsink, hconc2, ht]
  · intro hok
    unfold resolveEndpoints
    rw [resolveEdgesGo_ok g g.edges [] hok]
    rfl
  · intro pre post e0 e2 f hsplit hok hfault
    unfold resolveEndpoints
    rw [hsplit, resolveEdgesGo_fault g pre [] post e0 e2 f hok hfault]
    rfl

/-- Witness for C8 at `exAmbig`: the sink actor exposes two sink
endpoints, so resolving the omitted sink name faults with the
ambiguous-endpoint fault, per edge and for the whole pass. -/
theorem claimC8_default_resolution_witness :
    resolveEdge exAmbig exAmbigEdge = (exAmbigEdge, Option.some Fault.ambiguousEndpoint) ∧
    resolveEndpoints exAmbig =
      ({ exAmbig with edges := List.map (fun x => (resolveEdge exAmbig x).1) [] ++ exAmbigEdge :: [] }, Option.some Fault.ambiguousEndpoint) :=
  ⟨(claimC8_default_resolution exAmbig exAmbigEdge).2.2.1
      ⟨Option.none, [("t1", Pol.sink, ["f"]), ("t2", Pol.sink, ["f"])]⟩ "s"
      (by decide) (by decide) (by decide) (by decide),
   (claimC8_default_resolution exAmbig exAmbigEdge).2.2.2.2.2.2 [] [] exAmbigEdge exAmbigEdge
      Fault.ambiguousEndpoint (by decide)
      (by intro x hx; exact absurd hx (List.not_mem_nil x)) (by decide)⟩

theorem bool_eq_of_iff {a b : Bool} (h : a = true ↔ b = true) : a = b := by
  cases a <;> cases b <;> simp_all

theorem filter_and_nil {γ : Type} (l : List γ) (A B : γ → Bool) (h : l.filter A = []) :
    l.filter (fun x => A x && B x) = [] := by
  rw [List.filter_eq_nil_iff] at h ⊢
  intro x hx hc
  rw [Bool.and_eq_true] at hc
  exact h x hx hc.1

theorem length_filter_split {γ : Type} (l : List γ) (A B : γ → Bool) :
    (l.filter A).length =
      (l.filter (fun x => A x && B x)).length + (l.filter (fun x => A x && !B x)).length := by
  induction l with
  | nil => rfl
  | cons x t ih =>
    rw [List.filter_cons, List.filter_cons, List.filter_cons]
    cases hA : A x <;> cases hB : B x <;> simp [hA, hB] <;> omega

/-- An edge deleted by the combinator half has a triggered own sink key. -/
theorem combDelAll_trig_own (g : DFG) (hwf : g.wf = true) (e : Edge) (he : e ∈ g.edges)
    (hdel : combDelAll g.sinkToSources e = true) :
    needsComb ((g.edgesIter.filter
      (fun e2 => decide (sinkKeyOf g e2 = sinkKeyOf g e))).map (srcEntryOf g)) = true := by
  unfold combDelAll at hdel
  rw [List.any_eq_true] at hdel
  rcases hdel with ⟨kv, hkv, hp⟩
  rw [Bool.and_eq_true] at hp
  rcases hp with ⟨htrig, hany⟩
  unfold loopDelAny at hany
  rw [List.any_eq_true] at hany
  rcases hany with ⟨ns, _, hpred⟩
  unfold loopDelPred at hpred
  rw [Bool.and_eq_true, Bool.and_eq_true] at hpred
  rcases hpred with ⟨⟨_, hdst⟩, hmr⟩
  have hstd := ((wf_parts g hwf).2.2 e he).2.2
  have hdata : e.data = stdData (dget e.data "source") (dget e.data "sink")
      (dget e.data "source_subr") (dget e.data "sink_subr") := beq_iff_eq.mp hstd
  rw [hdata, matchesReq_std] at hmr
  rw [Bool.and_eq_true] at hmr
  have hep : kv.1.2 = dget e.data "sink" := beq_iff_eq.mp hmr.2
  have hdid : e.dst = kv.1.1.id := beq_iff_eq.mp hdst
  have hkn : kv.1.1 = g.nodeOf kv.1.1.id := sink_key_node g hwf kv hkv
  have hkey : kv.1 = sinkKeyOf g e := by
    unfold sinkKeyOf
    rcases hkv1 : kv.1 with ⟨n0, ep0⟩
    rw [hkv1] at hkn hep hdid
    have hkn2 : n0 = g.nodeOf n0.id := hkn
    have hdid2 : e.dst = n0.id := hdid
    have hep2 : ep0 = dget e.data "sink" := hep
    have h1 : n0 = g.nodeOf e.dst := by rw [hkn2, ← hdid2]
    rw [h1, hep2]
  rcases edge_sink_entry g hwf e he with ⟨hent, _⟩
  have hval : kv.2 = (g.edgesIter.filter
      (fun e2 => decide (sinkKeyOf g e2 = sinkKeyOf g e))).map (srcEntryOf g) := by
    apply sinkToSources_val_eq g (sinkKeyOf g e)
    · rw [← hkey]
      rcases hkv2 : kv with ⟨k, v⟩
      rw [hkv2] at hkv
      exact hkv
    · exact hent
  rw [← hval]
  exact htrig

/-- An edge deleted by the splitter half has a triggered own source key. -/
theorem splitDelAll_trig_own (g : DFG) (hwf : g.wf = true) (e : Edge) (he : e ∈ g.edges)
    (hdel : splitDelAll g.sourceToSinks e = true) :
    needsSplit ((g.edgesIter.filter
      (fun e2 => decide (srcKeyOf g e2 = srcKeyOf g e))).map (sinkEntryOf g)) = true := by
  unfold splitDelAll at hdel
  rw [List.any_eq_true] at hdel
  rcases hdel with ⟨kv, hkv, hp⟩
  rw [Bool.and_eq_true] at hp
  rcases hp with ⟨htrig, hany⟩
  unfold splitLoopDelAny at hany
  rw [List.any_eq_true] at hany
  rcases hany with ⟨ns, _, hpred⟩
  unfold splitLoopDelPred at hpred
  rw [Bool.and_eq_true, Bool.and_eq_true] at hpred
  rcases hpred with ⟨⟨hsrc, _⟩, hmr⟩
  have hstd := ((wf_parts g hwf).2.2 e he).2.2
  have hdata : e.data = stdData (dget e.data "source") (dget e.data "sink")
      (dget e.data "source_subr") (dget e.data "sink_subr") := beq_iff_eq.mp hstd
  rw [hdata, matchesReq_std] at hmr
  rw [Bool.and_eq_true] at hmr
  have hep : kv.1.2 = dget e.data "source" := beq_iff_eq.mp hmr.1
  have hsid : e.src = kv.1.1.id := beq_iff_eq.mp hsrc
  have hkn : kv.1.1 = g.nodeOf kv.1.1.id := source_key_node g hwf kv hkv
  have hkey : kv.1 = srcKeyOf g e := by
    unfold srcKeyOf
    rcases hkv1 : kv.1 with ⟨n0, ep0⟩
    rw [hkv1] at hkn hep hsid
    have hkn2 : n0 = g.nodeOf n0.id := hkn
    have hsid2 : e.src = n0.id := hsid
    have hep2 : ep0 = dget e.data "source" := hep
    have h1 : n0 = g.nodeOf e.src := by rw [hkn2, ← hsid2]
    rw [h1, hep2]
  rcases edge_source_entry g hwf e he with ⟨hent, _⟩
  have hval : kv.2 = (g.edgesIter.filter
      (fun e2 => decide (srcKeyOf g e2 = srcKeyOf g e))).map (sinkEntryOf g) := by
    apply sourceToSinks_val_eq g (srcKeyOf g e)
    · rw [← hkey]
      rcases hkv2 : kv with ⟨k, v⟩
      rw [hkv2] at hkv
      exact hkv
    · exact hent
  rw [← hval]
  exact htrig

theorem needsComb_of_mem (srcs : List SrcEntry) (s : SrcEntry) (hs : s ∈ srcs)
    (hne : (s.2.2.1 == PyVal.none) = false) : needsComb srcs = true := by
  unfold needsComb
  rcases hl : srcs with _ | ⟨a, _ | ⟨b, t⟩⟩
  · rw [hl] at hs; simp at hs
  · rw [hl] at hs
    rcases List.mem_singleton.mp hs with rfl
    simp [hne]
  · simp

theorem needsSplit_of_mem (sinks : List SinkEntry) (s : SinkEntry) (hs : s ∈ sinks)
    (hne : (s.2.2.1 == PyVal.none) = false) : needsSplit sinks = true := by
  unfold needsSplit
  rcases hl : sinks with _ | ⟨a, _ | ⟨b, t⟩⟩
  · rw [hl] at hs; simp at hs
  · rw [hl] at hs
    rcases List.mem_singleton.mp hs with rfl
    simp [hne]
  · simp

theorem needsComb_false_len (srcs : List SrcEntry) (h : needsComb srcs = false) :
    srcs.length ≤ 1 := by
  unfold needsComb at h
  rw [Bool.or_eq_false_iff] at h
  have := h.1
  simp at this
  omega

theorem needsSplit_false_len (sinks : List SinkEntry) (h : needsSplit sinks = false) :
    sinks.length ≤ 1 := by
  unfold needsSplit at h
  rw [Bool.or_eq_false_iff] at h
  have := h.1
  simp at this
  omega

/-- At a well-formed graph, the id-level sink key test coincides with the
value-level sink key of `_sink_to_sources`. -/
theorem sink_idkey_eq_valkey (g : DFG) (hwf : g.wf = true) (K : ActorNode × PyVal)
    (hKn : K.1 = g.nodeOf K.1.id) (e : Edge) (he : e ∈ g.edges) :
    (e.dst == K.1.id && dget e.data "sink" == K.2) = decide (sinkKeyOf g e = K) := by
  apply bool_eq_of_iff
  rw [Bool.and_eq_true, decide_eq_true_eq]
  constructor
  · intro ⟨h1, h2⟩
    have h1b : e.dst = K.1.id := beq_iff_eq.mp h1
    have h2b : dget e.data "sink" = K.2 := beq_iff_eq.mp h2
    unfold sinkKeyOf
    rw [h1b, h2b, ← hKn]
  · intro h
    unfold sinkKeyOf at h
    rcases hK : K with ⟨n0, ep0⟩
    rw [hK] at h
    injection h with ha hb
    have hid : (g.nodeOf e.dst).id = e.dst := (wf_dst_present g hwf e he).2
    constructor
    · show (e.dst == n0.id) = true
      rw [← ha, hid]
      simp
    · show (dget e.data "sink" == ep0) = true
      rw [hb]
      simp

theorem src_idkey_eq_valkey (g : DFG) (hwf : g.wf = true) (K : ActorNode × PyVal)
    (hKn : K.1 = g.nodeOf K.1.id) (e : Edge) (he : e ∈ g.edges) :
    (e.src == K.1.id && dget e.data "source" == K.2) = decide (srcKeyOf g e = K) := by
  apply bool_eq_of_iff
  rw [Bool.and_eq_true, decide_eq_true_eq]
  constructor
  · intro ⟨h1, h2⟩
    have h1b : e.src = K.1.id := beq_iff_eq.mp h1
    have h2b : dget e.data "source" = K.2 := beq_iff_eq.mp h2
    unfold srcKeyOf
    rw [h1b, h2b, ← hKn]
  · intro h
    unfold srcKeyOf at h
    rcases hK : K with ⟨n0, ep0⟩
    rw [hK] at h
    injection h with ha hb
    have hid : (g.nodeOf e.src).id = e.src := (wf_src_present g hwf e he).2
    constructor
    · show (e.src == n0.id) = true
      rw [← ha, hid]
      simp
    · show (dget e.data "source" == ep0) = true
      rw [hb]
      simp

/-- The group length of a sink-map entry equals the id-level incoming edge
count of its key. -/
theorem sink_group_len (g : DFG) (hwf : g.wf = true) (K : ActorNode × PyVal)
    (srcs : List SrcEntry) (hmem : (K, srcs) ∈ g.sinkToSources) :
    srcs.length =
      (g.edges.filter (fun e => e.dst == K.1.id && dget e.data "sink" == K.2)).length := by
  have hKn : K.1 = g.nodeOf K.1.id := sink_key_node g hwf (K, srcs) hmem
  have hgrp2 : srcs =
      (g.edgesIter.filter (fun e => decide (sinkKeyOf g e = K))).map (srcEntryOf g) :=
    sinkToSources_group g (K, srcs) hmem
  rw [hgrp2, List.length_map]
  rw [((edgesIter_perm g hwf).filter (fun e => decide (sinkKeyOf g e = K))).length_eq]
  congr 1
  apply List.filter_congr
  intro e he
  exact (sink_idkey_eq_valkey g hwf K hKn e he).symm

theorem src_group_len (g : DFG) (hwf : g.wf = true) (K : ActorNode × PyVal)
    (sinks : List SinkEntry) (hmem : (K, sinks) ∈ g.sourceToSinks) :
    sinks.length =
      (g.edges.filter (fun e => e.src == K.1.id && dget e.data "source" == K.2)).length := by
  have hKn : K.1 = g.nodeOf K.1.id := source_key_node g hwf (K, sinks) hmem
  have hgrp2 : sinks =
      (g.edgesIter.filter (fun e => decide (srcKeyOf g e = K))).map (sinkEntryOf g) :=
    sourceToSinks_group g (K, sinks) hmem
  rw [hgrp2, List.length_map]
  rw [((edgesIter_perm g hwf).filter (fun e => decide (srcKeyOf g e = K))).length_eq]
  congr 1
  apply List.filter_congr
  intro e he
  exact (src_idkey_eq_valkey g hwf K hKn e he).symm

theorem enum_name_count (cid : Nat) (ep : PyVal) :
    ∀ (L : List SrcEntry) (k : Nat),
      (((L.enumFrom k).map (combNewEdge cid)).filter
        (fun e => dget e.data "sink" == ep)).length ≤ 1 := by
  intro L
  induction L with
  | nil => intro k; simp [List.enumFrom]
  | cons a t ih =>
    intro k
    show (((combNewEdge cid (k, a)) :: (t.enumFrom (k + 1)).map (combNewEdge cid)).filter
      (fun e => dget e.data "sink" == ep)).length ≤ 1
    rw [List.filter_cons]
    cases hm : (dget (combNewEdge cid (k, a)).data "sink" == ep) with
    | false =>
      simp only [Bool.false_eq_true, if_false]
      exact ih (k + 1)
    | true =>
      have hep : ep = PyVal.str ("sink" ++ toString k) := (beq_iff_eq.mp hm).symm
      rw [hep, enum_map_filter_name_nil cid t (k + 1) k (Nat.lt_succ_self k)]
      simp

theorem combNewsOf_count_le_one_hi (dstId : Nat) (ep : PyVal) :
    ∀ (ES : List ((ActorNode × PyVal) × List SrcEntry)) (base : Nat),
      (∀ kv ∈ ES, kv.1.1.id < base) → base ≤ dstId →
      ((combNewsOf base ES).filter
        (fun e => e.dst == dstId && dget e.data "sink" == ep)).length ≤ 1 := by
  intro ES
  induction ES with
  | nil => intro base _ _; simp [combNewsOf]
  | cons kv0 t ih =>
    intro base hlt hle
    rcases kv0 with ⟨k0, s0⟩
    cases h0 : needsComb s0 with
    | false =>
      rw [combNewsOf_cons_neg _ _ _ _ h0]
      exact ih base (fun kv hkv => hlt kv (List.mem_cons_of_mem _ hkv)) hle
    | true =>
      rw [combNewsOf_cons_pos _ _ _ _ h0]
      unfold combNewEdges
      rw [List.append_assoc, List.filter_append, List.length_append, List.filter_append,
        List.length_append]
      have hfin : (([(⟨base, k0.1.id,
          stdData (PyVal.str "source") k0.2 PyVal.none PyVal.none⟩ : Edge)]).filter
          (fun e => e.dst == dstId && dget e.data "sink" == ep)).length = 0 := by
        have hid : k0.1.id < base := hlt (k0, s0) (List.mem_cons_self _ _)
        have hnil : (([(⟨base, k0.1.id,
            stdData (PyVal.str "source") k0.2 PyVal.none PyVal.none⟩ : Edge)]).filter
            (fun e => e.dst == dstId && dget e.data "sink" == ep)) = [] := by
          rw [List.filter_eq_nil_iff]
          intro e he
          rcases List.mem_singleton.mp he with rfl
          intro hp
          rw [Bool.and_eq_true] at hp
          have : k0.1.id = dstId := beq_iff_eq.mp hp.1
          omega
        rw [hnil]
        rfl
      by_cases hb : base = dstId
      · subst hb
        have henum : ((s0.enum.map (combNewEdge base)).filter
            (fun e => e.dst == base && dget e.data "sink" == ep)).length ≤ 1 := by
          have hcong : (s0.enum.map (combNewEdge base)).filter
              (fun e => e.dst == base && dget e.data "sink" == ep) =
              (s0.enum.map (combNewEdge base)).filter
              (fun e => dget e.data "sink" == ep) := by
            apply List.filter_congr
            intro e he
            rcases List.mem_map.mp he with ⟨ms, _, rfl⟩
            have : ((combNewEdge base ms).dst == base) = true := by
              simp [combNewEdge]
            rw [this, Bool.true_and]
          rw [hcong]
          exact enum_name_count base ep s0 0
        have htail : ((combNewsOf (base + 1) t).filter
            (fun e => e.dst == base && dget e.data "sink" == ep)).length = 0 := by
          rw [filter_and_nil _ _ _
            (combNewsOf_filter_cid_nil base t (base + 1) (Nat.lt_succ_self base)
              (fun kv hkv => Nat.ne_of_lt (hlt kv (List.mem_cons_of_mem _ hkv))))]
          rfl
        omega
      · have hlt2 : base < dstId := Nat.lt_of_le_of_ne hle hb
        have henum : ((s0.enum.map (combNewEdge base)).filter
            (fun e => e.dst == dstId && dget e.data "sink" == ep)).length = 0 := by
          rw [enum_map_filter_dst_ne base dstId (Nat.ne_of_lt hlt2) _ s0.enum]
          rfl
        have htail := ih (base + 1)
          (fun kv hkv => Nat.lt_succ_of_lt (hlt kv (List.mem_cons_of_mem _ hkv))) hlt2
        omega

theorem comb_own_group_eq (g : DFG) (hwf : g.wf = true) (e : Edge) (he : e ∈ g.edges)
    (K : ActorNode × PyVal) (srcs : List SrcEntry) (hmem : (K, srcs) ∈ g.sinkToSources)
    (hkey : sinkKeyOf g e = K) :
    ((g.edgesIter.filter
      (fun e2 => decide (sinkKeyOf g e2 = sinkKeyOf g e))).map (srcEntryOf g)) = srcs := by
  apply sinkToSources_val_eq g K
  · rw [← hkey]
    exact (edge_sink_entry g hwf e he).1
  · exact hmem

theorem split_own_group_eq (g : DFG) (hwf : g.wf = true) (e : Edge) (he : e ∈ g.edges)
    (K : ActorNode × PyVal) (sinks : List SinkEntry) (hmem : (K, sinks) ∈ g.sourceToSinks)
    (hkey : srcKeyOf g e = K) :
    ((g.edgesIter.filter
      (fun e2 => decide (srcKeyOf g e2 = srcKeyOf g e))).map (sinkEntryOf g)) = sinks := by
  apply sourceToSinks_val_eq g K
  · rw [← hkey]
    exact (edge_source_entry g hwf e he).1
  · exact hmem

theorem comb_not_deleted (g : DFG) (hwf : g.wf = true) (e : Edge) (he : e ∈ g.edges)
    (K : ActorNode × PyVal) (srcs : List SrcEntry) (hmem : (K, srcs) ∈ g.sinkToSources)
    (hkey : sinkKeyOf g e = K) (htrf : needsComb srcs = false) :
    combDelAll g.sinkToSources e = false := by
  cases hd : combDelAll g.sinkToSources e with
  | false => rfl
  | true =>
    have h1 := combDelAll_trig_own g hwf e he hd
    rw [comb_own_group_eq g hwf e he K srcs hmem hkey, htrf] at h1
    exact absurd h1 (by simp)

theorem split_not_deleted (g : DFG) (hwf : g.wf = true) (e : Edge) (he : e ∈ g.edges)
    (K : ActorNode × PyVal) (sinks : List SinkEntry) (hmem : (K, sinks) ∈ g.sourceToSinks)
    (hkey : srcKeyOf g e = K) (htrf : needsSplit sinks = false) :
    splitDelAll g.sourceToSinks e = false := by
  cases hd : splitDelAll g.sourceToSinks e with
  | false => rfl
  | true =>
    have h1 := splitDelAll_trig_own g hwf e he hd
    rw [split_own_group_eq g hwf e he K sinks hmem hkey, htrf] at h1
    exact absurd h1 (by simp)

/-- The key uniqueness of the sink map in id form. -/
theorem sink_key_uniq (g : DFG) (hwf : g.wf = true) (K : ActorNode × PyVal)
    (srcs : List SrcEntry) (hmem : (K, srcs) ∈ g.sinkToSources) :
    ∀ kv ∈ g.sinkToSources, kv.1.1.id = K.1.id → kv.1.2 = K.2 → kv.1 = K := by
  have hKn : K.1 = g.nodeOf K.1.id := sink_key_node g hwf (K, srcs) hmem
  intro kv hkv h1 h2
  have h3 : kv.1.1 = g.nodeOf kv.1.1.id := sink_key_node g hwf kv hkv
  rcases hkv1 : kv.1 with ⟨n0, e0⟩
  rw [hkv1] at h3 h1 h2
  have h3b : n0 = g.nodeOf n0.id := h3
  have h1b : n0.id = K.1.id := h1
  have h2b : e0 = K.2 := h2
  have hn : n0 = K.1 := by rw [h3b, h1b, ← hKn]
  rcases hK2 : K with ⟨n1, e1⟩
  rw [hK2] at hn h2b
  rw [hn, h2b]

theorem src_key_uniq (g : DFG) (hwf : g.wf = true) (K : ActorNode × PyVal)
    (sinks : List SinkEntry) (hmem : (K, sinks) ∈ g.sourceToSinks) :
    ∀ kv ∈ g.sourceToSinks, kv.1.1.id = K.1.id → kv.1.2 = K.2 → kv.1 = K := by
  have hKn : K.1 = g.nodeOf K.1.id := source_key_node g hwf (K, sinks) hmem
  intro kv hkv h1 h2
  have h3 : kv.1.1 = g.nodeOf kv.1.1.id := source_key_node g hwf kv hkv
  rcases hkv1 : kv.1 with ⟨n0, e0⟩
  rw [hkv1] at h3 h1 h2
  have h3b : n0 = g.nodeOf n0.id := h3
  have h1b : n0.id = K.1.id := h1
  have h2b : e0 = K.2 := h2
  have hn : n0 = K.1 := by rw [h3b, h1b, ← hKn]
  rcases hK2 : K with ⟨n1, e1⟩
  rw [hK2] at hn h2b
  rw [hn, h2b]

/-- After the combinator half of pass 1, every sink endpoint key has at
most one incoming edge. -/
theorem combPhase_sinkCount (g : DFG) (hwf : g.wf = true) (dstId : Nat) (ep : PyVal) :
    sinkCount (combPhase g) dstId ep ≤ 1 := by
  have hedges : (combPhase g).edges =
      g.edges.filter (fun e => !combDelAll g.sinkToSources e) ++
        combNewsOf g.nextId g.sinkToSources := by
    rw [combPhase_closed g hwf]
  unfold sinkCount
  rw [hedges, List.filter_append, List.length_append]
  by_cases hhi : g.nextId ≤ dstId
  · have hsur : ((g.edges.filter (fun e => !combDelAll g.sinkToSources e)).filter
        (fun e => e.dst == dstId && dget e.data "sink" == ep)).length = 0 := by
      have hnil : ((g.edges.filter (fun e => !combDelAll g.sinkToSources e)).filter
          (fun e => e.dst == dstId && dget e.data "sink" == ep)) = [] := by
        rw [List.filter_eq_nil_iff]
        intro e he hp
        rcases List.mem_filter.mp he with ⟨he1, _⟩
        rw [Bool.and_eq_true] at hp
        have h1 : e.dst = dstId := beq_iff_eq.mp hp.1
        rcases wf_dst_present g hwf e he1 with ⟨hm, hid⟩
        have h2 := (wf_parts g hwf).2.1 _ hm
        omega
      rw [hnil]
      rfl
    have hnews := combNewsOf_count_le_one_hi dstId ep g.sinkToSources g.nextId
      (sinkToSources_key_lt g hwf) hhi
    omega
  · have hlo : dstId < g.nextId := Nat.lt_of_not_le hhi
    by_cases hex : ∃ kv ∈ g.sinkToSources, kv.1.1.id = dstId ∧ kv.1.2 = ep
    · rcases hex with ⟨⟨K, srcs⟩, hmem, hid, hep⟩
      have hid2 : K.1.id = dstId := hid
      have hep2 : K.2 = ep := hep
      rw [← hid2, ← hep2]
      have hklt : K.1.id < g.nextId := sinkToSources_key_lt g hwf (K, srcs) hmem
      have huniqK := sink_key_uniq g hwf K srcs hmem
      cases htr : needsComb srcs with
      | true =>
        have hmemF : (K, srcs) ∈ combEntries g := List.mem_filter.mpr ⟨hmem, htr⟩
        rcases List.mem_iff_get?.mp hmemF with ⟨i, hget⟩
        have hs := combSurvivors_filter_sink_nil g hwf K.1 K.2 srcs hmem htr
        have hn := combNewsOf_filter_sink K.1.id K.2 K srcs g.sinkToSources g.nextId i
          hklt (sinkToSources_keys_nodup g) huniqK hget rfl rfl
        rw [hs, hn]
        simp
      | false =>
        have hsur : ((g.edges.filter (fun e => !combDelAll g.sinkToSources e)).filter
            (fun e => e.dst == K.1.id && dget e.data "sink" == K.2)).length ≤ 1 := by
          rw [List.filter_filter]
          have hKn : K.1 = g.nodeOf K.1.id := sink_key_node g hwf (K, srcs) hmem
          have hcong : g.edges.filter
              (fun e => (e.dst == K.1.id && dget e.data "sink" == K.2) &&
                !combDelAll g.sinkToSources e) =
              g.edges.filter (fun e => e.dst == K.1.id && dget e.data "sink" == K.2) := by
            apply List.filter_congr
            intro e he
            cases hK : (e.dst == K.1.id && dget e.data "sink" == K.2) with
            | false => simp
            | true =>
              have hkey : sinkKeyOf g e = K := by
                have := sink_idkey_eq_valkey g hwf K hKn e he
                rw [hK] at this
                exact of_decide_eq_true this.symm
              have hnd := comb_not_deleted g hwf e he K srcs hmem hkey htr
              rw [hnd]
              rfl
          rw [hcong, ← sink_group_len g hwf K srcs hmem]
          exact needsComb_false_len srcs htr
        have hnews : ((combNewsOf g.nextId g.sinkToSources).filter
            (fun e => e.dst == K.1.id && dget e.data "sink" == K.2)).length = 0 := by
          rw [combNewsOf_filter_sink_nil K.1.id K.2 g.sinkToSources g.nextId hklt]
          · rfl
          · intro kv hkv htrig h1
            have hk1 : kv.1 = K := huniqK kv hkv h1.1 h1.2
            have hv : kv.2 = srcs := by
              apply sinkToSources_val_eq g K
              · rw [← hk1]
                rcases hkv3 : kv with ⟨a, b⟩
                rw [hkv3] at hkv
                exact hkv
              · exact hmem
            rw [hv] at htrig
            rw [htr] at htrig
            exact absurd htrig (by simp)
        omega
    · have hsur : ((g.edges.filter (fun e => !combDelAll g.sinkToSources e)).filter
          (fun e => e.dst == dstId && dget e.data "sink" == ep)).length = 0 := by
        have hnil : ((g.edges.filter (fun e => !combDelAll g.sinkToSources e)).filter
            (fun e => e.dst == dstId && dget e.data "sink" == ep)) = [] := by
          rw [List.filter_eq_nil_iff]
          intro e he hp
          rcases List.mem_filter.mp he with ⟨he1, _⟩
          rw [Bool.and_eq_true] at hp
          have h1 : e.dst = dstId := beq_iff_eq.mp hp.1
          have h2 : dget e.data "sink" = ep := beq_iff_eq.mp hp.2
          rcases edge_sink_entry g hwf e he1 with ⟨hent, _⟩
          apply hex
          refine ⟨_, hent, ?_, h2⟩
          show (g.nodeOf e.dst).id = dstId
          rw [(wf_dst_present g hwf e he1).2, h1]
        rw [hnil]
        rfl
      have hnews : ((combNewsOf g.nextId g.sinkToSources).filter
          (fun e => e.dst == dstId && dget e.data "sink" == ep)).length = 0 := by
        rw [combNewsOf_filter_sink_nil dstId ep g.sinkToSources g.nextId hlo]
        · rfl
        · intro kv hkv _ h1
          exact hex ⟨kv, hkv, h1.1, h1.2⟩
      omega

/-!
## Splitter-half mirrors: source-endpoint counts
-/
theorem splitSurvivors_filter_src_nil (g : DFG) (hwf : g.wf = true)
    (src : ActorNode) (srcEp : PyVal) (sinks : List SinkEntry)
    (hmem : ((src, srcEp), sinks) ∈ g.sourceToSinks)
    (htrig : needsSplit sinks = true) :
    (g.edges.filter (fun e => !splitDelAll g.sourceToSinks e)).filter
      (fun e => e.src == src.id && dget e.data "source" == srcEp) = [] := by
  rw [List.filter_eq_nil_iff]
  intro e he
  rcases List.mem_filter.mp he with ⟨he1, he2⟩
  intro hp
  rw [Bool.and_eq_true] at hp
  have hsrcid : e.src = src.id := beq_iff_eq.mp hp.1
  have hsrc : dget e.data "source" = srcEp := beq_iff_eq.mp hp.2
  have hnode : src = g.nodeOf src.id := source_key_node g hwf ((src, srcEp), sinks) hmem
  have hkey : srcKeyOf g e = (src, srcEp) := by
    unfold srcKeyOf
    rw [hsrcid, hsrc, ← hnode]
  have hval : ((g.edgesIter.filter
      (fun e2 => decide (srcKeyOf g e2 = srcKeyOf g e))).map (sinkEntryOf g)) = sinks :=
    split_own_group_eq g hwf e he1 (src, srcEp) sinks hmem hkey
  have hdel : splitDelAll g.sourceToSinks e = true := by
    apply splitDelAll_own g hwf e he1
    rw [hval]
    exact htrig
  rw [hdel] at he2
  simp at he2

theorem split_enum_map_filter_src_ne (sid srcId : Nat) (h : sid ≠ srcId) (p2 : Edge → Bool)
    (L : List (Nat × SinkEntry)) :
    (L.map (splitNewEdge sid)).filter (fun e => e.src == srcId && p2 e) = [] := by
  rw [List.filter_eq_nil_iff]
  intro e he
  rcases List.mem_map.mp he with ⟨ms, _, rfl⟩
  have hne : ((splitNewEdge sid ms).src == srcId) = false := by
    apply beq_eq_false_iff_ne.mpr
    simpa [splitNewEdge] using h
  simp [hne]

theorem splitNewsOf_filter_src_nil (srcId : Nat) (srcEp : PyVal) :
    ∀ (ES : List ((ActorNode × PyVal) × List SinkEntry)) (base : Nat),
      srcId < base →
      (∀ kv ∈ ES, needsSplit kv.2 = true → ¬(kv.1.1.id = srcId ∧ kv.1.2 = srcEp)) →
      (splitNewsOf base ES).filter
        (fun e => e.src == srcId && dget e.data "source" == srcEp) = [] := by
  intro ES
  induction ES with
  | nil => intro base _ _; simp [splitNewsOf]
  | cons kv0 t ih =>
    intro base hlt hno
    rcases kv0 with ⟨k0, s0⟩
    cases h0 : needsSplit s0 with
    | false =>
      rw [splitNewsOf_cons_neg _ _ _ _ h0]
      exact ih base hlt (fun kv hkv => hno kv (List.mem_cons_of_mem _ hkv))
    | true =>
      rw [splitNewsOf_cons_pos _ _ _ _ h0, List.filter_append]
      have hA : (splitNewEdges base k0.1.id k0.2 s0).filter
          (fun e => e.src == srcId && dget e.data "source" == srcEp) = [] := by
        unfold splitNewEdges
        rw [List.filter_append,
          split_enum_map_filter_src_ne base srcId (Nat.ne_of_gt hlt) _ s0.enum]
        rw [List.nil_append, List.filter_eq_nil_iff]
        intro e he
        rcases List.mem_singleton.mp he with rfl
        intro hp
        rw [Bool.and_eq_true] at hp
        have hq1 : k0.1.id = srcId := beq_iff_eq.mp hp.1
        have hq2 : k0.2 = srcEp := beq_iff_eq.mp hp.2
        exact hno (k0, s0) (List.mem_cons_self _ _) h0 ⟨hq1, hq2⟩
      rw [hA, List.nil_append]
      exact ih (base + 1) (Nat.lt_succ_of_lt hlt)
        (fun kv hkv => hno kv (List.mem_cons_of_mem _ hkv))

theorem splitNewsOf_filter_src (srcId : Nat) (srcEp : PyVal) (k : ActorNode × PyVal)
    (sinks : List SinkEntry) :
    ∀ (ES : List ((ActorNode × PyVal) × List SinkEntry)) (base i : Nat),
      srcId < base →
      (ES.map Prod.fst).Nodup →
      (∀ kv ∈ ES, kv.1.1.id = srcId → kv.1.2 = srcEp → kv.1 = k) →
      ((ES.filter (fun kv => needsSplit kv.2)).get? i = some (k, sinks)) →
      k.1.id = srcId → k.2 = srcEp →
      (splitNewsOf base ES).filter
        (fun e => e.src == srcId && dget e.data "source" == srcEp) =
        [⟨srcId, base + i, stdData srcEp (PyVal.str "sink") PyVal.none PyVal.none⟩] := by
  intro ES
  induction ES with
  | nil => intro base i _ _ _ hget _ _; simp at hget
  | cons kv0 t ih =>
    intro base i hlt hnd huniq hget hk1 hk2
    rcases kv0 with ⟨k0, s0⟩
    rw [List.map_cons, List.nodup_cons] at hnd
    cases h0 : needsSplit s0 with
    | false =>
      rw [splitNewsOf_cons_neg _ _ _ _ h0]
      rw [List.filter_cons,
        if_neg (show ¬((fun kv : (ActorNode × PyVal) × List SinkEntry => needsSplit kv.2) (k0, s0) =
          true) by simp [h0])] at hget
      exact ih base i hlt hnd.2 (fun kv hkv => huniq kv (List.mem_cons_of_mem _ hkv)) hget hk1 hk2
    | true =>
      rw [splitNewsOf_cons_pos _ _ _ _ h0, List.filter_append]
      rw [List.filter_cons,
        if_pos (show (fun kv : (ActorNode × PyVal) × List SinkEntry => needsSplit kv.2) (k0, s0) =
          true from h0)] at hget
      cases i with
      | zero =>
        have hp : (k0, s0) = (k, sinks) := Option.some.inj hget
        injection hp with hp1 hp2
        subst hp1
        subst hp2
        have hA : (splitNewEdges base k0.1.id k0.2 s0).filter
            (fun e => e.src == srcId && dget e.data "source" == srcEp) =
            [⟨srcId, base, stdData srcEp (PyVal.str "sink") PyVal.none PyVal.none⟩] := by
          unfold splitNewEdges
          rw [List.filter_append,
            split_enum_map_filter_src_ne base srcId (Nat.ne_of_gt hlt) _ s0.enum,
            List.nil_append]
          rw [List.filter_cons]
          rw [if_pos (show ((⟨k0.1.id, base,
              stdData k0.2 (PyVal.str "sink") PyVal.none PyVal.none⟩ : Edge).src == srcId &&
              dget (stdData k0.2 (PyVal.str "sink") PyVal.none PyVal.none) "source" == srcEp) =
              true by
            rw [hk1, hk2]
            show (srcId == srcId && srcEp == srcEp) = true
            simp)]
          rw [hk1, hk2]
          rfl
        rw [hA]
        have hB : (splitNewsOf (base + 1) t).filter
            (fun e => e.src == srcId && dget e.data "source" == srcEp) = [] := by
          apply splitNewsOf_filter_src_nil srcId srcEp t (base + 1) (Nat.lt_succ_of_lt hlt)
          intro kv hkv _ hq
          have hkk : kv.1 = k0 := huniq kv (List.mem_cons_of_mem _ hkv) hq.1 hq.2
          exact hnd.1 (hkk ▸ List.mem_map.mpr ⟨kv, hkv, rfl⟩)
        rw [hB, List.append_nil]
        rfl
      | succ j =>
        have hA : (splitNewEdges base k0.1.id k0.2 s0).filter
            (fun e => e.src == srcId && dget e.data "source" == srcEp) = [] := by
          unfold splitNewEdges
          rw [List.filter_append,
            split_enum_map_filter_src_ne base srcId (Nat.ne_of_gt hlt) _ s0.enum,
            List.nil_append]
          rw [List.filter_eq_nil_iff]
          intro e he
          rcases List.mem_singleton.mp he with rfl
          intro hp
          rw [Bool.and_eq_true] at hp
          have hq1 : k0.1.id = srcId := beq_iff_eq.mp hp.1
          have hq2 : k0.2 = srcEp := beq_iff_eq.mp hp.2
          have hkk : k0 = k := huniq (k0, s0) (List.mem_cons_self _ _) hq1 hq2
          have hkmem : (k, sinks) ∈ t :=
            List.mem_of_mem_filter (List.get?_mem hget)
          exact hnd.1 (hkk ▸ List.mem_map.mpr ⟨(k, sinks), hkmem, rfl⟩)
        rw [hA, List.nil_append]
        rw [show base + (j + 1) = base + 1 + j by omega]
        exact ih (base + 1) j (Nat.lt_succ_of_lt hlt) hnd.2
          (fun kv hkv => huniq kv (List.mem_cons_of_mem _ hkv)) hget hk1 hk2

theorem source_name_ne (k m : Nat) (h : k ≠ m) :
    (PyVal.str ("source" ++ toString k) == PyVal.str ("source" ++ toString m)) = false := by
  apply beq_eq_false_iff_ne.mpr
  intro hc
  injection hc with hc2
  exact h (numbered_name_inj "source" k m hc2)

theorem split_enum_map_filter_name_nil (sid : Nat) :
    ∀ (t : List SinkEntry) (k m : Nat), m < k →
      ((t.enumFrom k).map (splitNewEdge sid)).filter
        (fun e => dget e.data "source" == PyVal.str ("source" ++ toString m)) = [] := by
  intro t
  induction t with
  | nil => intro k m _; rfl
  | cons a t2 ih =>
    intro k m hlt
    show ((splitNewEdge sid (k, a)) :: (t2.enumFrom (k + 1)).map (splitNewEdge sid)).filter
      (fun e => dget e.data "source" == PyVal.str ("source" ++ toString m)) = []
    rw [List.filter_cons,
      if_neg (show ¬((dget (splitNewEdge sid (k, a)).data "source" ==
        PyVal.str ("source" ++ toString m)) = true) by
        show ¬((PyVal.str ("source" ++ toString k) == PyVal.str ("source" ++ toString m)) = true)
        rw [source_name_ne k m (Nat.ne_of_gt hlt)]
        simp)]
    exact ih (k + 1) m (Nat.lt_succ_of_lt hlt)

theorem split_enum_name_count (sid : Nat) (ep : PyVal) :
    ∀ (L : List SinkEntry) (k : Nat),
      (((L.enumFrom k).map (splitNewEdge sid)).filter
        (fun e => dget e.data "source" == ep)).length ≤ 1 := by
  intro L
  induction L with
  | nil => intro k; simp [List.enumFrom]
  | cons a t ih =>
    intro k
    show (((splitNewEdge sid (k, a)) :: (t.enumFrom (k + 1)).map (splitNewEdge sid)).filter
      (fun e => dget e.data "source" == ep)).length ≤ 1
    rw [List.filter_cons]
    cases hm : (dget (splitNewEdge sid (k, a)).data "source" == ep) with
    | false =>
      simp only [Bool.false_eq_true, if_false]
      exact ih (k + 1)
    | true =>
      have hep : ep = PyVal.str ("source" ++ toString k) := (beq_iff_eq.mp hm).symm
      rw [hep, split_enum_map_filter_name_nil sid t (k + 1) k (Nat.lt_succ_self k)]
      simp

theorem splitNewsOf_filter_sid_nil (sid : Nat) :
    ∀ (ES : List ((ActorNode × PyVal) × List SinkEntry)) (base : Nat),
      sid < base → (∀ kv ∈ ES, kv.1.1.id ≠ sid) →
      (splitNewsOf base ES).filter (fun e => e.src == sid) = [] := by
  intro ES
  induction ES with
  | nil => intro base _ _; simp [splitNewsOf]
  | cons kv0 t ih =>
    intro base hlt hno
    rcases kv0 with ⟨k0, s0⟩
    cases h0 : needsSplit s0 with
    | false =>
      rw [splitNewsOf_cons_neg _ _ _ _ h0]
      exact ih base hlt (fun kv hkv => hno kv (List.mem_cons_of_mem _ hkv))
    | true =>
      rw [splitNewsOf_cons_pos _ _ _ _ h0, List.filter_append]
      have hA : (splitNewEdges base k0.1.id k0.2 s0).filter (fun e => e.src == sid) = [] := by
        rw [List.filter_eq_nil_iff]
        intro e he
        unfold splitNewEdges at he
        rcases List.mem_append.mp he with he2 | he2
        · rcases List.mem_map.mp he2 with ⟨ms, _, rfl⟩
          simp only [splitNewEdge]
          intro hc
          exact Nat.ne_of_gt hlt (beq_iff_eq.mp hc)
        · rcases List.mem_singleton.mp he2 with rfl
          intro hc
          exact hno (k0, s0) (List.mem_cons_self _ _) (beq_iff_eq.mp hc)
      rw [hA, List.nil_append]
      exact ih (base + 1) (Nat.lt_succ_of_lt hlt)
        (fun kv hkv => hno kv (List.mem_cons_of_mem _ hkv))

theorem splitNewsOf_count_le_one_hi (srcId : Nat) (ep : PyVal) :
    ∀ (ES : List ((ActorNode × PyVal) × List SinkEntry)) (base : Nat),
      (∀ kv ∈ ES, kv.1.1.id < base) → base ≤ srcId →
      ((splitNewsOf base ES).filter
        (fun e => e.src == srcId && dget e.data "source" == ep)).length ≤ 1 := by
  intro ES
  induction ES with
  | nil => intro base _ _; simp [splitNewsOf]
  | cons kv0 t ih =>
    intro base hlt hle
    rcases kv0 with ⟨k0, s0⟩
    cases h0 : needsSplit s0 with
    | false =>
      rw [splitNewsOf_cons_neg _ _ _ _ h0]
      exact ih base (fun kv hkv => hlt kv (List.mem_cons_of_mem _ hkv)) hle
    | true =>
      rw [splitNewsOf_cons_pos _ _ _ _ h0]
      unfold splitNewEdges
      rw [List.append_assoc, List.filter_append, List.length_append, List.filter_append,
        List.length_append]
      have hid : k0.1.id < base := hlt (k0, s0) (List.mem_cons_self _ _)
      have hfin : (([(⟨k0.1.id, base,
          stdData k0.2 (PyVal.str "sink") PyVal.none PyVal.none⟩ : Edge)]).filter
          (fun e => e.src == srcId && dget e.data "source" == ep)).length = 0 := by
        have hnil : (([(⟨k0.1.id, base,
            stdData k0.2 (PyVal.str "sink") PyVal.none PyVal.none⟩ : Edge)]).filter
            (fun e => e.src == srcId && dget e.data "source" == ep)) = [] := by
          rw [List.filter_eq_nil_iff]
          intro e he
          rcases List.mem_singleton.mp he with rfl
          intro hp
          rw [Bool.and_eq_true] at hp
          have : k0.1.id = srcId := beq_iff_eq.mp hp.1
          omega
        rw [hnil]
        rfl
      by_cases hb : base = srcId
      · subst hb
        have henum : ((s0.enum.map (splitNewEdge base)).filter
            (fun e => e.src == base && dget e.data "source" == ep)).length ≤ 1 := by
          have hcong : (s0.enum.map (splitNewEdge base)).filter
              (fun e => e.src == base && dget e.data "source" == ep) =
              (s0.enum.map (splitNewEdge base)).filter
              (fun e => dget e.data "source" == ep) := by
            apply List.filter_congr
            intro e he
            rcases List.mem_map.mp he with ⟨ms, _, rfl⟩
            have : ((splitNewEdge base ms).src == base) = true := by
              simp [splitNewEdge]
            rw [this, Bool.true_and]
          rw [hcong]
          exact split_enum_name_count base ep s0 0
        have htail : ((splitNewsOf (base + 1) t).filter
            (fun e => e.src == base && dget e.data "source" == ep)).length = 0 := by
          rw [filter_and_nil _ _ _
            (splitNewsOf_filter_sid_nil base t (base + 1) (Nat.lt_succ_self base)
              (fun kv hkv => Nat.ne_of_lt (hlt kv (List.mem_cons_of_mem _ hkv))))]
          rfl
        omega
      · have hlt2 : base < srcId := Nat.lt_of_le_of_ne hle hb
        have henum : ((s0.enum.map (splitNewEdge base)).filter
            (fun e => e.src == srcId && dget e.data "source" == ep)).length = 0 := by
          rw [split_enum_map_filter_src_ne base srcId (Nat.ne_of_lt hlt2) _ s0.enum]
          rfl
        have htail := ih (base + 1)
          (fun kv hkv => Nat.lt_succ_of_lt (hlt kv (List.mem_cons_of_mem _ hkv))) hlt2
        omega

/-- After the splitter half of pass 1, every source endpoint key has at
most one outgoing edge. -/
theorem splitPhase_srcCount (g : DFG) (hwf : g.wf = true) (srcId : Nat) (ep : PyVal) :
    srcCount (splitPhase g) srcId ep ≤ 1 := by
  have hedges : (splitPhase g).edges =
      g.edges.filter (fun e => !splitDelAll g.sourceToSinks e) ++
        splitNewsOf g.nextId g.sourceToSinks := by
    rw [splitPhase_closed g hwf]
  unfold srcCount
  rw [hedges, List.filter_append, List.length_append]
  by_cases hhi : g.nextId ≤ srcId
  · have hsur : ((g.edges.filter (fun e => !splitDelAll g.sourceToSinks e)).filter
        (fun e => e.src == srcId && dget e.data "source" == ep)).length = 0 := by
      have hnil : ((g.edges.filter (fun e => !splitDelAll g.sourceToSinks e)).filter
          (fun e => e.src == srcId && dget e.data "source" == ep)) = [] := by
        rw [List.filter_eq_nil_iff]
        intro e he hp
        rcases List.mem_filter.mp he with ⟨he1, _⟩
        rw [Bool.and_eq_true] at hp
        have h1 : e.src = srcId := beq_iff_eq.mp hp.1
        rcases wf_src_present g hwf e he1 with ⟨hm, hid⟩
        have h2 := (wf_parts g hwf).2.1 _ hm
        omega
      rw [hnil]
      rfl
    have hnews := splitNewsOf_count_le_one_hi srcId ep g.sourceToSinks g.nextId
      (sourceToSinks_key_lt g hwf) hhi
    omega
  · have hlo : srcId < g.nextId := Nat.lt_of_not_le hhi
    by_cases hex : ∃ kv ∈ g.sourceToSinks, kv.1.1.id = srcId ∧ kv.1.2 = ep
    · rcases hex with ⟨⟨K, sinks⟩, hmem, hid, hep⟩
      have hid2 : K.1.id = srcId := hid
      have hep2 : K.2 = ep := hep
      rw [← hid2, ← hep2]
      have hklt : K.1.id < g.nextId := sourceToSinks_key_lt g hwf (K, sinks) hmem
      have huniqK := src_key_uniq g hwf K sinks hmem
      cases htr : needsSplit sinks with
      | true =>
        have hmemF : (K, sinks) ∈ g.sourceToSinks.filter (fun kv => needsSplit kv.2) :=
          List.mem_filter.mpr ⟨hmem, htr⟩
        rcases List.mem_iff_get?.mp hmemF with ⟨i, hget⟩
        have hs := splitSurvivors_filter_src_nil g hwf K.1 K.2 sinks hmem htr
        have hn := splitNewsOf_filter_src K.1.id K.2 K sinks g.sourceToSinks g.nextId i
          hklt (sourceToSinks_keys_nodup g) huniqK hget rfl rfl
        rw [hs, hn]
        simp
      | false =>
        have hsur : ((g.edges.filter (fun e => !splitDelAll g.sourceToSinks e)).filter
            (fun e => e.src == K.1.id && dget e.data "source" == K.2)).length ≤ 1 := by
          rw [List.filter_filter]
          have hKn : K.1 = g.nodeOf K.1.id := source_key_node g hwf (K, sinks) hmem
          have hcong : g.edges.filter
              (fun e => (e.src == K.1.id && dget e.data "source" == K.2) &&
                !splitDelAll g.sourceToSinks e) =
              g.edges.filter (fun e => e.src == K.1.id && dget e.data "source" == K.2) := by
            apply List.filter_congr
            intro e he
            cases hK : (e.src == K.1.id && dget e.data "source" == K.2) with
            | false => simp
            | true =>
              have hkey : srcKeyOf g e = K := by
                have := src_idkey_eq_valkey g hwf K hKn e he
                rw [hK] at this
                exact of_decide_eq_true this.symm
              have hnd := split_not_deleted g hwf e he K sinks hmem hkey htr
              rw [hnd]
              rfl
          rw [hcong, ← src_group_len g hwf K sinks hmem]
          exact needsSplit_false_len sinks htr
        have hnews : ((splitNewsOf g.nextId g.sourceToSinks).filter
            (fun e => e.src == K.1.id && dget e.data "source" == K.2)).length = 0 := by
          rw [splitNewsOf_filter_src_nil K.1.id K.2 g.sourceToSinks g.nextId hklt]
          · rfl
          · intro kv hkv htrig h1
            have hk1 : kv.1 = K := huniqK kv hkv h1.1 h1.2
            have hv : kv.2 = sinks := by
              apply sourceToSinks_val_eq g K
              · rw [← hk1]
                rcases hkv3 : kv with ⟨a, b⟩
                rw [hkv3] at hkv
                exact hkv
              · exact hmem
            rw [hv] at htrig
            rw [htr] at htrig
            exact absurd htrig (by simp)
        omega
    · have hsur : ((g.edges.filter (fun e => !splitDelAll g.sourceToSinks e)).filter
          (fun e => e.src == srcId && dget e.data "source" == ep)).length = 0 := by
        have hnil : ((g.edges.filter (fun e => !splitDelAll g.sourceToSinks e)).filter
            (fun e => e.src == srcId && dget e.data "source" == ep)) = [] := by
          rw [List.filter_eq_nil_iff]
          intro e he hp
          rcases List.mem_filter.mp he with ⟨he1, _⟩
          rw [Bool.and_eq_true] at hp
          have h1 : e.src = srcId := beq_iff_eq.mp hp.1
          have h2 : dget e.data "source" = ep := beq_iff_eq.mp hp.2
          rcases edge_source_entry g hwf e he1 with ⟨hent, _⟩
          apply hex
          refine ⟨_, hent, ?_, h2⟩
          show (g.nodeOf e.src).id = srcId
          rw [(wf_src_present g hwf e he1).2, h1]
        rw [hnil]
        rfl
      have hnews : ((splitNewsOf g.nextId g.sourceToSinks).filter
          (fun e => e.src == srcId && dget e.data "source" == ep)).length = 0 := by
        rw [splitNewsOf_filter_src_nil srcId ep g.sourceToSinks g.nextId hlo]
        · rfl
        · intro kv hkv _ h1
          exact hex ⟨kv, hkv, h1.1, h1.2⟩
      omega

/-!
## Splitter half: sink-endpoint counts are preserved

The splitter rewrite deletes each rerouted edge and recreates exactly one
edge with the same (sink node, sink endpoint) key, so per-key incoming
counts of pre-existing nodes do not change.
-/
theorem filter_map_comm {γ δ : Type} (l : List γ) (f : γ → δ) (p : δ → Bool) :
    (l.map f).filter p = (l.filter (fun x => p (f x))).map f := by
  induction l with
  | nil => rfl
  | cons x t ih =>
    rw [List.map_cons, List.filter_cons, List.filter_cons]
    cases hp : p (f x) with
    | true => rw [if_pos rfl, if_pos rfl, List.map_cons, ih]
    | false =>
      simp only [Bool.false_eq_true, if_false]
      exact ih

theorem filter_any_cons_split {γ α : Type} [DecidableEq α] (κ : γ → α) (P : γ → Bool)
    (k : α) (ks : List α) (hk : k ∉ ks) :
    ∀ l : List γ,
      (l.filter (fun x => (k :: ks).any (fun k2 => decide (κ x = k2)) && P x)).length =
        (l.filter (fun x => decide (κ x = k) && P x)).length +
          (l.filter (fun x => ks.any (fun k2 => decide (κ x = k2)) && P x)).length := by
  intro l
  induction l with
  | nil => rfl
  | cons x t ihl =>
    rw [List.filter_cons, List.filter_cons, List.filter_cons]
    by_cases hP : P x = true
    · by_cases hxk : κ x = k
      · have hks : ks.any (fun k2 => decide (κ x = k2)) = false := by
          rw [List.any_eq_false]
          intro k2 hk2
          rw [decide_eq_true_eq]
          intro hc
          exact hk (by rw [← hxk, hc]; exact hk2)
        have c1 : (decide (κ x = k) && P x) = true := by
          rw [hP, decide_eq_true hxk, Bool.true_and]
        have c2 : (ks.any (fun k2 => decide (κ x = k2)) && P x) = false := by
          rw [hks, Bool.false_and]
        have c3 : ((k :: ks).any (fun k2 => decide (κ x = k2)) && P x) = true := by
          rw [hP, List.any_cons, decide_eq_true hxk, Bool.true_or, Bool.true_and]
        rw [c1, c2, c3]
        simp only [eq_self_iff_true, if_true, Bool.false_eq_true, if_false, List.length_cons]
        omega
      · have c1 : (decide (κ x = k) && P x) = false := by
          rw [decide_eq_false hxk, Bool.false_and]
        by_cases hks : ks.any (fun k2 => decide (κ x = k2)) = true
        · have c2 : (ks.any (fun k2 => decide (κ x = k2)) && P x) = true := by
            rw [hP, hks, Bool.true_and]
          have c3 : ((k :: ks).any (fun k2 => decide (κ x = k2)) && P x) = true := by
            rw [hP, List.any_cons, hks, Bool.or_true, Bool.true_and]
          rw [c1, c2, c3]
          simp only [eq_self_iff_true, if_true, Bool.false_eq_true, if_false, List.length_cons]
          omega
        · have hksf : ks.any (fun k2 => decide (κ x = k2)) = false := by
            cases hx : ks.any (fun k2 => decide (κ x = k2)) with
            | true => exact absurd hx hks
            | false => rfl
          have c2 : (ks.any (fun k2 => decide (κ x = k2)) && P x) = false := by
            rw [hksf, Bool.false_and]
          have c3 : ((k :: ks).any (fun k2 => decide (κ x = k2)) && P x) = false := by
            rw [List.any_cons, hksf, decide_eq_false hxk, Bool.false_or, Bool.false_and]
          rw [c1, c2, c3]
          simp only [Bool.false_eq_true, if_false]
          exact ihl
    · have hPf : P x = false := by
        cases hx : P x with
        | true => exact absurd hx hP
        | false => rfl
      have c1 : (decide (κ x = k) && P x) = false := by rw [hPf, Bool.and_false]
      have c2 : (ks.any (fun k2 => decide (κ x = k2)) && P x) = false := by
        rw [hPf, Bool.and_false]
      have c3 : ((k :: ks).any (fun k2 => decide (κ x = k2)) && P x) = false := by
        rw [hPf, Bool.and_false]
      rw [c1, c2, c3]
      simp only [Bool.false_eq_true, if_false]
      exact ihl

theorem sum_fiber_lengths {γ α : Type} [DecidableEq α] (l : List γ) (κ : γ → α) (P : γ → Bool) :
    ∀ (KS : List α), KS.Nodup →
      (KS.map (fun k => (l.filter (fun x => decide (κ x = k) && P x)).length)).sum =
        (l.filter (fun x => KS.any (fun k2 => decide (κ x = k2)) && P x)).length := by
  intro KS
  induction KS with
  | nil =>
    intro _
    simp
  | cons k ks ih =>
    intro hnd
    rw [List.nodup_cons] at hnd
    rw [List.map_cons, List.sum_cons, ih hnd.2]
    rw [filter_any_cons_split κ P k ks hnd.1 l]

theorem split_enum_idkey_len (sid dstId : Nat) (ep : PyVal) :
    ∀ (L : List SinkEntry) (k : Nat),
      (((L.enumFrom k).map (splitNewEdge sid)).filter
        (fun e => e.dst == dstId && dget e.data "sink" == ep)).length =
      (L.filter (fun s => s.1.id == dstId && s.2.1 == ep)).length := by
  intro L
  induction L with
  | nil => intro k; rfl
  | cons a t ih =>
    intro k
    show (((splitNewEdge sid (k, a)) :: (t.enumFrom (k + 1)).map (splitNewEdge sid)).filter
      (fun e => e.dst == dstId && dget e.data "sink" == ep)).length =
      ((a :: t).filter (fun s => s.1.id == dstId && s.2.1 == ep)).length
    rw [List.filter_cons, List.filter_cons]
    have hc : ((splitNewEdge sid (k, a)).dst == dstId &&
        dget (splitNewEdge sid (k, a)).data "sink" == ep) =
        (a.1.id == dstId && a.2.1 == ep) := rfl
    rw [hc]
    cases hp : (a.1.id == dstId && a.2.1 == ep) with
    | true =>
      simp only [eq_self_iff_true, if_true, List.length_cons]
      rw [ih (k + 1)]
    | false =>
      simp only [Bool.false_eq_true, if_false]
      exact ih (k + 1)

theorem splitNewsOf_idkey_len (dstId : Nat) (ep : PyVal) :
    ∀ (ES : List ((ActorNode × PyVal) × List SinkEntry)) (base : Nat),
      dstId < base →
      ((splitNewsOf base ES).filter
        (fun e => e.dst == dstId && dget e.data "sink" == ep)).length =
      ((ES.filter (fun kv => needsSplit kv.2)).map
        (fun kv => (kv.2.filter (fun s => s.1.id == dstId && s.2.1 == ep)).length)).sum := by
  intro ES
  induction ES with
  | nil => intro base _; simp [splitNewsOf]
  | cons kv0 t ih =>
    intro base hlt
    rcases kv0 with ⟨k0, s0⟩
    cases h0 : needsSplit s0 with
    | false =>
      rw [splitNewsOf_cons_neg _ _ _ _ h0]
      rw [List.filter_cons,
        if_neg (show ¬((fun kv : (ActorNode × PyVal) × List SinkEntry => needsSplit kv.2) (k0, s0) =
          true) by simp [h0])]
      exact ih base hlt
    | true =>
      rw [splitNewsOf_cons_pos _ _ _ _ h0]
      rw [List.filter_cons,
        if_pos (show (fun kv : (ActorNode × PyVal) × List SinkEntry => needsSplit kv.2) (k0, s0) =
          true from h0)]
      rw [List.map_cons, List.sum_cons]
      rw [List.filter_append, List.length_append]
      have hblock : ((splitNewEdges base k0.1.id k0.2 s0).filter
          (fun e => e.dst == dstId && dget e.data "sink" == ep)).length =
          (s0.filter (fun s => s.1.id == dstId && s.2.1 == ep)).length := by
        unfold splitNewEdges
        rw [List.filter_append, List.length_append]
        have hfin : (([(⟨k0.1.id, base,
            stdData k0.2 (PyVal.str "sink") PyVal.none PyVal.none⟩ : Edge)]).filter
            (fun e => e.dst == dstId && dget e.data "sink" == ep)).length = 0 := by
          have hnil : (([(⟨k0.1.id, base,
              stdData k0.2 (PyVal.str "sink") PyVal.none PyVal.none⟩ : Edge)]).filter
              (fun e => e.dst == dstId && dget e.data "sink" == ep)) = [] := by
            rw [List.filter_eq_nil_iff]
            intro e he
            rcases List.mem_singleton.mp he with rfl
            intro hp
            rw [Bool.and_eq_true] at hp
            have : base = dstId := beq_iff_eq.mp hp.1
            omega
          rw [hnil]
          rfl
        rw [hfin, Nat.add_zero,
          show (s0.enum : List (Nat × SinkEntry)) = s0.enumFrom 0 from rfl,
          split_enum_idkey_len base dstId ep s0 0]
      rw [hblock, ih (base + 1) (Nat.lt_succ_of_lt hlt)]

theorem split_entry_idkey_count (g : DFG) (hwf : g.wf = true)
    (kv : (ActorNode × PyVal) × List SinkEntry) (hkv : kv ∈ g.sourceToSinks)
    (dstId : Nat) (ep : PyVal) :
    (kv.2.filter (fun s => s.1.id == dstId && s.2.1 == ep)).length =
    (g.edges.filter (fun e => decide (srcKeyOf g e = kv.1) &&
      (e.dst == dstId && dget e.data "sink" == ep))).length := by
  have hgrp : kv.2 =
      (g.edgesIter.filter (fun e => decide (srcKeyOf g e = kv.1))).map (sinkEntryOf g) :=
    sourceToSinks_group g kv hkv
  rw [hgrp, filter_map_comm, List.length_map, List.filter_filter]
  rw [((edgesIter_perm g hwf).filter
    (fun e => ((sinkEntryOf g e).1.id == dstId && (sinkEntryOf g e).2.1 == ep) &&
      decide (srcKeyOf g e = kv.1))).length_eq]
  congr 1
  apply List.filter_congr
  intro e he
  have hid : (g.nodeOf e.dst).id = e.dst := (wf_dst_present g hwf e he).2
  show (((g.nodeOf e.dst).id == dstId && dget e.data "sink" == ep) &&
    decide (srcKeyOf g e = kv.1)) = _
  rw [hid]
  exact Bool.and_comm _ _

theorem splitDel_eq_key_mem (g : DFG) (hwf : g.wf = true) (e : Edge) (he : e ∈ g.edges) :
    splitDelAll g.sourceToSinks e =
      ((g.sourceToSinks.filter (fun kv => needsSplit kv.2)).map Prod.fst).any
        (fun k2 => decide (srcKeyOf g e = k2)) := by
  apply bool_eq_of_iff
  rw [List.any_eq_true]
  constructor
  · intro hd
    have htr := splitDelAll_trig_own g hwf e he hd
    have hent := (edge_source_entry g hwf e he).1
    refine ⟨srcKeyOf g e, List.mem_map.mpr ⟨_, List.mem_filter.mpr ⟨hent, htr⟩, rfl⟩, ?_⟩
    simp
  · intro hm
    rcases hm with ⟨k2, hk2, hdec⟩
    rw [decide_eq_true_eq] at hdec
    rcases List.mem_map.mp hk2 with ⟨kv, hkvT, hk⟩
    rcases List.mem_filter.mp hkvT with ⟨hkv, htr⟩
    apply splitDelAll_own g hwf e he
    have hkey : srcKeyOf g e = kv.1 := by rw [hdec, ← hk]
    rw [split_own_group_eq g hwf e he kv.1 kv.2 hkv hkey]
    exact htr

/-- The splitter half leaves the incoming edge count of every pre-existing
sink endpoint key unchanged. -/
theorem splitPhase_sinkCount_lo (g : DFG) (hwf : g.wf = true) (dstId : Nat) (ep : PyVal)
    (hlo : dstId < g.nextId) :
    sinkCount (splitPhase g) dstId ep = sinkCount g dstId ep := by
  have hedges : (splitPhase g).edges =
      g.edges.filter (fun e => !splitDelAll g.sourceToSinks e) ++
        splitNewsOf g.nextId g.sourceToSinks := by
    rw [splitPhase_closed g hwf]
  unfold sinkCount
  rw [hedges, List.filter_append, List.length_append, List.filter_filter]
  rw [splitNewsOf_idkey_len dstId ep g.sourceToSinks g.nextId hlo]
  have hmapc : ((g.sourceToSinks.filter (fun kv => needsSplit kv.2)).map
      (fun kv => (kv.2.filter (fun s => s.1.id == dstId && s.2.1 == ep)).length)).sum =
      ((g.sourceToSinks.filter (fun kv => needsSplit kv.2)).map
      (fun kv => (g.edges.filter (fun e => decide (srcKeyOf g e = kv.1) &&
        (e.dst == dstId && dget e.data "sink" == ep))).length)).sum := by
    congr 1
    apply List.map_congr_left
    intro kv hkv
    exact split_entry_idkey_count g hwf kv (List.mem_of_mem_filter hkv) dstId ep
  rw [hmapc]
  have hksnd : (((g.sourceToSinks.filter (fun kv => needsSplit kv.2)).map Prod.fst)).Nodup :=
    ((List.filter_sublist g.sourceToSinks).map Prod.fst).nodup (sourceToSinks_keys_nodup g)
  have hsum := sum_fiber_lengths g.edges (srcKeyOf g)
    (fun e => e.dst == dstId && dget e.data "sink" == ep)
    ((g.sourceToSinks.filter (fun kv => needsSplit kv.2)).map Prod.fst) hksnd
  simp only [] at hsum
  rw [List.map_map] at hsum
  have hfe : ((g.sourceToSinks.filter (fun kv => needsSplit kv.2)).map
      (fun kv => (g.edges.filter (fun e => decide (srcKeyOf g e = kv.1) &&
        (e.dst == dstId && dget e.data "sink" == ep))).length)) =
      ((g.sourceToSinks.filter (fun kv => needsSplit kv.2)).map
      ((fun k => (g.edges.filter (fun x => decide (srcKeyOf g x = k) &&
        (x.dst == dstId && dget x.data "sink" == ep))).length) ∘ Prod.fst)) :=
    List.map_congr_left (fun kv _ => rfl)
  rw [hfe, hsum]
  have hdelc : (g.edges.filter (fun e =>
      (((g.sourceToSinks.filter (fun kv => needsSplit kv.2)).map Prod.fst).any
        (fun k2 => decide (srcKeyOf g e = k2))) &&
      (e.dst == dstId && dget e.data "sink" == ep))) =
      (g.edges.filter (fun e => (e.dst == dstId && dget e.data "sink" == ep) &&
        splitDelAll g.sourceToSinks e)) := by
    apply List.filter_congr
    intro e he
    rw [← splitDel_eq_key_mem g hwf e he]
    exact Bool.and_comm _ _
  rw [hdelc]
  have hsplit := length_filter_split g.edges
    (fun e => e.dst == dstId && dget e.data "sink" == ep)
    (fun e => splitDelAll g.sourceToSinks e)
  have hcong2 : (g.edges.filter (fun e => (e.dst == dstId && dget e.data "sink" == ep) &&
      !splitDelAll g.sourceToSinks e)).length =
      (g.edges.filter (fun e => (e.dst == dstId && dget e.data "sink" == ep) &&
        !(fun e => splitDelAll g.sourceToSinks e) e)).length := rfl
  omega

theorem sourceToSinks_entry_lt (g : DFG) (hwf : g.wf = true) :
    ∀ kv ∈ g.sourceToSinks, ∀ s ∈ kv.2, s.1.id < g.nextId := by
  intro kv hkv s hs
  have hgrp : kv.2 =
      (g.edgesIter.filter (fun e => decide (srcKeyOf g e = kv.1))).map (sinkEntryOf g) :=
    sourceToSinks_group g kv hkv
  rw [hgrp] at hs
  rcases List.mem_map.mp hs with ⟨e2, he2, rfl⟩
  have he3 : e2 ∈ g.edges := (mem_edgesIter g hwf e2).mp (List.mem_of_mem_filter he2)
  exact (wf_parts g hwf).2.1 _ (wf_dst_present g hwf e2 he3).1

theorem sinkToSources_entry_lt (g : DFG) (hwf : g.wf = true) :
    ∀ kv ∈ g.sinkToSources, ∀ s ∈ kv.2, s.1.id < g.nextId := by
  intro kv hkv s hs
  have hgrp : kv.2 =
      (g.edgesIter.filter (fun e => decide (sinkKeyOf g e = kv.1))).map (srcEntryOf g) :=
    sinkToSources_group g kv hkv
  rw [hgrp] at hs
  rcases List.mem_map.mp hs with ⟨e2, he2, rfl⟩
  have he3 : e2 ∈ g.edges := (mem_edgesIter g hwf e2).mp (List.mem_of_mem_filter he2)
  exact (wf_parts g hwf).2.1 _ (wf_src_present g hwf e2 he3).1

theorem splitNewsOf_filter_dst_lo_nil (dstId : Nat) (ep : PyVal) :
    ∀ (ES : List ((ActorNode × PyVal) × List SinkEntry)) (base : Nat),
      dstId < base → (∀ kv ∈ ES, ∀ s ∈ kv.2, s.1.id ≠ dstId) →
      (splitNewsOf base ES).filter
        (fun e => e.dst == dstId && dget e.data "sink" == ep) = [] := by
  intro ES
  induction ES with
  | nil => intro base _ _; simp [splitNewsOf]
  | cons kv0 t ih =>
    intro base hlt hno
    rcases kv0 with ⟨k0, s0⟩
    cases h0 : needsSplit s0 with
    | false =>
      rw [splitNewsOf_cons_neg _ _ _ _ h0]
      exact ih base hlt (fun kv hkv => hno kv (List.mem_cons_of_mem _ hkv))
    | true =>
      rw [splitNewsOf_cons_pos _ _ _ _ h0, List.filter_append]
      have hA : (splitNewEdges base k0.1.id k0.2 s0).filter
          (fun e => e.dst == dstId && dget e.data "sink" == ep) = [] := by
        rw [List.filter_eq_nil_iff]
        intro e he
        unfold splitNewEdges at he
        rcases List.mem_append.mp he with he2 | he2
        · rcases List.mem_map.mp he2 with ⟨ms, hms, rfl⟩
          intro hp
          rw [Bool.and_eq_true] at hp
          have h1 : ms.2.1.id = dstId := beq_iff_eq.mp hp.1
          exact hno (k0, s0) (List.mem_cons_self _ _) ms.2
            (List.snd_mem_of_mem_enumFrom hms) h1
        · rcases List.mem_singleton.mp he2 with rfl
          intro hp
          rw [Bool.and_eq_true] at hp
          have h1 : base = dstId := beq_iff_eq.mp hp.1
          omega
      rw [hA, List.nil_append]
      exact ih (base + 1) (Nat.lt_succ_of_lt hlt)
        (fun kv hkv => hno kv (List.mem_cons_of_mem _ hkv))

theorem splitNewsOf_sink_count_hi (dstId : Nat) (ep : PyVal) :
    ∀ (ES : List ((ActorNode × PyVal) × List SinkEntry)) (base : Nat),
      (∀ kv ∈ ES, ∀ s ∈ kv.2, s.1.id < base) → base ≤ dstId →
      ((splitNewsOf base ES).filter
        (fun e => e.dst == dstId && dget e.data "sink" == ep)).length ≤ 1 := by
  intro ES
  induction ES with
  | nil => intro base _ _; simp [splitNewsOf]
  | cons kv0 t ih =>
    intro base hlt hle
    rcases kv0 with ⟨k0, s0⟩
    cases h0 : needsSplit s0 with
    | false =>
      rw [splitNewsOf_cons_neg _ _ _ _ h0]
      exact ih base (fun kv hkv => hlt kv (List.mem_cons_of_mem _ hkv)) hle
    | true =>
      rw [splitNewsOf_cons_pos _ _ _ _ h0]
      unfold splitNewEdges
      rw [List.append_assoc, List.filter_append, List.length_append, List.filter_append,
        List.length_append]
      have henum : ((s0.enum.map (splitNewEdge base)).filter
          (fun e => e.dst == dstId && dget e.data "sink" == ep)).length = 0 := by
        have hnil : ((s0.enum.map (splitNewEdge base)).filter
            (fun e => e.dst == dstId && dget e.data "sink" == ep)) = [] := by
          rw [List.filter_eq_nil_iff]
          intro e he
          rcases List.mem_map.mp he with ⟨ms, hms, rfl⟩
          intro hp
          rw [Bool.and_eq_true] at hp
          have h1 : ms.2.1.id = dstId := beq_iff_eq.mp hp.1
          have h2 : ms.2.1.id < base := hlt (k0, s0) (List.mem_cons_self _ _) ms.2
            (List.snd_mem_of_mem_enumFrom hms)
          omega
        rw [hnil]
        rfl
      by_cases hb : base = dstId
      · have hfin : (([(⟨k0.1.id, base,
            stdData k0.2 (PyVal.str "sink") PyVal.none PyVal.none⟩ : Edge)]).filter
            (fun e => e.dst == dstId && dget e.data "sink" == ep)).length ≤ 1 := by
          rw [List.filter_cons]
          cases hc : ((⟨k0.1.id, base,
              stdData k0.2 (PyVal.str "sink") PyVal.none PyVal.none⟩ : Edge).dst == dstId &&
              dget (stdData k0.2 (PyVal.str "sink") PyVal.none PyVal.none) "sink" == ep) with
          | true => simp
          | false => simp
        have htail : ((splitNewsOf (base + 1) t).filter
            (fun e => e.dst == dstId && dget e.data "sink" == ep)).length = 0 := by
          rw [splitNewsOf_filter_dst_lo_nil dstId ep t (base + 1) (by omega)]
          · rfl
          · intro kv hkv s hs
            have := hlt kv (List.mem_cons_of_mem _ hkv) s hs
            omega
        omega
      · have hlt2 : base < dstId := Nat.lt_of_le_of_ne hle hb
        have hfin : (([(⟨k0.1.id, base,
            stdData k0.2 (PyVal.str "sink") PyVal.none PyVal.none⟩ : Edge)]).filter
            (fun e => e.dst == dstId && dget e.data "sink" == ep)).length = 0 := by
          have hnil : (([(⟨k0.1.id, base,
              stdData k0.2 (PyVal.str "sink") PyVal.none PyVal.none⟩ : Edge)]).filter
              (fun e => e.dst == dstId && dget e.data "sink" == ep)) = [] := by
            rw [List.filter_eq_nil_iff]
            intro e he
            rcases List.mem_singleton.mp he with rfl
            intro hp
            rw [Bool.and_eq_true] at hp
            have : base = dstId := beq_iff_eq.mp hp.1
            omega
          rw [hnil]
          rfl
        have htail := ih (base + 1)
          (fun kv hkv s hs => Nat.lt_succ_of_lt (hlt kv (List.mem_cons_of_mem _ hkv) s hs)) hlt2
        omega

/-- After the splitter half, fresh splitter node keys also see at most one
incoming edge. -/
theorem splitPhase_sinkCount_hi (g : DFG) (hwf : g.wf = true) (dstId : Nat) (ep : PyVal)
    (hhi : g.nextId ≤ dstId) :
    sinkCount (splitPhase g) dstId ep ≤ 1 := by
  have hedges : (splitPhase g).edges =
      g.edges.filter (fun e => !splitDelAll g.sourceToSinks e) ++
        splitNewsOf g.nextId g.sourceToSinks := by
    rw [splitPhase_closed g hwf]
  unfold sinkCount
  rw [hedges, List.filter_append, List.length_append]
  have hsur : ((g.edges.filter (fun e => !splitDelAll g.sourceToSinks e)).filter
      (fun e => e.dst == dstId && dget e.data "sink" == ep)).length = 0 := by
    have hnil : ((g.edges.filter (fun e => !splitDelAll g.sourceToSinks e)).filter
        (fun e => e.dst == dstId && dget e.data "sink" == ep)) = [] := by
      rw [List.filter_eq_nil_iff]
      intro e he hp
      rcases List.mem_filter.mp he with ⟨he1, _⟩
      rw [Bool.and_eq_true] at hp
      have h1 : e.dst = dstId := beq_iff_eq.mp hp.1
      rcases wf_dst_present g hwf e he1 with ⟨hm, hid⟩
      have h2 := (wf_parts g hwf).2.1 _ hm
      omega
    rw [hnil]
    rfl
  have hnews := splitNewsOf_sink_count_hi dstId ep g.sourceToSinks g.nextId
    (sourceToSinks_entry_lt g hwf) hhi
  omega

/-- After pass 1, every sink endpoint key has at most one incoming edge. -/
theorem pass1_sinkCount (g : DFG) (hwf : g.wf = true) (dstId : Nat) (ep : PyVal) :
    sinkCount (g.eliminateSubrecordsAndDivergences) dstId ep ≤ 1 := by
  unfold DFG.eliminateSubrecordsAndDivergences
  by_cases hlo : dstId < (combPhase g).nextId
  · rw [splitPhase_sinkCount_lo (combPhase g) (wf_combPhase g hwf) dstId ep hlo]
    exact combPhase_sinkCount g hwf dstId ep
  · exact splitPhase_sinkCount_hi (combPhase g) (wf_combPhase g hwf) dstId ep
      (Nat.le_of_not_lt hlo)

/-- After pass 1, every source endpoint key has at most one outgoing
edge. -/
theorem pass1_srcCount (g : DFG) (hwf : g.wf = true) (srcId : Nat) (ep : PyVal) :
    srcCount (g.eliminateSubrecordsAndDivergences) srcId ep ≤ 1 := by
  unfold DFG.eliminateSubrecordsAndDivergences
  exact splitPhase_srcCount (combPhase g) (wf_combPhase g hwf) srcId ep

/-!
## Pass 1 eliminates all subrecords
-/
theorem mem_combNewsOf_strong :
    ∀ (ES : List ((ActorNode × PyVal) × List SrcEntry)) (base : Nat) (e : Edge),
      e ∈ combNewsOf base ES →
      (∃ cid ns, base ≤ cid ∧ (∃ kv ∈ ES, needsComb kv.2 = true ∧ ns.2 ∈ kv.2) ∧
        e = combNewEdge cid ns) ∨
      (∃ cid kv, base ≤ cid ∧ kv ∈ ES ∧ needsComb kv.2 = true ∧
        e = ⟨cid, kv.1.1.id, stdData (PyVal.str "source") kv.1.2 PyVal.none PyVal.none⟩) := by
  intro ES
  induction ES with
  | nil => intro base e he; simp [combNewsOf] at he
  | cons kv0 t ih =>
    intro base e he
    rcases kv0 with ⟨k0, s0⟩
    cases h0 : needsComb s0 with
    | false =>
      rw [combNewsOf_cons_neg _ _ _ _ h0] at he
      rcases ih base e he with ⟨cid, ns, hc, ⟨kv, hkv, htr, hx⟩, he2⟩ |
        ⟨cid, kv, hc, hkv, htr, he2⟩
      · exact Or.inl ⟨cid, ns, hc, ⟨kv, List.mem_cons_of_mem _ hkv, htr, hx⟩, he2⟩
      · exact Or.inr ⟨cid, kv, hc, List.mem_cons_of_mem _ hkv, htr, he2⟩
    | true =>
      rw [combNewsOf_cons_pos _ _ _ _ h0] at he
      rcases List.mem_append.mp he with he2 | he2
      · unfold combNewEdges at he2
        rcases List.mem_append.mp he2 with he3 | he3
        · rcases List.mem_map.mp he3 with ⟨ms, hms, rfl⟩
          exact Or.inl ⟨base, ms, Nat.le_refl _,
            ⟨(k0, s0), List.mem_cons_self _ _, h0, List.snd_mem_of_mem_enumFrom hms⟩, rfl⟩
        · rcases List.mem_singleton.mp he3 with rfl
          exact Or.inr ⟨base, (k0, s0), Nat.le_refl _, List.mem_cons_self _ _, h0, rfl⟩
      · rcases ih (base + 1) e he2 with ⟨cid, ns, hc, ⟨kv, hkv, htr, hx⟩, he3⟩ |
          ⟨cid, kv, hc, hkv, htr, he3⟩
        · exact Or.inl ⟨cid, ns, Nat.le_trans (Nat.le_succ base) hc,
            ⟨kv, List.mem_cons_of_mem _ hkv, htr, hx⟩, he3⟩
        · exact Or.inr ⟨cid, kv, Nat.le_trans (Nat.le_succ base) hc,
            List.mem_cons_of_mem _ hkv, htr, he3⟩

theorem mem_splitNewsOf_strong :
    ∀ (ES : List ((ActorNode × PyVal) × List SinkEntry)) (base : Nat) (e : Edge),
      e ∈ splitNewsOf base ES →
      (∃ sid ns, base ≤ sid ∧ (∃ kv ∈ ES, needsSplit kv.2 = true ∧ ns.2 ∈ kv.2) ∧
        e = splitNewEdge sid ns) ∨
      (∃ sid kv, base ≤ sid ∧ kv ∈ ES ∧ needsSplit kv.2 = true ∧
        e = ⟨kv.1.1.id, sid, stdData kv.1.2 (PyVal.str "sink") PyVal.none PyVal.none⟩) := by
  intro ES
  induction ES with
  | nil => intro base e he; simp [splitNewsOf] at he
  | cons kv0 t ih =>
    intro base e he
    rcases kv0 with ⟨k0, s0⟩
    cases h0 : needsSplit s0 with
    | false =>
      rw [splitNewsOf_cons_neg _ _ _ _ h0] at he
      rcases ih base e he with ⟨sid, ns, hc, ⟨kv, hkv, htr, hx⟩, he2⟩ |
        ⟨sid, kv, hc, hkv, htr, he2⟩
      · exact Or.inl ⟨sid, ns, hc, ⟨kv, List.mem_cons_of_mem _ hkv, htr, hx⟩, he2⟩
      · exact Or.inr ⟨sid, kv, hc, List.mem_cons_of_mem _ hkv, htr, he2⟩
    | true =>
      rw [splitNewsOf_cons_pos _ _ _ _ h0] at he
      rcases List.mem_append.mp he with he2 | he2
      · unfold splitNewEdges at he2
        rcases List.mem_append.mp he2 with he3 | he3
        · rcases List.mem_map.mp he3 with ⟨ms, hms, rfl⟩
          exact Or.inl ⟨base, ms, Nat.le_refl _,
            ⟨(k0, s0), List.mem_cons_self _ _, h0, List.snd_mem_of_mem_enumFrom hms⟩, rfl⟩
        · rcases List.mem_singleton.mp he3 with rfl
          exact Or.inr ⟨base, (k0, s0), Nat.le_refl _, List.mem_cons_self _ _, h0, rfl⟩
      · rcases ih (base + 1) e he2 with ⟨sid, ns, hc, ⟨kv, hkv, htr, hx⟩, he3⟩ |
          ⟨sid, kv, hc, hkv, htr, he3⟩
        · exact Or.inl ⟨sid, ns, Nat.le_trans (Nat.le_succ base) hc,
            ⟨kv, List.mem_cons_of_mem _ hkv, htr, hx⟩, he3⟩
        · exact Or.inr ⟨sid, kv, Nat.le_trans (Nat.le_succ base) hc,
            List.mem_cons_of_mem _ hkv, htr, he3⟩

/-- The combinator half eliminates all sink-side subrecords. -/
theorem combPhase_no_sink_subr (g : DFG) (hwf : g.wf = true) :
    ∀ e ∈ (combPhase g).edges, dget e.data "sink_subr" = PyVal.none := by
  have hedges : (combPhase g).edges =
      g.edges.filter (fun e => !combDelAll g.sinkToSources e) ++
        combNewsOf g.nextId g.sinkToSources := by
    rw [combPhase_closed g hwf]
  intro e he
  rw [hedges] at he
  rcases List.mem_append.mp he with he2 | he2
  · rcases List.mem_filter.mp he2 with ⟨he3, hnd⟩
    by_contra hne
    have hne2 : ((srcEntryOf g e).2.2.1 == PyVal.none) = false := by
      apply beq_eq_false_iff_ne.mpr
      exact hne
    rcases edge_sink_entry g hwf e he3 with ⟨hent, hself⟩
    have htr := needsComb_of_mem _ _ hself hne2
    have hdel := combDelAll_own g hwf e he3 htr
    rw [hdel] at hnd
    simp at hnd
  · rcases mem_combNewsOf_strong g.sinkToSources g.nextId e he2 with
      ⟨cid, ns, _, _, rfl⟩ | ⟨cid, kv, _, _, _, rfl⟩
    · rfl
    · rfl

/-- The splitter half eliminates all source-side subrecords and preserves
the absence of sink-side ones. -/
theorem splitPhase_no_subr (g : DFG) (hwf : g.wf = true)
    (hprev : ∀ e ∈ g.edges, dget e.data "sink_subr" = PyVal.none) :
    ∀ e ∈ (splitPhase g).edges,
      dget e.data "source_subr" = PyVal.none ∧ dget e.data "sink_subr" = PyVal.none := by
  have hedges : (splitPhase g).edges =
      g.edges.filter (fun e => !splitDelAll g.sourceToSinks e) ++
        splitNewsOf g.nextId g.sourceToSinks := by
    rw [splitPhase_closed g hwf]
  intro e he
  rw [hedges] at he
  rcases List.mem_append.mp he with he2 | he2
  · rcases List.mem_filter.mp he2 with ⟨he3, hnd⟩
    refine ⟨?_, hprev e he3⟩
    by_contra hne
    have hne2 : ((sinkEntryOf g e).2.2.1 == PyVal.none) = false := by
      apply beq_eq_false_iff_ne.mpr
      exact hne
    rcases edge_source_entry g hwf e he3 with ⟨hent, hself⟩
    have htr := needsSplit_of_mem _ _ hself hne2
    have hdel := splitDelAll_own g hwf e he3 htr
    rw [hdel] at hnd
    simp at hnd
  · rcases mem_splitNewsOf_strong g.sourceToSinks g.nextId e he2 with
      ⟨sid, ns, _, _, rfl⟩ | ⟨sid, kv, _, _, _, rfl⟩
    · exact ⟨rfl, rfl⟩
    · exact ⟨rfl, rfl⟩

/-- Pass 1 eliminates all subrecord projections. -/
theorem pass1_no_subr (g : DFG) (hwf : g.wf = true) :
    ∀ e ∈ (g.eliminateSubrecordsAndDivergences).edges,
      dget e.data "source_subr" = PyVal.none ∧ dget e.data "sink_subr" = PyVal.none := by
  unfold DFG.eliminateSubrecordsAndDivergences
  exact splitPhase_no_subr (combPhase g) (wf_combPhase g hwf)
    (combPhase_no_sink_subr g hwf)

/-!
## Pass 1 preserves the no-mixed-endpoints side condition
-/

/-- The combinator half: every post-half edge's source side is either a
fresh plumbing node with an explicit string endpoint, or inherits the
source id and endpoint value of a pre-half edge. -/
theorem combPhase_src_prov (g : DFG) (hwf : g.wf = true) :
    ∀ e ∈ (combPhase g).edges,
      (g.nextId ≤ e.src ∧ ∃ s, dget e.data "source" = PyVal.str s) ∨
      (∃ e2 ∈ g.edges, e2.src = e.src ∧ dget e2.data "source" = dget e.data "source") := by
  have hedges : (combPhase g).edges =
      g.edges.filter (fun e => !combDelAll g.sinkToSources e) ++
        combNewsOf g.nextId g.sinkToSources := by
    rw [combPhase_closed g hwf]
  intro e he
  rw [hedges] at he
  rcases List.mem_append.mp he with he2 | he2
  · exact Or.inr ⟨e, List.mem_of_mem_filter he2, rfl, rfl⟩
  · rcases mem_combNewsOf_strong g.sinkToSources g.nextId e he2 with
      ⟨cid, ns, hc, ⟨kv, hkv, _, hx⟩, rfl⟩ | ⟨cid, kv, hc, _, _, rfl⟩
    · right
      have hgrp : kv.2 =
          (g.edgesIter.filter (fun e3 => decide (sinkKeyOf g e3 = kv.1))).map (srcEntryOf g) :=
        sinkToSources_group g kv hkv
      rw [hgrp] at hx
      rcases List.mem_map.mp hx with ⟨e2, he3, hent⟩
      have he4 : e2 ∈ g.edges := (mem_edgesIter g hwf e2).mp (List.mem_of_mem_filter he3)
      refine ⟨e2, he4, ?_, ?_⟩
      · show e2.src = ns.2.1.id
        rw [← hent]
        exact ((wf_src_present g hwf e2 he4).2).symm
      · show dget e2.data "source" = dget (combNewEdge cid ns).data "source"
        have : dget (combNewEdge cid ns).data "source" = ns.2.2.1 := rfl
        rw [this, ← hent]
        rfl
    · exact Or.inl ⟨hc, "source", rfl⟩

theorem combPhase_sink_prov (g : DFG) (hwf : g.wf = true) :
    ∀ e ∈ (combPhase g).edges,
      (g.nextId ≤ e.dst ∧ ∃ s, dget e.data "sink" = PyVal.str s) ∨
      (∃ e2 ∈ g.edges, e2.dst = e.dst ∧ dget e2.data "sink" = dget e.data "sink") := by
  have hedges : (combPhase g).edges =
      g.edges.filter (fun e => !combDelAll g.sinkToSources e) ++
        combNewsOf g.nextId g.sinkToSources := by
    rw [combPhase_closed g hwf]
  intro e he
  rw [hedges] at he
  rcases List.mem_append.mp he with he2 | he2
  · exact Or.inr ⟨e, List.mem_of_mem_filter he2, rfl, rfl⟩
  · rcases mem_combNewsOf_strong g.sinkToSources g.nextId e he2 with
      ⟨cid, ns, hc, _, rfl⟩ | ⟨cid, kv, hc, hkv, _, rfl⟩
    · exact Or.inl ⟨hc, "sink" ++ toString ns.1, rfl⟩
    · right
      rcases sinkToSources_key_edge g kv hkv with ⟨e0, he0, hke⟩
      have he02 : e0 ∈ g.edges := (mem_edgesIter g hwf e0).mp he0
      refine ⟨e0, he02, ?_, ?_⟩
      · show e0.dst = kv.1.1.id
        rw [← hke]
        exact ((wf_dst_present g hwf e0 he02).2).symm
      · show dget e0.data "sink" = kv.1.2
        rw [← hke]
        rfl

theorem splitPhase_src_prov (g : DFG) (hwf : g.wf = true) :
    ∀ e ∈ (splitPhase g).edges,
      (g.nextId ≤ e.src ∧ ∃ s, dget e.data "source" = PyVal.str s) ∨
      (∃ e2 ∈ g.edges, e2.src = e.src ∧ dget e2.data "source" = dget e.data "source") := by
  have hedges : (splitPhase g).edges =
      g.edges.filter (fun e => !splitDelAll g.sourceToSinks e) ++
        splitNewsOf g.nextId g.sourceToSinks := by
    rw [splitPhase_closed g hwf]
  intro e he
  rw [hedges] at he
  rcases List.mem_append.mp he with he2 | he2
  · exact Or.inr ⟨e, List.mem_of_mem_filter he2, rfl, rfl⟩
  · rcases mem_splitNewsOf_strong g.sourceToSinks g.nextId e he2 with
      ⟨sid, ns, hc, _, rfl⟩ | ⟨sid, kv, hc, hkv, _, rfl⟩
    · exact Or.inl ⟨hc, "source" ++ toString ns.1, rfl⟩
    · right
      rcases sourceToSinks_key_edge g kv hkv with ⟨e0, he0, hke⟩
      have he02 : e0 ∈ g.edges := (mem_edgesIter g hwf e0).mp he0
      refine ⟨e0, he02, ?_, ?_⟩
      · show e0.src = kv.1.1.id
        rw [← hke]
        exact ((wf_src_present g hwf e0 he02).2).symm
      · show dget e0.data "source" = kv.1.2
        rw [← hke]
        rfl

theorem splitPhase_sink_prov (g : DFG) (hwf : g.wf = true) :
    ∀ e ∈ (splitPhase g).edges,
      (g.nextId ≤ e.dst ∧ ∃ s, dget e.data "sink" = PyVal.str s) ∨
      (∃ e2 ∈ g.edges, e2.dst = e.dst ∧ dget e2.data "sink" = dget e.data "sink") := by
  have hedges : (splitPhase g).edges =
      g.edges.filter (fun e => !splitDelAll g.sourceToSinks e) ++
        splitNewsOf g.nextId g.sourceToSinks := by
    rw [splitPhase_closed g hwf]
  intro e he
  rw [hedges] at he
  rcases List.mem_append.mp he with he2 | he2
  · exact Or.inr ⟨e, List.mem_of_mem_filter he2, rfl, rfl⟩
  · rcases mem_splitNewsOf_strong g.sourceToSinks g.nextId e he2 with
      ⟨sid, ns, hc, ⟨kv, hkv, _, hx⟩, rfl⟩ | ⟨sid, kv, hc, _, _, rfl⟩
    · right
      have hgrp : kv.2 =
          (g.edgesIter.filter (fun e3 => decide (srcKeyOf g e3 = kv.1))).map (sinkEntryOf g) :=
        sourceToSinks_group g kv hkv
      rw [hgrp] at hx
      rcases List.mem_map.mp hx with ⟨e2, he3, hent⟩
      have he4 : e2 ∈ g.edges := (mem_edgesIter g hwf e2).mp (List.mem_of_mem_filter he3)
      refine ⟨e2, he4, ?_, ?_⟩
      · show e2.dst = ns.2.1.id
        rw [← hent]
        exact ((wf_dst_present g hwf e2 he4).2).symm
      · show dget e2.data "sink" = dget (splitNewEdge sid ns).data "sink"
        have : dget (splitNewEdge sid ns).data "sink" = ns.2.2.1 := rfl
        rw [this, ← hent]
        rfl
    · exact Or.inl ⟨hc, "sink", rfl⟩

/-- Transfer of the no-mixed-endpoints condition across one rewrite phase
given endpoint provenance: fresh nodes only carry explicitly named string
endpoints, and original nodes only carry endpoint values already present
before the phase. -/
theorem noMixed_phase (g g2 : DFG) (hwf : g.wf = true)
    (hnodes : ∀ u ∈ g2.nodes, u ∈ g.nodes ∨ g.nextId ≤ u.id)
    (hsrc : ∀ e ∈ g2.edges,
      (g.nextId ≤ e.src ∧ ∃ s, dget e.data "source" = PyVal.str s) ∨
      (∃ e2 ∈ g.edges, e2.src = e.src ∧ dget e2.data "source" = dget e.data "source"))
    (hsink : ∀ e ∈ g2.edges,
      (g.nextId ≤ e.dst ∧ ∃ s, dget e.data "sink" = PyVal.str s) ∨
      (∃ e2 ∈ g.edges, e2.dst = e.dst ∧ dget e2.data "sink" = dget e.data "sink"))
    (hnm : g.noMixedEndpoints = true) : g2.noMixedEndpoints = true := by
  unfold DFG.noMixedEndpoints at hnm ⊢
  rw [List.all_eq_true] at hnm ⊢
  intro u hu
  rw [Bool.and_eq_true]
  constructor
  · cases hN : (g2.edges.any (fun e => e.src == u.id && dget e.data "source" == PyVal.none)) with
    | false =>
      rw [Bool.false_and]
      rfl
    | true =>
      cases hS : (g2.edges.any
          (fun e => e.src == u.id && !(dget e.data "source" == PyVal.none))) with
      | false => rfl
      | true =>
        exfalso
        rw [List.any_eq_true] at hN hS
        rcases hN with ⟨e, he, hpe⟩
        rcases hS with ⟨f, hf, hpf⟩
        rw [Bool.and_eq_true] at hpe hpf
        have heu : e.src = u.id := beq_iff_eq.mp hpe.1
        have hfu : f.src = u.id := beq_iff_eq.mp hpf.1
        have hev : dget e.data "source" = PyVal.none := beq_iff_eq.mp hpe.2
        rcases hsrc e he with ⟨hge, s, hstr⟩ | ⟨e2, he2, hseq, hveq⟩
        · rw [hstr] at hev
          exact absurd hev (by simp)
        · rcases hsrc f hf with ⟨hgf, s2, hstr2⟩ | ⟨f2, hf2, hseq2, hveq2⟩
          · -- f at a fresh id, so u is fresh; but e sits at u with a pre-image edge
            -- whose source id is a pre-phase node id: contradiction with freshness
            have hfu2 : g.nextId ≤ u.id := by rw [← hfu]; exact hgf
            have he2id : e2.src < g.nextId := by
              rcases wf_src_present g hwf e2 he2 with ⟨hm, hid⟩
              have := (wf_parts g hwf).2.1 _ hm
              omega
            omega
          · have hu2 : u ∈ g.nodes ∨ g.nextId ≤ u.id := hnodes u hu
            rcases hu2 with hum | hresh
            · have hpre := hnm u hum
              rw [Bool.and_eq_true] at hpre
              have hpre1 := hpre.1
              have hN2 : (g.edges.any
                  (fun x => x.src == u.id && dget x.data "source" == PyVal.none)) = true := by
                rw [List.any_eq_true]
                refine ⟨e2, he2, ?_⟩
                rw [Bool.and_eq_true]
                constructor
                · rw [beq_iff_eq, hseq, heu]
                · rw [beq_iff_eq, hveq, hev]
              have hS2 : (g.edges.any
                  (fun x => x.src == u.id && !(dget x.data "source" == PyVal.none))) = true := by
                rw [List.any_eq_true]
                refine ⟨f2, hf2, ?_⟩
                rw [Bool.and_eq_true]
                constructor
                · rw [beq_iff_eq, hseq2, hfu]
                · rw [hveq2]
                  exact hpf.2
              rw [hN2, hS2] at hpre1
              exact absurd hpre1 (by simp)
            · have he2id : e2.src < g.nextId := by
                rcases wf_src_present g hwf e2 he2 with ⟨hm, hid⟩
                have := (wf_parts g hwf).2.1 _ hm
                omega
              rw [hseq, heu] at he2id
              omega
  · cases hN : (g2.edges.any (fun e => e.dst == u.id && dget e.data "sink" == PyVal.none)) with
    | false =>
      rw [Bool.false_and]
      rfl
    | true =>
      cases hS : (g2.edges.any
          (fun e => e.dst == u.id && !(dget e.data "sink" == PyVal.none))) with
      | false => rfl
      | true =>
        exfalso
        rw [List.any_eq_true] at hN hS
        rcases hN with ⟨e, he, hpe⟩
        rcases hS with ⟨f, hf, hpf⟩
        rw [Bool.and_eq_true] at hpe hpf
        have heu : e.dst = u.id := beq_iff_eq.mp hpe.1
        have hfu : f.dst = u.id := beq_iff_eq.mp hpf.1
        have hev : dget e.data "sink" = PyVal.none := beq_iff_eq.mp hpe.2
        rcases hsink e he with ⟨hge, s, hstr⟩ | ⟨e2, he2, hseq, hveq⟩
        · rw [hstr] at hev
          exact absurd hev (by simp)
        · rcases hsink f hf with ⟨hgf, s2, hstr2⟩ | ⟨f2, hf2, hseq2, hveq2⟩
          · have hfu2 : g.nextId ≤ u.id := by rw [← hfu]; exact hgf
            have he2id : e2.dst < g.nextId := by
              rcases wf_dst_present g hwf e2 he2 with ⟨hm, hid⟩
              have := (wf_parts g hwf).2.1 _ hm
              omega
            omega
          · have hu2 : u ∈ g.nodes ∨ g.nextId ≤ u.id := hnodes u hu
            rcases hu2 with hum | hresh
            · have hpre := hnm u hum
              rw [Bool.and_eq_true] at hpre
              have hpre2 := hpre.2
              have hN2 : (g.edges.any
                  (fun x => x.dst == u.id && dget x.data "sink" == PyVal.none)) = true := by
                rw [List.any_eq_true]
                refine ⟨e2, he2, ?_⟩
                rw [Bool.and_eq_true]
                constructor
                · rw [beq_iff_eq, hseq, heu]
                · rw [beq_iff_eq, hveq, hev]
              have hS2 : (g.edges.any
                  (fun x => x.dst == u.id && !(dget x.data "sink" == PyVal.none))) = true := by
                rw [List.any_eq_true]
                refine ⟨f2, hf2, ?_⟩
                rw [Bool.and_eq_true]
                constructor
                · rw [beq_iff_eq, hseq2, hfu]
                · rw [hveq2]
                  exact hpf.2
              rw [hN2, hS2] at hpre2
              exact absurd hpre2 (by simp)
            · have he2id : e2.dst < g.nextId := by
                rcases wf_dst_present g hwf e2 he2 with ⟨hm, hid⟩
                have := (wf_parts g hwf).2.1 _ hm
                omega
              rw [hseq, heu] at he2id
              omega

/-- Pass 1 preserves the no-mixed-endpoints side condition. -/
theorem pass1_noMixed (g : DFG) (hwf : g.wf = true)
    (hnm : g.noMixedEndpoints = true) :
    (g.eliminateSubrecordsAndDivergences).noMixedEndpoints = true := by
  unfold DFG.eliminateSubrecordsAndDivergences
  have h1 : (combPhase g).noMixedEndpoints = true := by
    apply noMixed_phase g (combPhase g) hwf ?_ (combPhase_src_prov g hwf)
      (combPhase_sink_prov g hwf) hnm
    intro u hu
    have hn : (combPhase g).nodes = g.nodes ++ combsOf g.nextId g.sinkToSources := by
      rw [combPhase_closed g hwf]
    rw [hn] at hu
    rcases List.mem_append.mp hu with h | h
    · exact Or.inl h
    · exact Or.inr (combsOf_ids g.sinkToSources g.nextId u h).1
  apply noMixed_phase (combPhase g) (splitPhase (combPhase g)) (wf_combPhase g hwf) ?_
    (splitPhase_src_prov (combPhase g) (wf_combPhase g hwf))
    (splitPhase_sink_prov (combPhase g) (wf_combPhase g hwf)) h1
  intro u hu
  have hn : (splitPhase (combPhase g)).nodes =
      (combPhase g).nodes ++ splitsOf (combPhase g).nextId (combPhase g).sourceToSinks := by
    rw [splitPhase_closed (combPhase g) (wf_combPhase g hwf)]
  rw [hn] at hu
  rcases List.mem_append.mp hu with h | h
  · exact Or.inl h
  · exact Or.inr (splitsOf_ids (combPhase g).sourceToSinks (combPhase g).nextId u h).1

/-!
## Pass 3 structural lemmas
-/
theorem instantiate_concrete (n a2 : ActorNode) (h : n.instantiate = Option.some a2) :
    ∃ act, a2.st = NodeSt.concrete act := by
  unfold ActorNode.instantiate at h
  rcases hst : n.st with ⟨cls, p⟩ | act
  · rw [hst] at h
    cases cls with
    | user u =>
      simp only [] at h
      rcases Option.some.inj h with rfl
      exact ⟨_, rfl⟩
    | combinator =>
      simp only [] at h
      cases hl : p.layout with
      | none => rw [hl] at h; exact absurd h (by simp)
      | some l =>
        rw [hl] at h
        simp only [] at h
        rcases Option.some.inj h with rfl
        exact ⟨_, rfl⟩
    | splitter =>
      simp only [] at h
      cases hl : p.layout with
      | none => rw [hl] at h; exact absurd h (by simp)
      | some l =>
        rw [hl] at h
        simp only [] at h
        rcases Option.some.inj h with rfl
        exact ⟨_, rfl⟩
  · rw [hst] at h
    exact absurd h (by simp)

theorem inferStep_edges (g : DFG) (aId : Nat) : (inferStep g aId).1.edges = g.edges := by
  unfold inferStep
  dsimp only
  repeat' split
  all_goals rfl

theorem inferStep_nextId (g : DFG) (aId : Nat) : (inferStep g aId).1.nextId = g.nextId := by
  unfold inferStep
  dsimp only
  repeat' split
  all_goals rfl

theorem setNode_ids (g : DFG) (n : ActorNode) :
    (g.setNode n).nodes.map (fun m => m.id) = g.nodes.map (fun m => m.id) := by
  show (g.nodes.map _).map _ = _
  rw [List.map_map]
  apply List.map_congr_left
  intro m _
  show (if m.id == n.id then n else m).id = m.id
  by_cases h : (m.id == n.id) = true
  · rw [if_pos h]
    exact (beq_iff_eq.mp h).symm
  · rw [if_neg h]

theorem setNode_mem (g : DFG) (n : ActorNode) :
    ∀ m2 ∈ (g.setNode n).nodes, m2 = n ∨ m2 ∈ g.nodes := by
  intro m2 hm2
  rcases List.mem_map.mp hm2 with ⟨m, hm, rfl⟩
  by_cases h : (m.id == n.id) = true
  · left
    show (if m.id == n.id then n else m) = n
    rw [if_pos h]
  · right
    show (if m.id == n.id then n else m) ∈ g.nodes
    rw [if_neg h]
    exact hm

theorem inferStep_shape (g : DFG) (aId : Nat) :
    (inferStep g aId).1 = g ∨
    ∃ a2 act, a2.st = NodeSt.concrete act ∧ (inferStep g aId).1 = g.setNode a2 := by
  unfold inferStep
  dsimp only
  repeat' split
  all_goals try exact Or.inl rfl
  all_goals
    rename_i a2 heq
  all_goals
    rcases instantiate_concrete _ a2 heq with ⟨act, hact⟩
  all_goals
    exact Or.inr ⟨a2, act, hact, rfl⟩

theorem inferStep_ids (g : DFG) (aId : Nat) :
    (inferStep g aId).1.nodes.map (fun m => m.id) = g.nodes.map (fun m => m.id) := by
  rcases inferStep_shape g aId with h | ⟨a2, act, _, h⟩
  · rw [h]
  · rw [h, setNode_ids]

theorem inferStep_absPlumb (g : DFG) (aId : Nat)
    (h : ∀ n ∈ g.nodes, n.is_abstract = true →
      ∃ cls p, n.st = NodeSt.deferred cls p ∧ cls.isPlumbing = true) :
    ∀ n ∈ (inferStep g aId).1.nodes, n.is_abstract = true →
      ∃ cls p, n.st = NodeSt.deferred cls p ∧ cls.isPlumbing = true := by
  rcases inferStep_shape g aId with hs | ⟨a2, act, hact, hs⟩
  · rw [hs]
    exact h
  · rw [hs]
    intro n hn habs
    rcases setNode_mem g a2 n hn with rfl | hn2
    · unfold ActorNode.is_abstract at habs
      rw [hact] at habs
      exact absurd habs (by simp)
    · exact h n hn2 habs

theorem inferSweep_edges (g : DFG) (l : List Nat) : (inferSweep g l).1.edges = g.edges := by
  induction l generalizing g with
  | nil => rfl
  | cons a t ih =>
    show (inferSweep g (a :: t)).1.edges = g.edges
    unfold inferSweep
    rcases h : inferStep g a with ⟨g2, f⟩
    have hg2 : g2.edges = g.edges := by
      have := inferStep_edges g a
      rw [h] at this
      exact this
    cases f with
    | none => simpa [hg2] using ih g2
    | some fv => simpa using hg2

theorem inferSweep_nextId (g : DFG) (l : List Nat) : (inferSweep g l).1.nextId = g.nextId := by
  induction l generalizing g with
  | nil => rfl
  | cons a t ih =>
    show (inferSweep g (a :: t)).1.nextId = g.nextId
    unfold inferSweep
    rcases h : inferStep g a with ⟨g2, f⟩
    have hg2 : g2.nextId = g.nextId := by
      have := inferStep_nextId g a
      rw [h] at this
      exact this
    cases f with
    | none => simpa [hg2] using ih g2
    | some fv => simpa using hg2

theorem inferSweep_ids (g : DFG) (l : List Nat) :
    (inferSweep g l).1.nodes.map (fun m => m.id) = g.nodes.map (fun m => m.id) := by
  induction l generalizing g with
  | nil => rfl
  | cons a t ih =>
    show (inferSweep g (a :: t)).1.nodes.map (fun m => m.id) = _
    unfold inferSweep
    rcases h : inferStep g a with ⟨g2, f⟩
    have hg2 : g2.nodes.map (fun m => m.id) = g.nodes.map (fun m => m.id) := by
      have := inferStep_ids g a
      rw [h] at this
      exact this
    cases f with
    | none => simpa [hg2] using ih g2
    | some fv => simpa using hg2

theorem inferSweep_absPlumb (g : DFG) (l : List Nat)
    (h : ∀ n ∈ g.nodes, n.is_abstract = true →
      ∃ cls p, n.st = NodeSt.deferred cls p ∧ cls.isPlumbing = true) :
    ∀ n ∈ (inferSweep g l).1.nodes, n.is_abstract = true →
      ∃ cls p, n.st = NodeSt.deferred cls p ∧ cls.isPlumbing = true := by
  induction l generalizing g with
  | nil => exact h
  | cons a t ih =>
    show ∀ n ∈ (inferSweep g (a :: t)).1.nodes, _
    unfold inferSweep
    rcases hstep : inferStep g a with ⟨g2, f⟩
    have hg2 : ∀ n ∈ g2.nodes, n.is_abstract = true →
        ∃ cls p, n.st = NodeSt.deferred cls p ∧ cls.isPlumbing = true := by
      have := inferStep_absPlumb g a h
      rw [hstep] at this
      exact this
    cases f with
    | none => simpa using ih g2 hg2
    | some fv => simpa using hg2

theorem inferPlumbing_edges (fuel : Nat) (g : DFG) :
    (inferPlumbingLayout fuel g).1.edges = g.edges := by
  induction fuel generalizing g with
  | zero => rfl
  | succ n ih =>
    show (inferPlumbingLayout (n + 1) g).1.edges = g.edges
    unfold inferPlumbingLayout
    by_cases hap : g.abstractPlumbing.isEmpty
    · simp [hap]
    · simp only [hap]
      rcases h : inferSweep g g.abstractPlumbing with ⟨g2, f⟩
      have hg2 : g2.edges = g.edges := by
        have := inferSweep_edges g g.abstractPlumbing
        rw [h] at this
        exact this
      cases f with
      | some fv => simpa using hg2
      | none =>
        by_cases hsame : g2 == g
        · simpa [hsame] using hg2
        · simp only [hsame, Bool.false_eq_true, if_false]
          rw [ih g2, hg2]

theorem inferPlumbing_nextId (fuel : Nat) (g : DFG) :
    (inferPlumbingLayout fuel g).1.nextId = g.nextId := by
  induction fuel generalizing g with
  | zero => rfl
  | succ n ih =>
    show (inferPlumbingLayout (n + 1) g).1.nextId = g.nextId
    unfold inferPlumbingLayout
    by_cases hap : g.abstractPlumbing.isEmpty
    · simp [hap]
    · simp only [hap]
      rcases h : inferSweep g g.abstractPlumbing with ⟨g2, f⟩
      have hg2 : g2.nextId = g.nextId := by
        have := inferSweep_nextId g g.abstractPlumbing
        rw [h] at this
        exact this
      cases f with
      | some fv => simpa using hg2
      | none =>
        by_cases hsame : g2 == g
        · simpa [hsame] using hg2
        · simp only [hsame, Bool.false_eq_true, if_false]
          rw [ih g2, hg2]

theorem inferPlumbing_ids (fuel : Nat) (g : DFG) :
    (inferPlumbingLayout fuel g).1.nodes.map (fun m => m.id) =
      g.nodes.map (fun m => m.id) := by
  induction fuel generalizing g with
  | zero => rfl
  | succ n ih =>
    show (inferPlumbingLayout (n + 1) g).1.nodes.map (fun m => m.id) = _
    unfold inferPlumbingLayout
    by_cases hap : g.abstractPlumbing.isEmpty
    · simp [hap]
    · simp only [hap]
      rcases h : inferSweep g g.abstractPlumbing with ⟨g2, f⟩
      have hg2 : g2.nodes.map (fun m => m.id) = g.nodes.map (fun m => m.id) := by
        have := inferSweep_ids g g.abstractPlumbing
        rw [h] at this
        exact this
      cases f with
      | some fv => simpa using hg2
      | none =>
        by_cases hsame : g2 == g
        · simpa [hsame] using hg2
        · simp only [hsame, Bool.false_eq_true, if_false]
          rw [ih g2, hg2]

theorem inferPlumbing_absPlumb (fuel : Nat) (g : DFG)
    (h : ∀ n ∈ g.nodes, n.is_abstract = true →
      ∃ cls p, n.st = NodeSt.deferred cls p ∧ cls.isPlumbing = true) :
    ∀ n ∈ (inferPlumbingLayout fuel g).1.nodes, n.is_abstract = true →
      ∃ cls p, n.st = NodeSt.deferred cls p ∧ cls.isPlumbing = true := by
  induction fuel generalizing g with
  | zero => exact h
  | succ n ih =>
    show ∀ n2 ∈ (inferPlumbingLayout (n + 1) g).1.nodes, _
    unfold inferPlumbingLayout
    by_cases hap : g.abstractPlumbing.isEmpty
    · simpa [hap] using h
    · simp only [hap]
      rcases hs : inferSweep g g.abstractPlumbing with ⟨g2, f⟩
      have hg2 : ∀ n2 ∈ g2.nodes, n2.is_abstract = true →
          ∃ cls p, n2.st = NodeSt.deferred cls p ∧ cls.isPlumbing = true := by
        have := inferSweep_absPlumb g g.abstractPlumbing h
        rw [hs] at this
        exact this
      cases f with
      | some fv => simpa using hg2
      | none =>
        by_cases hsame : g2 == g
        · simpa [hsame] using hg2
        · simp only [hsame, Bool.false_eq_true, if_false]
          exact ih g2 hg2

theorem inferPlumbing_success_empty :
    ∀ (fuel : Nat) (g g2 : DFG), inferPlumbingLayout fuel g = (g2, Option.none) →
      g2.abstractPlumbing.isEmpty = true := by
  intro fuel
  induction fuel with
  | zero =>
    intro g g2 h
    have h2 : (g, Option.some Fault.nonTermination) = (g2, Option.none) := h
    exact absurd (congrArg Prod.snd h2) (by simp)
  | succ n ih =>
    intro g g2 h
    unfold inferPlumbingLayout at h
    by_cases hap : g.abstractPlumbing.isEmpty
    · simp only [hap, if_true] at h
      have h2 : g = g2 := congrArg Prod.fst h
      rw [← h2]
      exact hap
    · simp only [hap, Bool.false_eq_true, if_false] at h
      rcases hs : inferSweep g g.abstractPlumbing with ⟨g3, f⟩
      rw [hs] at h
      cases f with
      | some fv =>
        have h2 : (g3, Option.some fv) = (g2, Option.none) := h
        exact absurd (congrArg Prod.snd h2) (by simp)
      | none =>
        simp only [] at h
        by_cases hsame : g3 == g
        · rw [if_pos hsame] at h
          exact absurd (congrArg Prod.snd h) (by simp)
        · rw [if_neg hsame] at h
          exact ih g3 g2 h

theorem wf_of_parts (g : DFG)
    (h1 : (g.nodes.map (fun n => n.id)).Nodup)
    (h2 : ∀ n ∈ g.nodes, n.id < g.nextId)
    (h3 : ∀ e ∈ g.edges, (∃ n ∈ g.nodes, n.id = e.src) ∧ (∃ n ∈ g.nodes, n.id = e.dst) ∧
      stdEdge e = true) :
    g.wf = true := by
  unfold DFG.wf
  simp only [Bool.and_eq_true, List.all_eq_true]
  refine ⟨⟨by simpa using h1, ?_⟩, ?_⟩
  · intro n hn
    simpa using h2 n hn
  · intro e he
    rcases h3 e he with ⟨⟨n1, hn1, he1⟩, ⟨n2, hn2, he2⟩, hstd⟩
    simp only [Bool.and_eq_true, List.any_eq_true]
    exact ⟨⟨⟨n1, hn1, by simpa using he1⟩, ⟨n2, hn2, by simpa using he2⟩⟩, hstd⟩

/-- Transport of well-formedness along a pass that keeps the edge list,
the id counter and the node id sequence. -/
theorem wf_ids_transport (g g2 : DFG)
    (hids : g2.nodes.map (fun n => n.id) = g.nodes.map (fun n => n.id))
    (hedges : g2.edges = g.edges) (hnext : g2.nextId = g.nextId)
    (hwf : g.wf = true) : g2.wf = true := by
  rcases wf_parts g hwf with ⟨h1, h2, h3⟩
  apply wf_of_parts
  · rw [hids]
    exact h1
  · intro n hn
    have : n.id ∈ g.nodes.map (fun m => m.id) := by
      rw [← hids]
      exact List.mem_map.mpr ⟨n, hn, rfl⟩
    rcases List.mem_map.mp this with ⟨m, hm, hme⟩
    rw [hnext, ← hme]
    exact h2 m hm
  · intro e he
    rw [hedges] at he
    rcases h3 e he with ⟨⟨n1, hn1, he1⟩, ⟨n2, hn2, he2⟩, hstd⟩
    have hmem : ∀ x : Nat, x ∈ g.nodes.map (fun m => m.id) →
        ∃ n ∈ g2.nodes, n.id = x := by
      intro x hx
      rw [← hids] at hx
      rcases List.mem_map.mp hx with ⟨m, hm, hme⟩
      exact ⟨m, hm, hme⟩
    refine ⟨?_, ?_, hstd⟩
    · exact hmem e.src (he1 ▸ List.mem_map.mpr ⟨n1, hn1, rfl⟩)
    · exact hmem e.dst (he2 ▸ List.mem_map.mpr ⟨n2, hn2, rfl⟩)

/-- Transport of the no-mixed-endpoints condition along a pass that keeps
the edge list and the node id sequence. -/
theorem noMixed_ids_transport (g g2 : DFG)
    (hids : g2.nodes.map (fun n => n.id) = g.nodes.map (fun n => n.id))
    (hedges : g2.edges = g.edges)
    (hnm : g.noMixedEndpoints = true) : g2.noMixedEndpoints = true := by
  unfold DFG.noMixedEndpoints at hnm ⊢
  rw [List.all_eq_true] at hnm ⊢
  intro u hu
  have : u.id ∈ g.nodes.map (fun m => m.id) := by
    rw [← hids]
    exact List.mem_map.mpr ⟨u, hu, rfl⟩
  rcases List.mem_map.mp this with ⟨m, hm, hme⟩
  have hpre := hnm m hm
  rw [hedges, ← hme]
  exact hpre

theorem instantiateNonPlumbing_edges (g : DFG) : (instantiateNonPlumbing g).edges = g.edges := rfl

theorem instantiateNonPlumbing_nextId (g : DFG) :
    (instantiateNonPlumbing g).nextId = g.nextId := rfl

theorem instantiateNonPlumbing_ids (g : DFG) :
    (instantiateNonPlumbing g).nodes.map (fun n => n.id) = g.nodes.map (fun n => n.id) := by
  show (g.nodes.map _).map _ = _
  rw [List.map_map]
  apply List.map_congr_left
  intro n _
  show (match n.st with
    | NodeSt.deferred cls _ =>
      if cls.isPlumbing then n
      else match n.instantiate with
        | Option.some n2 => n2
        | Option.none => n
    | NodeSt.concrete _ => n).id = n.id
  rcases hst : n.st with ⟨cls, p⟩ | act
  · cases cls with
    | combinator => rfl
    | splitter => rfl
    | user u =>
      have hi : n.instantiate =
          Option.some { n with st := NodeSt.concrete ⟨n.name, u.eps⟩ } := by
        unfold ActorNode.instantiate
        rw [hst]
      simp only [hi, ActorClass.isPlumbing, Bool.false_eq_true, if_false]
  · rfl

theorem instantiateNonPlumbing_absPlumb (g : DFG) :
    ∀ n ∈ (instantiateNonPlumbing g).nodes, n.is_abstract = true →
      ∃ cls p, n.st = NodeSt.deferred cls p ∧ cls.isPlumbing = true := by
  intro n hn habs
  rcases List.mem_map.mp hn with ⟨m, hm, rfl⟩
  rcases hst : m.st with ⟨cls, p⟩ | act
  · cases cls with
    | combinator =>
      exact ⟨ActorClass.combinator, p, hst, rfl⟩
    | splitter =>
      exact ⟨ActorClass.splitter, p, hst, rfl⟩
    | user u =>
      exfalso
      have hi : m.instantiate =
          Option.some { m with st := NodeSt.concrete ⟨m.name, u.eps⟩ } := by
        unfold ActorNode.instantiate
        rw [hst]
      have hsteq : (match m.st with
        | NodeSt.deferred cls _ =>
          if cls.isPlumbing then m
          else match m.instantiate with
            | Option.some n2 => n2
            | Option.none => m
        | NodeSt.concrete _ => m) = { m with st := NodeSt.concrete ⟨m.name, u.eps⟩ } := by
        rw [hst]
        simp only [hi, ActorClass.isPlumbing, Bool.false_eq_true, if_false]
      rw [hsteq] at habs
      unfold ActorNode.is_abstract at habs
      simp at habs
  · exfalso
    have hsteq : (match m.st with
      | NodeSt.deferred cls _ =>
        if cls.isPlumbing then m
        else match m.instantiate with
          | Option.some n2 => n2
          | Option.none => m
      | NodeSt.concrete _ => m) = m := by
      rw [hst]
    rw [hsteq] at habs
    unfold ActorNode.is_abstract at habs
    rw [hst] at habs
    simp at habs

theorem resolveEdge_shape (g : DFG) (e : Edge) :
    (resolveEdge g e).1 = e ∨
    ∃ a b, (resolveEdge g e).1 =
      { e with data := stdData a b (dget e.data "source_subr") (dget e.data "sink_subr") } := by
  unfold resolveEdge
  dsimp only
  repeat' split
  all_goals try exact Or.inl rfl
  all_goals exact Or.inr ⟨_, _, rfl⟩

theorem resolveEdgesGo_all_ok (g : DFG) :
    ∀ (rest acc : List Edge) (es : List Edge),
      resolveEdgesGo g acc rest = (es, Option.none) →
      ∀ e ∈ rest, (resolveEdge g e).2 = Option.none := by
  intro rest
  induction rest with
  | nil => intro acc es _ e he; simp at he
  | cons e0 r ih =>
    intro acc es h e he
    unfold resolveEdgesGo at h
    rcases hr : resolveEdge g e0 with ⟨e2, f⟩
    rw [hr] at h
    cases f with
    | some fv =>
      simp only [] at h
      have h2 : Option.some fv = Option.none := congrArg Prod.snd h
      exact absurd h2 (by simp)
    | none =>
      simp only [] at h
      rcases List.mem_cons.mp he with rfl | he2
      · rw [hr]
      · exact ih (acc ++ [e2]) es h e he2

theorem resolveEndpoints_success (g g2 : DFG) (h : resolveEndpoints g = (g2, Option.none)) :
    g2.nodes = g.nodes ∧ g2.nextId = g.nextId ∧ g2.elaborated = g.elaborated ∧
    (∀ e ∈ g.edges, (resolveEdge g e).2 = Option.none) ∧
    g2.edges = g.edges.map (fun e => (resolveEdge g e).1) := by
  unfold resolveEndpoints at h
  rcases hgo : resolveEdgesGo g [] g.edges with ⟨es, f⟩
  rw [hgo] at h
  simp only [] at h
  have hf : f = Option.none := congrArg Prod.snd h
  have hg2 : ({ g with edges := es } : DFG) = g2 := congrArg Prod.fst h
  subst hf
  have hok := resolveEdgesGo_all_ok g g.edges [] es hgo
  have hes : es = g.edges.map (fun e => (resolveEdge g e).1) := by
    have := resolveEdgesGo_ok g g.edges [] hok
    rw [hgo] at this
    have h2 : es = [] ++ g.edges.map (fun e => (resolveEdge g e).1) := congrArg Prod.fst this
    simpa using h2
  rw [← hg2]
  exact ⟨rfl, rfl, rfl, hok, hes⟩

/-- Names, ids and subrecords of a successfully resolved edge: ids and
subrecords are kept; an omitted name is rewritten to the unique endpoint
of the concrete owner; a present name is kept. -/
theorem resolveEdge_success (g : DFG) (e : Edge) (hok : (resolveEdge g e).2 = Option.none) :
    (resolveEdge g e).1.src = e.src ∧ (resolveEdge g e).1.dst = e.dst ∧
    dget (resolveEdge g e).1.data "source_subr" = dget e.data "source_subr" ∧
    dget (resolveEdge g e).1.data "sink_subr" = dget e.data "sink_subr" ∧
    ((dget e.data "source" = PyVal.none ∧
      ∃ act s, (g.nodeOf e.src).st = NodeSt.concrete act ∧
        act.single_source = Option.some s ∧
        dget (resolveEdge g e).1.data "source" = PyVal.str s) ∨
      dget (resolveEdge g e).1.data "source" = dget e.data "source") ∧
    ((dget e.data "sink" = PyVal.none ∧
      ∃ act t, (g.nodeOf e.dst).st = NodeSt.concrete act ∧
        act.single_sink = Option.some t ∧
        dget (resolveEdge g e).1.data "sink" = PyVal.str t) ∨
      dget (resolveEdge g e).1.data "sink" = dget e.data "sink") := by
  rcases hsrc : dget e.data "source" with _ | s0 | p0
  · rcases hns : (g.nodeOf e.src).st with ⟨cls, pp⟩ | act
    · exfalso
      have hres : resolveEdge g e = (e, Option.some Fault.assertionError) := by
        unfold resolveEdge
        simp only [hsrc, hns]
      rw [hres] at hok
      exact absurd hok (by simp)
    · rcases hss : act.single_source with _ | s
      · exfalso
        have hres : resolveEdge g e = (e, Option.some Fault.ambiguousEndpoint) := by
          unfold resolveEdge
          simp only [hsrc, hns, hss]
        rw [hres] at hok
        exact absurd hok (by simp)
      · rcases hsk : dget e.data "sink" with _ | t0 | q0
        · rcases hnd : (g.nodeOf e.dst).st with ⟨cls2, pp2⟩ | act2
          · exfalso
            have hres : resolveEdge g e =
                ({ e with data := stdData (PyVal.str s) PyVal.none (dget e.data "source_subr") (dget e.data "sink_subr") },
                  Option.some Fault.assertionError) := by
              unfold resolveEdge
              simp only [hsrc, hns, hss]
              rw [show dget (stdData (PyVal.str s) (dget e.data "sink")
                  (dget e.data "source_subr") (dget e.data "sink_subr")) "sink" =
                  dget e.data "sink" from rfl]
              simp only [hsk, hnd]
            rw [hres] at hok
            exact absurd hok (by simp)
          · rcases hst2 : act2.single_sink with _ | t
            · exfalso
              have hres : resolveEdge g e =
                  ({ e with data := stdData (PyVal.str s) PyVal.none (dget e.data "source_subr") (dget e.data "sink_subr") },
                    Option.some Fault.ambiguousEndpoint) := by
                unfold resolveEdge
                simp only [hsrc, hns, hss]
                rw [show dget (stdData (PyVal.str s) (dget e.data "sink")
                    (dget e.data "source_subr") (dget e.data "sink_subr")) "sink" =
                    dget e.data "sink" from rfl]
                simp only [hsk, hnd, hst2]
              rw [hres] at hok
              exact absurd hok (by simp)
            · have hres : resolveEdge g e =
                  ({ e with data := stdData (PyVal.str s) (PyVal.str t) (dget e.data "source_subr") (dget e.data "sink_subr") }, Option.none) := by
                unfold resolveEdge
                simp only [hsrc, hns, hss]
                rw [show dget (stdData (PyVal.str s) (dget e.data "sink")
                    (dget e.data "source_subr") (dget e.data "sink_subr")) "sink" =
                    dget e.data "sink" from rfl]
                simp only [hsk, hnd, hst2]
              rw [hres]
              exact ⟨rfl, rfl, rfl, rfl, Or.inl ⟨rfl, act, s, rfl, hss, rfl⟩,
                Or.inl ⟨rfl, act2, t, rfl, hst2, rfl⟩⟩
        · have hres : resolveEdge g e =
              ({ e with data := stdData (PyVal.str s) (PyVal.str t0) (dget e.data "source_subr") (dget e.data "sink_subr") }, Option.none) := by
            unfold resolveEdge
            simp only [hsrc, hns, hss]
            rw [show dget (stdData (PyVal.str s) (dget e.data "sink")
                (dget e.data "source_subr") (dget e.data "sink_subr")) "sink" =
                dget e.data "sink" from rfl]
            simp only [hsk]
          rw [hres]
          exact ⟨rfl, rfl, rfl, rfl, Or.inl ⟨rfl, act, s, rfl, hss, rfl⟩, Or.inr rfl⟩
        · have hres : resolveEdge g e =
              ({ e with data := stdData (PyVal.str s) (PyVal.proj q0) (dget e.data "source_subr") (dget e.data "sink_subr") }, Option.none) := by
            unfold resolveEdge
            simp only [hsrc, hns, hss]
            rw [show dget (stdData (PyVal.str s) (dget e.data "sink")
                (dget e.data "source_subr") (dget e.data "sink_subr")) "sink" =
                dget e.data "sink" from rfl]
            simp only [hsk]
          rw [hres]
          exact ⟨rfl, rfl, rfl, rfl, Or.inl ⟨rfl, act, s, rfl, hss, rfl⟩, Or.inr rfl⟩
  · rcases hsk : dget e.data "sink" with _ | t0 | q0
    · rcases hnd : (g.nodeOf e.dst).st with ⟨cls2, pp2⟩ | act2
      · exfalso
        have hres : resolveEdge g e = (e, Option.some Fault.assertionError) := by
          unfold resolveEdge
          simp only [hsrc, hsk, hnd]
        rw [hres] at hok
        exact absurd hok (by simp)
      · rcases hst2 : act2.single_sink with _ | t
        · exfalso
          have hres : resolveEdge g e = (e, Option.some Fault.ambiguousEndpoint) := by
            unfold resolveEdge
            simp only [hsrc, hsk, hnd, hst2]
          rw [hres] at hok
          exact absurd hok (by simp)
        · have hres : resolveEdge g e =
              ({ e with data := stdData (PyVal.str s0) (PyVal.str t) (dget e.data "source_subr") (dget e.data "sink_subr") }, Option.none) := by
            unfold resolveEdge
            simp only [hsrc, hsk, hnd, hst2]
          rw [hres]
          exact ⟨rfl, rfl, rfl, rfl, Or.inr rfl, Or.inl ⟨rfl, act2, t, rfl, hst2, rfl⟩⟩
    · have hres : resolveEdge g e = (e, Option.none) := by
        unfold resolveEdge
        simp only [hsrc, hsk]
      rw [hres]
      exact ⟨rfl, rfl, rfl, rfl, Or.inr hsrc, Or.inr hsk⟩
    · have hres : resolveEdge g e = (e, Option.none) := by
        unfold resolveEdge
        simp only [hsrc, hsk]
      rw [hres]
      exact ⟨rfl, rfl, rfl, rfl, Or.inr hsrc, Or.inr hsk⟩
  · rcases hsk : dget e.data "sink" with _ | t0 | q0
    · rcases hnd : (g.nodeOf e.dst).st with ⟨cls2, pp2⟩ | act2
      · exfalso
        have hres : resolveEdge g e = (e, Option.some Fault.assertionError) := by
          unfold resolveEdge
          simp only [hsrc, hsk, hnd]
        rw [hres] at hok
        exact absurd hok (by simp)
      · rcases hst2 : act2.single_sink with _ | t
        · exfalso
          have hres : resolveEdge g e = (e, Option.some Fault.ambiguousEndpoint) := by
            unfold resolveEdge
            simp only [hsrc, hsk, hnd, hst2]
          rw [hres] at hok
          exact absurd hok (by simp)
        · have hres : resolveEdge g e =
              ({ e with data := stdData (PyVal.proj p0) (PyVal.str t) (dget e.data "source_subr") (dget e.data "sink_subr") }, Option.none) := by
            unfold resolveEdge
            simp only [hsrc, hsk, hnd, hst2]
          rw [hres]
          exact ⟨rfl, rfl, rfl, rfl, Or.inr rfl, Or.inl ⟨rfl, act2, t, rfl, hst2, rfl⟩⟩
    · have hres : resolveEdge g e = (e, Option.none) := by
        unfold resolveEdge
        simp only [hsrc, hsk]
      rw [hres]
      exact ⟨rfl, rfl, rfl, rfl, Or.inr hsrc, Or.inr hsk⟩
    · have hres : resolveEdge g e = (e, Option.none) := by
        unfold resolveEdge
        simp only [hsrc, hsk]
      rw [hres]
      exact ⟨rfl, rfl, rfl, rfl, Or.inr hsrc, Or.inr hsk⟩

theorem length_filter_imp {γ : Type} (l : List γ) (P Q : γ → Bool)
    (h : ∀ x ∈ l, P x = true → Q x = true) :
    (l.filter P).length ≤ (l.filter Q).length := by
  induction l with
  | nil => exact Nat.le_refl _
  | cons x t ih =>
    rw [List.filter_cons, List.filter_cons]
    have ih2 := ih (fun y hy => h y (List.mem_cons_of_mem _ hy))
    cases hP : P x with
    | false =>
      simp only [Bool.false_eq_true, if_false]
      cases hQ : Q x with
      | false =>
        simp only [Bool.false_eq_true, if_false]
        exact ih2
      | true =>
        simp only [eq_self_iff_true, if_true, List.length_cons]
        omega
    | true =>
      have hQ : Q x = true := h x (List.mem_cons_self _ _) hP
      rw [hQ]
      simp only [eq_self_iff_true, if_true, List.length_cons]
      omega

/-- Default-endpoint resolution keeps per-source-key edge counts at most
one, under the no-mixed-endpoints condition. -/
theorem resolved_srcCount (gi : DFG) (hwf : gi.wf = true)
    (hnm : gi.noMixedEndpoints = true)
    (hok : ∀ e ∈ gi.edges, (resolveEdge gi e).2 = Option.none)
    (hcnt : ∀ srcId ep, srcCount gi srcId ep ≤ 1)
    (g2 : DFG) (hedges : g2.edges = gi.edges.map (fun e => (resolveEdge gi e).1))
    (srcId : Nat) (ep : PyVal) :
    srcCount g2 srcId ep ≤ 1 := by
  unfold srcCount
  rw [hedges, filter_map_comm, List.length_map]
  by_cases hN : ∃ e0 ∈ gi.edges, e0.src = srcId ∧ dget e0.data "source" = PyVal.none
  · rcases hN with ⟨e0, he0, hid0, hv0⟩
    rcases wf_src_present gi hwf e0 he0 with ⟨hu, huid⟩
    have huid2 : (gi.nodeOf e0.src).id = srcId := by rw [huid, hid0]
    unfold DFG.noMixedEndpoints at hnm
    rw [List.all_eq_true] at hnm
    have hnm2 := hnm (gi.nodeOf e0.src) hu
    rw [Bool.and_eq_true] at hnm2
    have hnmsrc := hnm2.1
    have hanyN : gi.edges.any (fun e => e.src == (gi.nodeOf e0.src).id &&
        dget e.data "source" == PyVal.none) = true := by
      rw [List.any_eq_true]
      refine ⟨e0, he0, ?_⟩
      rw [Bool.and_eq_true]
      constructor
      · rw [beq_iff_eq, huid2, hid0]
      · rw [beq_iff_eq, hv0]
    have hanyS : gi.edges.any (fun e => e.src == (gi.nodeOf e0.src).id &&
        !(dget e.data "source" == PyVal.none)) = false := by
      cases hx : gi.edges.any (fun e => e.src == (gi.nodeOf e0.src).id &&
          !(dget e.data "source" == PyVal.none)) with
      | false => rfl
      | true =>
        rw [hanyN, hx] at hnmsrc
        exact absurd hnmsrc (by simp)
    have hall : ∀ e ∈ gi.edges, e.src = srcId → dget e.data "source" = PyVal.none := by
      intro e he hesrc
      by_contra hne
      have : gi.edges.any (fun e2 => e2.src == (gi.nodeOf e0.src).id &&
          !(dget e2.data "source" == PyVal.none)) = true := by
        rw [List.any_eq_true]
        refine ⟨e, he, ?_⟩
        rw [Bool.and_eq_true]
        constructor
        · rw [beq_iff_eq, huid2, hesrc]
        · rw [beq_eq_false_iff_ne.mpr hne]
          rfl
      rw [hanyS] at this
      exact absurd this (by simp)
    have hle := length_filter_imp gi.edges
      (fun e => (resolveEdge gi e).1.src == srcId &&
        dget (resolveEdge gi e).1.data "source" == ep)
      (fun e => e.src == srcId && dget e.data "source" == PyVal.none) ?himp
    case himp =>
      intro e he hp
      rw [Bool.and_eq_true] at hp
      have hsrcid := (resolveEdge_success gi e (hok e he)).1
      have hesrc : e.src = srcId := by rw [← hsrcid]; exact beq_iff_eq.mp hp.1
      rw [Bool.and_eq_true]
      constructor
      · rw [beq_iff_eq]
        exact hesrc
      · rw [beq_iff_eq]
        exact hall e he hesrc
    exact Nat.le_trans hle (hcnt srcId PyVal.none)
  · have hcong : gi.edges.filter (fun e => (resolveEdge gi e).1.src == srcId &&
        dget (resolveEdge gi e).1.data "source" == ep) =
        gi.edges.filter (fun e => e.src == srcId && dget e.data "source" == ep) := by
      apply List.filter_congr
      intro e he
      have hch := resolveEdge_success gi e (hok e he)
      have hsrcid := hch.1
      by_cases hesrc : e.src = srcId
      · rcases hch.2.2.2.2.1 with ⟨hnone, _⟩ | hpres
        · exact absurd ⟨e, he, hesrc, hnone⟩ hN
        · rw [hsrcid, hpres]
      · have hf : (e.src == srcId) = false := beq_eq_false_iff_ne.mpr hesrc
        simp only [hsrcid, hf, Bool.false_and]
    rw [hcong]
    exact hcnt srcId ep

/-- Default-endpoint resolution keeps per-sink-key edge counts at most
one, under the no-mixed-endpoints condition. -/
theorem resolved_sinkCount (gi : DFG) (hwf : gi.wf = true)
    (hnm : gi.noMixedEndpoints = true)
    (hok : ∀ e ∈ gi.edges, (resolveEdge gi e).2 = Option.none)
    (hcnt : ∀ dstId ep, sinkCount gi dstId ep ≤ 1)
    (g2 : DFG) (hedges : g2.edges = gi.edges.map (fun e => (resolveEdge gi e).1))
    (dstId : Nat) (ep : PyVal) :
    sinkCount g2 dstId ep ≤ 1 := by
  unfold sinkCount
  rw [hedges, filter_map_comm, List.length_map]
  by_cases hN : ∃ e0 ∈ gi.edges, e0.dst = dstId ∧ dget e0.data "sink" = PyVal.none
  · rcases hN with ⟨e0, he0, hid0, hv0⟩
    rcases wf_dst_present gi hwf e0 he0 with ⟨hu, huid⟩
    have huid2 : (gi.nodeOf e0.dst).id = dstId := by rw [huid, hid0]
    unfold DFG.noMixedEndpoints at hnm
    rw [List.all_eq_true] at hnm
    have hnm2 := hnm (gi.nodeOf e0.dst) hu
    rw [Bool.and_eq_true] at hnm2
    have hnmsnk := hnm2.2
    have hanyN : gi.edges.any (fun e => e.dst == (gi.nodeOf e0.dst).id &&
        dget e.data "sink" == PyVal.none) = true := by
      rw [List.any_eq_true]
      refine ⟨e0, he0, ?_⟩
      rw [Bool.and_eq_true]
      constructor
      · rw [beq_iff_eq, huid2, hid0]
      · rw [beq_iff_eq, hv0]
    have hanyS : gi.edges.any (fun e => e.dst == (gi.nodeOf e0.dst).id &&
        !(dget e.data "sink" == PyVal.none)) = false := by
      cases hx : gi.edges.any (fun e => e.dst == (gi.nodeOf e0.dst).id &&
          !(dget e.data "sink" == PyVal.none)) with
      | false => rfl
      | true =>
        rw [hanyN, hx] at hnmsnk
        exact absurd hnmsnk (by simp)
    have hall : ∀ e ∈ gi.edges, e.dst = dstId → dget e.data "sink" = PyVal.none := by
      intro e he hedst
      by_contra hne
      have : gi.edges.any (fun e2 => e2.dst == (gi.nodeOf e0.dst).id &&
          !(dget e2.data "sink" == PyVal.none)) = true := by
        rw [List.any_eq_true]
        refine ⟨e, he, ?_⟩
        rw [Bool.and_eq_true]
        constructor
        · rw [beq_iff_eq, huid2, hedst]
        · rw [beq_eq_false_iff_ne.mpr hne]
          rfl
      rw [hanyS] at this
      exact absurd this (by simp)
    have hle := length_filter_imp gi.edges
      (fun e => (resolveEdge gi e).1.dst == dstId &&
        dget (resolveEdge gi e).1.data "sink" == ep)
      (fun e => e.dst == dstId && dget e.data "sink" == PyVal.none) ?himp
    case himp =>
      intro e he hp
      rw [Bool.and_eq_true] at hp
      have hdstid := (resolveEdge_success gi e (hok e he)).2.1
      have hedst : e.dst = dstId := by rw [← hdstid]; exact beq_iff_eq.mp hp.1
      rw [Bool.and_eq_true]
      constructor
      · rw [beq_iff_eq]
        exact hedst
      · rw [beq_iff_eq]
        exact hall e he hedst
    exact Nat.le_trans hle (hcnt dstId PyVal.none)
  · have hcong : gi.edges.filter (fun e => (resolveEdge gi e).1.dst == dstId &&
        dget (resolveEdge gi e).1.data "sink" == ep) =
        gi.edges.filter (fun e => e.dst == dstId && dget e.data "sink" == ep) := by
      apply List.filter_congr
      intro e he
      have hch := resolveEdge_success gi e (hok e he)
      have hdstid := hch.2.1
      by_cases hedst : e.dst = dstId
      · rcases hch.2.2.2.2.2 with ⟨hnone, _⟩ | hpres
        · exact absurd ⟨e, he, hedst, hnone⟩ hN
        · rw [hdstid, hpres]
      · have hf : (e.dst == dstId) = false := beq_eq_false_iff_ne.mpr hedst
        simp only [hdstid, hf, Bool.false_and]
    rw [hcong]
    exact hcnt dstId ep

/-!
## Assembly of the post-elaboration invariant
-/
theorem absPlumb_empty_all_concrete (g : DFG)
    (hemp : g.abstractPlumbing.isEmpty = true)
    (habs : ∀ n ∈ g.nodes, n.is_abstract = true →
      ∃ cls p, n.st = NodeSt.deferred cls p ∧ cls.isPlumbing = true) :
    ∀ n ∈ g.nodes, n.is_abstract = false := by
  intro n hn
  cases ha : n.is_abstract with
  | false => rfl
  | true =>
    exfalso
    rcases habs n hn ha with ⟨cls, p, hst, hpl⟩
    have hmem : n.id ∈ g.abstractPlumbing := by
      unfold DFG.abstractPlumbing
      apply List.mem_map.mpr
      refine ⟨n, List.mem_filter.mpr ⟨hn, ?_⟩, rfl⟩
      rw [Bool.and_eq_true]
      refine ⟨ha, ?_⟩
      rw [hst]
      exact hpl
    rw [List.isEmpty_iff] at hemp
    rw [hemp] at hmem
    exact absurd hmem (List.not_mem_nil _)

theorem divergences_empty_of_counts (g : DFG) (hwf : g.wf = true)
    (hcnt : ∀ i ep, srcCount g i ep ≤ 1) : g.listDivergences = [] := by
  unfold DFG.listDivergences
  rw [List.filter_eq_nil_iff]
  intro kv hkv
  obtain ⟨K, sinks⟩ := kv
  have hlen := src_group_len g hwf K sinks hkv
  have hc := hcnt K.1.id K.2
  unfold srcCount at hc
  simp only [decide_eq_true_eq]
  show ¬ sinks.length > 1
  omega

theorem wf_resolved (g2 g3 : DFG) (hwf2 : g2.wf = true)
    (hnodes : g3.nodes = g2.nodes) (hnext : g3.nextId = g2.nextId)
    (hok : ∀ e ∈ g2.edges, (resolveEdge g2 e).2 = Option.none)
    (hedges : g3.edges = g2.edges.map (fun e => (resolveEdge g2 e).1)) :
    g3.wf = true := by
  rcases wf_parts g2 hwf2 with ⟨h1, h2, h3⟩
  apply wf_of_parts
  · rw [hnodes]
    exact h1
  · intro n hn
    rw [hnodes] at hn
    rw [hnext]
    exact h2 n hn
  · intro e he
    rw [hedges] at he
    rcases List.mem_map.mp he with ⟨e0, he0, rfl⟩
    have hch := resolveEdge_success g2 e0 (hok e0 he0)
    rcases h3 e0 he0 with ⟨⟨n1, hn1, hid1⟩, ⟨n2, hn2, hid2⟩, hstd⟩
    refine ⟨⟨n1, ?_, ?_⟩, ⟨n2, ?_, ?_⟩, ?_⟩
    · rw [hnodes]
      exact hn1
    · rw [hch.1]
      exact hid1
    · rw [hnodes]
      exact hn2
    · rw [hch.2.1]
      exact hid2
    · rcases resolveEdge_shape g2 e0 with hs | ⟨a, b, hs⟩
      · rw [hs]
        exact hstd
      · rw [hs]
        exact stdEdge_mk e0.src e0.dst a b (dget e0.data "source_subr") (dget e0.data "sink_subr")

theorem resolved_no_subr (g2 g3 : DFG)
    (hok : ∀ e ∈ g2.edges, (resolveEdge g2 e).2 = Option.none)
    (hedges : g3.edges = g2.edges.map (fun e => (resolveEdge g2 e).1))
    (hpre : ∀ e ∈ g2.edges, dget e.data "source_subr" = PyVal.none ∧
      dget e.data "sink_subr" = PyVal.none) :
    ∀ e ∈ g3.edges, dget e.data "source_subr" = PyVal.none ∧
      dget e.data "sink_subr" = PyVal.none := by
  intro e he
  rw [hedges] at he
  rcases List.mem_map.mp he with ⟨e0, he0, rfl⟩
  have hch := resolveEdge_success g2 e0 (hok e0 he0)
  rcases hpre e0 he0 with ⟨ha, hb⟩
  exact ⟨by rw [hch.2.2.1, ha], by rw [hch.2.2.2.1, hb]⟩

theorem is_abstract_false_assembly (g : DFG) (hwf : g.wf = true)
    (hconc : ∀ n ∈ g.nodes, n.is_abstract = false)
    (hsubr : ∀ e ∈ g.edges, dget e.data "source_subr" = PyVal.none ∧
      dget e.data "sink_subr" = PyVal.none)
    (hdiv : g.listDivergences = []) :
    g.is_abstract = false := by
  unfold DFG.is_abstract
  have h1 : g.nodes.any (fun n => n.is_abstract) = false := by
    rw [List.any_eq_false]
    intro n hn
    rw [hconc n hn]
    simp
  have h2 : g.edgesIter.any (fun e =>
      !(dget e.data "source_subr" == PyVal.none) ||
      !(dget e.data "sink_subr" == PyVal.none)) = false := by
    rw [List.any_eq_false]
    intro e he
    have he2 := (mem_edgesIter g hwf e).mp he
    rcases hsubr e he2 with ⟨ha, hb⟩
    rw [ha, hb]
    simp
  have h3 : g.listDivergences.isEmpty = true := by
    rw [hdiv]
    rfl
  rw [h1, h2, h3]
  rfl

/-- C1 (amended): on a well-formed graph with no node mixing omitted and
named endpoints of one polarity, a not-yet-elaborated `elaborate()` with
the default optimizer that completes without a fault yields a graph with
`is_abstract() = false`, every node concrete, no subrecord projection on
any edge, and at most one incoming edge per sink endpoint key (so exactly
one for every fed sink endpoint) and at most one outgoing edge per source
endpoint key. -/
theorem claimC1_amended (g g2 : DFG) (hwf : g.wf = true)
    (hnm : g.noMixedEndpoints = true) (hflag : g.elaborated = false)
    (hsucc : DFG.elaborate g Option.none = (g2, Option.none)) :
    g2.is_abstract = false ∧
    (∀ n ∈ g2.nodes, n.is_abstract = false) ∧
    (∀ e ∈ g2.edges, dget e.data "source_subr" = PyVal.none ∧
      dget e.data "sink_subr" = PyVal.none) ∧
    (∀ dstId ep, sinkCount g2 dstId ep ≤ 1) ∧
    (∀ srcId ep, srcCount g2 srcId ep ≤ 1) := by
  have hstep : DFG.instantiateActors
      (DFG.eliminateSubrecordsAndDivergences { g with elaborated := true }) =
      (g2, Option.none) := by
    unfold DFG.elaborate at hsucc
    rw [hflag] at hsucc
    simp only [Bool.false_eq_true, if_false] at hsucc
    exact hsucc
  have hwf1 : (DFG.mk g.nodes g.edges g.nextId true).wf = true := hwf
  have hnm1 : (DFG.mk g.nodes g.edges g.nextId true).noMixedEndpoints = true := hnm
  have hwfp := wf_pass1 (DFG.mk g.nodes g.edges g.nextId true) hwf1
  have hnmp := pass1_noMixed (DFG.mk g.nodes g.edges g.nextId true) hwf1 hnm1
  have hsnkp := pass1_sinkCount (DFG.mk g.nodes g.edges g.nextId true) hwf1
  have hsrcp := pass1_srcCount (DFG.mk g.nodes g.edges g.nextId true) hwf1
  have hsubp := pass1_no_subr (DFG.mk g.nodes g.edges g.nextId true) hwf1
  rcases hfix : inferPlumbingLayout
      ((instantiateNonPlumbing (DFG.eliminateSubrecordsAndDivergences
        (DFG.mk g.nodes g.edges g.nextId true))).nodes.length + 1)
      (instantiateNonPlumbing (DFG.eliminateSubrecordsAndDivergences
        (DFG.mk g.nodes g.edges g.nextId true))) with ⟨gm, fm⟩
  have hstep2 : (match (gm, fm) with
      | (gx, Option.some f) => (gx, Option.some f)
      | (gx, Option.none) => resolveEndpoints gx) = (g2, Option.none) := by
    rw [← hfix]
    exact hstep
  cases fm with
  | some fv =>
    exfalso
    have h2 : (gm, Option.some fv) = (g2, Option.none) := hstep2
    exact absurd (congrArg Prod.snd h2) (by simp)
  | none =>
    have hres : resolveEndpoints gm = (g2, Option.none) := hstep2
    have hedm : gm.edges = (DFG.eliminateSubrecordsAndDivergences
        (DFG.mk g.nodes g.edges g.nextId true)).edges := by
      have h := inferPlumbing_edges
        ((instantiateNonPlumbing (DFG.eliminateSubrecordsAndDivergences
          (DFG.mk g.nodes g.edges g.nextId true))).nodes.length + 1)
        (instantiateNonPlumbing (DFG.eliminateSubrecordsAndDivergences
          (DFG.mk g.nodes g.edges g.nextId true)))
      rw [hfix] at h
      rw [instantiateNonPlumbing_edges] at h
      exact h
    have hnextm : gm.nextId = (DFG.eliminateSubrecordsAndDivergences
        (DFG.mk g.nodes g.edges g.nextId true)).nextId := by
      have h := inferPlumbing_nextId
        ((instantiateNonPlumbing (DFG.eliminateSubrecordsAndDivergences
          (DFG.mk g.nodes g.edges g.nextId true))).nodes.length + 1)
        (instantiateNonPlumbing (DFG.eliminateSubrecordsAndDivergences
          (DFG.mk g.nodes g.edges g.nextId true)))
      rw [hfix] at h
      rw [instantiateNonPlumbing_nextId] at h
      exact h
    have hidsm : gm.nodes.map (fun m => m.id) = (DFG.eliminateSubrecordsAndDivergences
        (DFG.mk g.nodes g.edges g.nextId true)).nodes.map (fun m => m.id) := by
      have h := inferPlumbing_ids
        ((instantiateNonPlumbing (DFG.eliminateSubrecordsAndDivergences
          (DFG.mk g.nodes g.edges g.nextId true))).nodes.length + 1)
        (instantiateNonPlumbing (DFG.eliminateSubrecordsAndDivergences
          (DFG.mk g.nodes g.edges g.nextId true)))
      rw [hfix] at h
      rw [instantiateNonPlumbing_ids] at h
      exact h
    have hwfm : gm.wf = true :=
      wf_ids_transport (DFG.eliminateSubrecordsAndDivergences
        (DFG.mk g.nodes g.edges g.nextId true)) gm hidsm hedm hnextm hwfp
    have hnmm : gm.noMixedEndpoints = true :=
      noMixed_ids_transport (DFG.eliminateSubrecordsAndDivergences
        (DFG.mk g.nodes g.edges g.nextId true)) gm hidsm hedm hnmp
    have hsnkm : ∀ i ep, sinkCount gm i ep ≤ 1 := by
      intro i ep
      unfold sinkCount
      rw [hedm]
      exact hsnkp i ep
    have hsrcm : ∀ i ep, srcCount gm i ep ≤ 1 := by
      intro i ep
      unfold srcCount
      rw [hedm]
      exact hsrcp i ep
    have hsubm : ∀ e ∈ gm.edges, dget e.data "source_subr" = PyVal.none ∧
        dget e.data "sink_subr" = PyVal.none := by
      intro e he
      rw [hedm] at he
      exact hsubp e he
    have habsm : ∀ n ∈ gm.nodes, n.is_abstract = true →
        ∃ cls p, n.st = NodeSt.deferred cls p ∧ cls.isPlumbing = true := by
      have h := inferPlumbing_absPlumb
        ((instantiateNonPlumbing (DFG.eliminateSubrecordsAndDivergences
          (DFG.mk g.nodes g.edges g.nextId true))).nodes.length + 1)
        (instantiateNonPlumbing (DFG.eliminateSubrecordsAndDivergences
          (DFG.mk g.nodes g.edges g.nextId true)))
        (instantiateNonPlumbing_absPlumb (DFG.eliminateSubrecordsAndDivergences
          (DFG.mk g.nodes g.edges g.nextId true)))
      rw [hfix] at h
      exact h
    have hempm : gm.abstractPlumbing.isEmpty = true :=
      inferPlumbing_success_empty _ _ gm hfix
    have hconcm : ∀ n ∈ gm.nodes, n.is_abstract = false :=
      absPlumb_empty_all_concrete gm hempm habsm
    have hchar := resolveEndpoints_success gm g2 hres
    have hok2 := hchar.2.2.2.1
    have hedges2 := hchar.2.2.2.2
    have hconc2 : ∀ n ∈ g2.nodes, n.is_abstract = false := by
      intro n hn
      rw [hchar.1] at hn
      exact hconcm n hn
    have hsub2 := resolved_no_subr gm g2 hok2 hedges2 hsubm
    have hwf2 : g2.wf = true := wf_resolved gm g2 hwfm hchar.1 hchar.2.1 hok2 hedges2
    have hsnk2 : ∀ i ep, sinkCount g2 i ep ≤ 1 := fun i ep =>
      resolved_sinkCount gm hwfm hnmm hok2 hsnkm g2 hedges2 i ep
    have hsrc2 : ∀ i ep, srcCount g2 i ep ≤ 1 := fun i ep =>
      resolved_srcCount gm hwfm hnmm hok2 hsrcm g2 hedges2 i ep
    have hdiv2 := divergences_empty_of_counts g2 hwf2 hsrc2
    exact ⟨is_abstract_false_assembly g2 hwf2 hconc2 hsub2 hdiv2,
      hconc2, hsub2, hsnk2, hsrc2⟩

/-- Witness for the amended C1 at the two-source fan-in example: the
hypotheses hold concretely and the elaborated graph is no longer
abstract. -/
theorem claimC1_amended_witness :
    exFanin.wf = true ∧ exFanin.noMixedEndpoints = true ∧
    exFanin.elaborated = false ∧
    (DFG.elaborate exFanin Option.none).1.is_abstract = false :=
  ⟨by decide, by decide, by decide,
    (claimC1_amended exFanin (DFG.elaborate exFanin Option.none).1
      (by decide) (by decide) (by decide) (by decide)).1⟩
